import Mathlib

/-!
# A five-stage pipelined MIPS simulator (`mips_sim.cpp`)

Shallow embedding of the simulator: the assembler front-end (`stripComments`,
the first pass of `main`, `getRegNumber`, `parseLine`) and the pipeline loop of
`main` (Write-Back, Memory, Execute, Decode, Fetch, flush, latch advance).

Conventions of the embedding

* `int` is a 32-bit two's-complement integer: values are `Int`, and the ALU
  reduces its results with `wrap32`.
* `std::string` is `String`; the character-level work is done on `List Char`.
* The input is UTF-8 text and a `std::string` holds its bytes. Every character
  the source searches for or compares with is ASCII, so positions and
  substrings are taken on characters; the one place where a byte count cuts
  through a character, `tok.substr(0, tok.size() - 1)`, is `dropLastByte`.
* A thrown C++ exception (`std::stoi`) is `none`.
* An array access outside its bounds (`cpu.regs[i]` with `i` outside `0..31`,
  `program[pc]` with `pc < 0`) has no defined behaviour in C++: the stage
  returns `none`. The data memory is bounds-checked by the source itself.
* `branchTaken` is `false` at the head of every loop iteration (it is cleared
  in the iteration that sets it) and `branchTarget` is only read when
  `branchTaken` was set in the same iteration, so the pair is the local
  `Option Int` returned by `exStage`.
-/

namespace MipsSim

/-! ## Configuration -/

/-- Number of general-purpose registers (`constexpr int REG_COUNT = 32`). -/
def REG_COUNT : Nat := 32

/-- Number of data-memory words (`constexpr int MEM_SIZE = 1024`). -/
def MEM_SIZE : Nat := 1024

/-- Reduction of an integer to the 32-bit two's-complement range. -/
def wrap32 (x : Int) : Int := (x + 2147483648) % 4294967296 - 2147483648

/-! ## Instruction representation and latches -/

/-- The `struct Instruction` of the source, with its default member values. -/
structure Instruction where
  opcode : String := ""
  rs : Int := 0
  rt : Int := 0
  rd : Int := 0
  imm : Int := 0
  address : Int := -1
  raw : String := ""
  valid : Bool := false
deriving DecidableEq, Inhabited

/-- Fetch/Decode latch (`struct IF_ID`). -/
structure IF_ID where
  inst : Instruction := {}
  npc : Int := 0
deriving DecidableEq, Inhabited

/-- Decode/Execute latch (`struct ID_EX`). -/
structure ID_EX where
  inst : Instruction := {}
  npc : Int := 0
  rsVal : Int := 0
  rtVal : Int := 0
  imm : Int := 0
deriving DecidableEq, Inhabited

/-- Execute/Memory latch (`struct EX_MEM`). -/
structure EX_MEM where
  inst : Instruction := {}
  aluResult : Int := 0
  rtVal : Int := 0
deriving DecidableEq, Inhabited

/-- Memory/Writeback latch (`struct MEM_WB`). -/
structure MEM_WB where
  inst : Instruction := {}
  memData : Int := 0
  aluResult : Int := 0
  rtVal : Int := 0
deriving DecidableEq, Inhabited

/-- The `struct CPU`: `regs` and `mem` are maps from the array index to the
stored word; every access goes through a bounds test. -/
structure CPU where
  regs : Nat → Int := fun _ => 0
  mem : Nat → Int := fun _ => 0
  pc : Int := 0

/-- The loop-carried state of `main`: the CPU and the four latches. -/
structure State where
  cpu : CPU := {}
  ifid : IF_ID := {}
  idex : ID_EX := {}
  exmem : EX_MEM := {}
  memwb : MEM_WB := {}

/-- Array store `a[i] = v`. -/
def setAt (a : Nat → Int) (i : Nat) (v : Int) : Nat → Int :=
  fun j => if j = i then v else a j

/-! ## Front-end: characters, tokens, numbers -/

/-- The characters `std::isspace` accepts in the C locale. -/
def isSpaceC (c : Char) : Bool :=
  c = ' ' || c = Char.ofNat 9 || c = Char.ofNat 10 || c = Char.ofNat 11 ||
  c = Char.ofNat 12 || c = Char.ofNat 13

/-- One extraction `iss >> tok`: skip leading white space, read up to the next
white space. Gives the token and the rest of the stream; at the end of the
stream the token is empty. -/
def nextToken (s : List Char) : List Char × List Char :=
  let t := s.dropWhile isSpaceC
  (t.takeWhile (fun c => !isSpaceC c), t.dropWhile (fun c => !isSpaceC c))

/-- The word of index `n` of a stream: the token the `(n + 1)`-th extraction
`iss >> tok` gives, empty when the stream has fewer words. -/
def nthToken : Nat → List Char → List Char
  | 0, s => (nextToken s).1
  | n + 1, s => nthToken n (nextToken s).2

/-- Value of a digit string, most significant digit first, on top of `acc`. -/
def digitsVal (acc : Nat) : List Char → Nat
  | [] => acc
  | c :: cs => digitsVal (10 * acc + (c.toNat - 48)) cs

/-- Model of `std::stoi(s)`: leading white space, an optional sign, then the
longest run of decimal digits; `none` stands for `std::invalid_argument` (no
digit) and for `std::out_of_range` (value outside `int`). -/
def stoi (s : List Char) : Option Int :=
  let t := s.dropWhile isSpaceC
  let neg : Bool := match t with
    | c :: _ => c = '-'
    | [] => false
  let u : List Char := match t with
    | c :: r => if c = '-' || c = '+' then r else t
    | [] => t
  let ds := u.takeWhile Char.isDigit
  if ds = [] then none
  else
    let v : Int := if neg then -((digitsVal 0 ds : Nat) : Int) else ((digitsVal 0 ds : Nat) : Int)
    if -2147483648 ≤ v ∧ v ≤ 2147483647 then some v else none

/-- The global table `regMap`. -/
def regMap : List (List Char × Int) :=
  [("$zero".data, 0), ("$t0".data, 8), ("$t1".data, 9), ("$t2".data, 10), ("$t3".data, 11),
   ("$t4".data, 12), ("$t5".data, 13), ("$t6".data, 14), ("$t7".data, 15),
   ("$s0".data, 16), ("$s1".data, 17), ("$s2".data, 18), ("$s3".data, 19),
   ("$s4".data, 20), ("$s5".data, 21)]

/-- The function `getRegNumber`: table lookup, else `stoi` of what follows a
leading dollar sign, else 0. -/
def getRegNumber (reg : List Char) : Option Int :=
  match regMap.lookup reg with
  | some n => some n
  | none =>
    match reg with
    | c :: r => if c = '$' ∧ 1 < reg.length then stoi r else some 0
    | [] => some 0

/-- Result of `s.find(c)`: the index of the first `c`, or `none` for `npos`. -/
def findChar (c : Char) : List Char → Option Nat
  | [] => none
  | d :: ds => if d = c then some 0 else (findChar c ds).map (· + 1)

/-- The value `std::string::npos` of a 64-bit `size_t`. -/
def npos : Nat := 18446744073709551615

/-- A `find` result as the `size_t` the source computes with. -/
def posVal : Option Nat → Nat
  | some i => i
  | none => npos

/-- Model of `s.substr(pos, count)` for `pos ≤ s.size()`. -/
def substr (s : List Char) (pos count : Nat) : List Char :=
  (s.drop pos).take count

/-- The bytes of the UTF-8 encoding of a character, each written as the
character of the same code. An ASCII character is its own single byte. -/
def utf8Bytes (c : Char) : List Char :=
  let n := c.toNat
  if n < 128 then [c]
  else if n < 2048 then [Char.ofNat (192 + n / 64), Char.ofNat (128 + n % 64)]
  else if n < 65536 then
    [Char.ofNat (224 + n / 4096), Char.ofNat (128 + n / 64 % 64), Char.ofNat (128 + n % 64)]
  else
    [Char.ofNat (240 + n / 262144), Char.ofNat (128 + n / 4096 % 64),
     Char.ofNat (128 + n / 64 % 64), Char.ofNat (128 + n % 64)]

/-- Model of `tok.substr(0, tok.size() - 1)`: the token without its last
byte. A last character that is ASCII goes; of a last character of several
bytes the leading bytes stay. The empty token stays empty (`size() - 1` wraps
to `npos`). -/
def dropLastByte (t : List Char) : List Char :=
  match t.getLast? with
  | none => []
  | some c => t.dropLast ++ (utf8Bytes c).dropLast

/-- The function `parseLine`. `labelMap` is the label table as an association
list (first binding wins). -/
def parseLine (line : String) (labelMap : List (String × Int)) : Option Instruction :=
  let s := line.data.dropWhile (fun c => c = ' ' || c = Char.ofNat 9)
  let raw := String.mk s
  let (opc, r0) := nextToken s
  let opcode := String.mk opc
  if opc = [] then some { opcode := opcode, raw := raw, valid := false }
  else if opcode = "ADDI" then
    let (rt, r1) := nextToken r0
    let (rs, r2) := nextToken r1
    let (imm, _) := nextToken r2
    match getRegNumber (dropLastByte rt) with
    | none => none
    | some vrt =>
      match getRegNumber (dropLastByte rs) with
      | none => none
      | some vrs =>
        match stoi imm with
        | none => none
        | some vimm =>
          some { opcode := opcode, raw := raw, valid := true, rt := vrt, rs := vrs, imm := vimm }
  else if opcode = "ADD" ∨ opcode = "SUB" ∨ opcode = "MUL" ∨ opcode = "AND" ∨
      opcode = "OR" then
    let (rd, r1) := nextToken r0
    let (rs, r2) := nextToken r1
    let (rt, _) := nextToken r2
    match getRegNumber (dropLastByte rd) with
    | none => none
    | some vrd =>
      match getRegNumber (dropLastByte rs) with
      | none => none
      | some vrs =>
        match getRegNumber rt with
        | none => none
        | some vrt =>
          some { opcode := opcode, raw := raw, valid := true, rd := vrd, rs := vrs, rt := vrt }
  else if opcode = "SLL" ∨ opcode = "SRL" then
    let (rd, r1) := nextToken r0
    let (rt, r2) := nextToken r1
    let (shamt, _) := nextToken r2
    match getRegNumber (dropLastByte rd) with
    | none => none
    | some vrd =>
      match getRegNumber (dropLastByte rt) with
      | none => none
      | some vrt =>
        match stoi shamt with
        | none => none
        | some vimm =>
          some { opcode := opcode, raw := raw, valid := true, rd := vrd, rt := vrt, imm := vimm }
  else if opcode = "LW" ∨ opcode = "SW" then
    let (rt, r1) := nextToken r0
    let (offset, _) := nextToken r1
    match getRegNumber (dropLastByte rt) with
    | none => none
    | some vrt =>
      let lparen := posVal (findChar '(' offset)
      let rparen := posVal (findChar ')' offset)
      match stoi (substr offset 0 lparen) with
      | none => none
      | some vimm =>
        match getRegNumber (substr offset ((lparen + 1) % 18446744073709551616)
            ((rparen + 18446744073709551616 * 2 - lparen - 1) % 18446744073709551616)) with
        | none => none
        | some vrs =>
          some { opcode := opcode, raw := raw, valid := true, rt := vrt, imm := vimm, rs := vrs }
  else if opcode = "BEQ" then
    let (rs, r1) := nextToken r0
    let (rt, r2) := nextToken r1
    let (label, _) := nextToken r2
    match getRegNumber (dropLastByte rs) with
    | none => none
    | some vrs =>
      match getRegNumber (dropLastByte rt) with
      | none => none
      | some vrt =>
        match labelMap.lookup (String.mk label) with
        | some a => some { opcode := opcode, raw := raw, valid := true, rs := vrs, rt := vrt, address := a }
        | none => some { opcode := opcode, raw := raw, valid := true, rs := vrs, rt := vrt }
  else if opcode = "J" then
    let (label, _) := nextToken r0
    match labelMap.lookup (String.mk label) with
    | some a => some { opcode := opcode, raw := raw, valid := true, address := a }
    | none => some { opcode := opcode, raw := raw, valid := true }
  else if opcode = "NOP" then some { opcode := opcode, raw := raw, valid := false }
  else some { opcode := opcode, raw := raw, valid := true }

/-- The function `stripComments`: the line up to its first `#`. -/
def stripComments (line : String) : String :=
  String.mk (line.data.takeWhile (fun c => !(c = '#')))

/-- Step 1 of `main`: strip the comments and drop the lines left empty. -/
def loadProgram (lines : List String) : List String :=
  (lines.map stripComments).filter (fun l => !(l.data = []))

/-- Result of `label.find_last_not_of(" \t")`: index of the last character that
is neither a blank nor a tab. -/
def findLastNotBlank (s : List Char) : Option Nat :=
  let t := s.reverse.dropWhile (fun c => c = ' ' || c = Char.ofNat 9)
  if t = [] then none else some (t.length - 1)

/-- Whether `l.find_first_not_of(" \t")` finds a character. -/
def hasNonBlank (s : List Char) : Bool :=
  s.any (fun c => !(c = ' ' || c = Char.ofNat 9))

/-- One iteration of the first pass of `main` on the line `l0`, from the label
table and instruction lines built so far. -/
def firstPassLine (acc : List (String × Int) × List String) (l0 : String) :
    List (String × Int) × List String :=
  let labelMap := acc.1
  let instLines := acc.2
  let l := l0.data
  let colon := findChar ':' l
  let labelMap1 : List (String × Int) := match colon with
    | some k =>
      let label0 := substr l 0 k
      let label := match findLastNotBlank label0 with
        | some e => substr label0 0 (e + 1)
        | none => label0
      if label = [] then labelMap else (String.mk label, (instLines.length : Int)) :: labelMap
    | none => labelMap
  let l1 : List Char := match colon with
    | some k => l.drop (k + 1)
    | none => l
  let l2 := if hasNonBlank l1 then l1.dropWhile (fun c => c = ' ' || c = Char.ofNat 9) else l1
  (labelMap1, if l2 = [] then instLines else instLines ++ [String.mk l2])

/-- Step 2 of `main`: the label table and the instruction-only lines. -/
def firstPass (programLines : List String) : List (String × Int) × List String :=
  programLines.foldl firstPassLine ([], [])

/-- Step 3 of `main`: decode every instruction line; `none` when a line makes
`parseLine` throw. -/
def buildProgram (labelMap : List (String × Int)) : List String → Option (List Instruction)
  | [] => some []
  | l :: ls =>
    match parseLine l labelMap with
    | none => none
    | some i =>
      match buildProgram labelMap ls with
      | none => none
      | some is => some (i :: is)

/-- Steps 1 to 3 of `main`: from the lines of the input file to the program. -/
def assemble (lines : List String) : Option (List Instruction) :=
  let fp := firstPass (loadProgram lines)
  buildProgram fp.1 fp.2

/-! ## The pipeline loop of `main` -/

/-- Register-file read `cpu.regs[r]`; `none` outside the array. -/
def readReg (regs : Nat → Int) (r : Int) : Option Int :=
  if 0 ≤ r ∧ r < REG_COUNT then some (regs r.toNat) else none

/-- Register-file write `cpu.regs[r] = v`; `none` outside the array. -/
def writeReg (regs : Nat → Int) (r v : Int) : Option (Nat → Int) :=
  if 0 ≤ r ∧ r < REG_COUNT then some (setAt regs r.toNat v) else none

/-- Write-Back stage: the register file after it. -/
def wbStage (regs : Nat → Int) (memwb : MEM_WB) : Option (Nat → Int) :=
  if memwb.inst.valid then
    let op := memwb.inst.opcode
    let written : Option (Nat → Int) :=
      if op = "ADD" ∨ op = "SUB" ∨ op = "MUL" ∨ op = "AND" ∨ op = "OR" ∨
          op = "SLL" ∨ op = "SRL" then
        writeReg regs memwb.inst.rd memwb.aluResult
      else if op = "ADDI" then writeReg regs memwb.inst.rt memwb.aluResult
      else if op = "LW" then writeReg regs memwb.inst.rt memwb.memData
      else some regs
    match written with
    | none => none
    | some r => some (setAt r 0 0)
  else some regs

/-- Memory stage: the next Memory/Writeback latch and the data memory after
the stage. The word index is `aluResult / 4` with C++ division (towards 0). -/
def memStage (mem : Nat → Int) (exmem : EX_MEM) : MEM_WB × (Nat → Int) :=
  let addr := Int.tdiv exmem.aluResult 4
  if exmem.inst.opcode = "LW" then
    ({ inst := exmem.inst, aluResult := exmem.aluResult, rtVal := exmem.rtVal,
       memData := if 0 ≤ addr ∧ addr < MEM_SIZE then mem addr.toNat else 0 }, mem)
  else if exmem.inst.opcode = "SW" then
    ({ inst := exmem.inst, aluResult := exmem.aluResult, rtVal := exmem.rtVal },
     if 0 ≤ addr ∧ addr < MEM_SIZE then setAt mem addr.toNat exmem.rtVal else mem)
  else
    ({ inst := exmem.inst, aluResult := exmem.aluResult, rtVal := exmem.rtVal }, mem)

/-- The ALU of the Execute stage. A shift count is taken modulo 32, as the
shift instructions of the usual targets do; `>>` on `int` is arithmetic. -/
def alu (idex : ID_EX) : Int :=
  let op := idex.inst.opcode
  if op = "ADD" then wrap32 (idex.rsVal + idex.rtVal)
  else if op = "ADDI" then wrap32 (idex.rsVal + idex.imm)
  else if op = "SUB" then wrap32 (idex.rsVal - idex.rtVal)
  else if op = "MUL" then wrap32 (idex.rsVal * idex.rtVal)
  else if op = "AND" then Int.land idex.rsVal idex.rtVal
  else if op = "OR" then Int.lor idex.rsVal idex.rtVal
  else if op = "SLL" then wrap32 (idex.rtVal * 2 ^ (idex.imm % 32).toNat)
  else if op = "SRL" then Int.shiftRight idex.rtVal (idex.imm % 32).toNat
  else if op = "LW" ∨ op = "SW" then wrap32 (idex.rsVal + idex.imm)
  else 0

/-- Branch decision of the Execute stage: `some target` when `branchTaken` is
set (with `branchTarget = target`), `none` otherwise. -/
def branchDecision (idex : ID_EX) : Option Int :=
  if idex.inst.valid then
    if idex.inst.opcode = "BEQ" ∧ idex.rsVal = idex.rtVal then some idex.inst.address
    else if idex.inst.opcode = "J" then some idex.inst.address
    else none
  else none

/-- Execute stage: the next Execute/Memory latch and the branch decision. -/
def exStage (idex : ID_EX) : EX_MEM × Option Int :=
  ({ inst := idex.inst, rtVal := idex.rtVal,
     aluResult := if idex.inst.valid then alu idex else 0 }, branchDecision idex)

/-- Decode stage: the next Decode/Execute latch, reading the register file as
Write-Back left it in this cycle. -/
def idStage (regs : Nat → Int) (ifid : IF_ID) : Option ID_EX :=
  if ifid.inst.valid then
    let op := ifid.inst.opcode
    if op = "ADDI" then
      match readReg regs ifid.inst.rs with
      | none => none
      | some a => some { inst := ifid.inst, npc := ifid.npc, rsVal := a, imm := ifid.inst.imm }
    else if op = "ADD" ∨ op = "SUB" ∨ op = "MUL" ∨ op = "AND" ∨ op = "OR" then
      match readReg regs ifid.inst.rs, readReg regs ifid.inst.rt with
      | some a, some b => some { inst := ifid.inst, npc := ifid.npc, rsVal := a, rtVal := b }
      | _, _ => none
    else if op = "SLL" ∨ op = "SRL" then
      match readReg regs ifid.inst.rt with
      | none => none
      | some b => some { inst := ifid.inst, npc := ifid.npc, rtVal := b, imm := ifid.inst.imm }
    else if op = "LW" ∨ op = "SW" then
      match readReg regs ifid.inst.rs, readReg regs ifid.inst.rt with
      | some a, some b =>
        some { inst := ifid.inst, npc := ifid.npc, rsVal := a, rtVal := b, imm := ifid.inst.imm }
      | _, _ => none
    else if op = "BEQ" then
      match readReg regs ifid.inst.rs, readReg regs ifid.inst.rt with
      | some a, some b => some { inst := ifid.inst, npc := ifid.npc, rsVal := a, rtVal := b }
      | _, _ => none
    else some { inst := ifid.inst, npc := ifid.npc }
  else some { inst := ifid.inst, npc := ifid.npc }

/-- Fetch stage: the next Fetch/Decode latch and the incremented `pc`;
`none` when `program[pc]` is read with `pc < 0`. -/
def ifStage (program : List Instruction) (pc : Int) : Option (IF_ID × Int) :=
  if pc < (program.length : Int) then
    if 0 ≤ pc then
      match program[pc.toNat]? with
      | some i => some ({ inst := i, npc := pc + 1 }, pc + 1)
      | none => none
    else none
  else some ({}, pc)

/-- One iteration of the body of the pipeline loop: the five stages in
write-back-to-fetch order, the flush, and the latch advance. -/
def step (program : List Instruction) (s : State) : Option State :=
  match wbStage s.cpu.regs s.memwb with
  | none => none
  | some regs1 =>
    let m := memStage s.cpu.mem s.exmem
    let e := exStage s.idex
    match idStage regs1 s.ifid with
    | none => none
    | some nextIdex =>
      match ifStage program s.cpu.pc with
      | none => none
      | some (nextIfid, pc1) =>
        match e.2 with
        | some target =>
          some { cpu := { regs := regs1, mem := m.2, pc := target },
                 ifid := {}, idex := {}, exmem := e.1, memwb := m.1 }
        | none =>
          some { cpu := { regs := regs1, mem := m.2, pc := pc1 },
                 ifid := nextIfid, idex := nextIdex, exmem := e.1, memwb := m.1 }

/-- The body of the loop with the flush block left out: what the cycle
produces when no branch is taken. -/
def stepNoFlush (program : List Instruction) (s : State) : Option State :=
  match wbStage s.cpu.regs s.memwb with
  | none => none
  | some regs1 =>
    let m := memStage s.cpu.mem s.exmem
    let e := exStage s.idex
    match idStage regs1 s.ifid with
    | none => none
    | some nextIdex =>
      match ifStage program s.cpu.pc with
      | none => none
      | some (nextIfid, pc1) =>
        some { cpu := { regs := regs1, mem := m.2, pc := pc1 },
               ifid := nextIfid, idex := nextIdex, exmem := e.1, memwb := m.1 }

/-- The condition of the `while` loop. -/
def loopCond (program : List Instruction) (s : State) : Bool :=
  decide (s.cpu.pc < (program.length : Int)) || s.ifid.inst.valid || s.idex.inst.valid ||
    s.exmem.inst.valid || s.memwb.inst.valid

/-- The state before the first cycle: zeroed CPU, default latches. -/
def initState : State := {}

/-- Outcome of running the loop with a bound on the number of iterations. -/
inductive Run where
  | done (s : State) (cycle : Nat)
  | undefinedBehaviour
  | timeout

/-- The `while` loop, for at most `fuel` iterations, counting them in `cycle`
as the source does. -/
def runLoop (program : List Instruction) : Nat → State → Nat → Run
  | 0, s, cycle => if loopCond program s then Run.timeout else Run.done s cycle
  | fuel + 1, s, cycle =>
    if loopCond program s then
      match step program s with
      | none => Run.undefinedBehaviour
      | some s1 => runLoop program fuel s1 (cycle + 1)
    else Run.done s cycle

/-- The state at the head of the loop after exactly `k` iterations; `none`
when the loop has ended earlier or an iteration is undefined. -/
def runCycles (program : List Instruction) : Nat → State → Option State
  | 0, s => some s
  | k + 1, s =>
    if loopCond program s then
      match step program s with
      | none => none
      | some s1 => runCycles program k s1
    else none

/-- The value `main` hands to `printCycleState` after the loop: `cycle - 1`. -/
def reportedCycles (cycle : Nat) : Int := (cycle : Int) - 1

/-- Register `i` of the final state, when the run has ended. -/
def Run.reg (r : Run) (i : Nat) : Option Int :=
  match r with
  | Run.done s _ => some (s.cpu.regs i)
  | _ => none

/-- Memory word `i` of the final state, when the run has ended. -/
def Run.memWord (r : Run) (i : Nat) : Option Int :=
  match r with
  | Run.done s _ => some (s.cpu.mem i)
  | _ => none

/-- Number of executed iterations, when the run has ended. -/
def Run.cycles (r : Run) : Option Nat :=
  match r with
  | Run.done _ c => some c
  | _ => none

/-- The register indices of an instruction lie in `[0, REG_COUNT)`: the
invariant the data model asks of every `Instruction`. -/
def RegsInRange (i : Instruction) : Prop :=
  (0 ≤ i.rs ∧ i.rs < REG_COUNT) ∧ (0 ≤ i.rt ∧ i.rt < REG_COUNT) ∧ (0 ≤ i.rd ∧ i.rd < REG_COUNT)

/-! ## Example inputs -/

/-- Source lines of the first end-to-end example. -/
def example1Lines : List String :=
  ["ADDI $t0, $zero, 5", "ADDI $t1, $zero, 3", "ADD $t2, $t0, $t1"]

/-- The program `example1Lines` assembles to. -/
def example1Program : List Instruction :=
  [{ opcode := "ADDI", rt := 8, rs := 0, imm := 5, raw := "ADDI $t0, $zero, 5", valid := true },
   { opcode := "ADDI", rt := 9, rs := 0, imm := 3, raw := "ADDI $t1, $zero, 3", valid := true },
   { opcode := "ADD", rd := 10, rs := 8, rt := 9, raw := "ADD $t2, $t0, $t1", valid := true }]

/-- Source lines of the second end-to-end example. -/
def example2Lines : List String :=
  ["ADDI $t0, $zero, 4", "SW $t0, 0($zero)", "LW $t1, 0($zero)"]

/-- The program `example2Lines` assembles to. -/
def example2Program : List Instruction :=
  [{ opcode := "ADDI", rt := 8, rs := 0, imm := 4, raw := "ADDI $t0, $zero, 4", valid := true },
   { opcode := "SW", rt := 8, rs := 0, imm := 0, raw := "SW $t0, 0($zero)", valid := true },
   { opcode := "LW", rt := 9, rs := 0, imm := 0, raw := "LW $t1, 0($zero)", valid := true }]

/-- Source lines of the third end-to-end example, written as the
specification writes them: no blank after a comma. -/
def example3Lines : List String :=
  ["ADDI $t0,$zero,1", "BEQ $t0,$t0,done", "ADDI $t1,$zero,99", "done: ADDI $t2,$zero,7"]

/-- The third example with a blank after every comma. -/
def example3SpacedLines : List String :=
  ["ADDI $t0, $zero, 1", "BEQ $t0, $t0, done", "ADDI $t1, $zero, 99",
   "done: ADDI $t2, $zero, 7"]

/-- The program `example3SpacedLines` assembles to. -/
def example3Program : List Instruction :=
  [{ opcode := "ADDI", rt := 8, rs := 0, imm := 1, raw := "ADDI $t0, $zero, 1", valid := true },
   { opcode := "BEQ", rs := 8, rt := 8, address := 3, raw := "BEQ $t0, $t0, done", valid := true },
   { opcode := "ADDI", rt := 9, rs := 0, imm := 99, raw := "ADDI $t1, $zero, 99", valid := true },
   { opcode := "ADDI", rt := 10, rs := 0, imm := 7, raw := "ADDI $t2, $zero, 7", valid := true }]

/-- A state whose Execute/Memory latch holds an invalid instruction with
opcode `SW`. -/
def invalidStoreState : State :=
  { exmem := { inst := { opcode := "SW", valid := false }, aluResult := 0, rtVal := 7 } }

/-- A state in mid-run of `example3Program`: the `BEQ` is in Decode/Execute,
the skipped `ADDI` in Fetch/Decode, the first `ADDI` in Execute/Memory. -/
def takenBranchState : State :=
  { cpu := { pc := 3 },
    ifid := { inst := { opcode := "ADDI", rt := 9, rs := 0, imm := 99, valid := true },
              npc := 3 },
    idex := { inst := { opcode := "BEQ", rs := 8, rt := 8, address := 3, valid := true },
              npc := 2 },
    exmem := { inst := { opcode := "ADDI", rt := 8, rs := 0, imm := 1, valid := true },
               aluResult := 1 } }

/-- The instruction is a conditional branch or a jump. -/
def isBranch (i : Instruction) : Prop := i.opcode = "BEQ" ∨ i.opcode = "J"

/-- Number of cycles still to run when no branch is in flight: the fetches
left plus four, or the position of the last occupied latch. -/
def drainBound (p : List Instruction) (s : State) : Nat :=
  if s.cpu.pc < (p.length : Int) then ((p.length : Int) - s.cpu.pc).toNat + 4
  else if s.ifid.inst.valid then 4
  else if s.idex.inst.valid then 3
  else if s.exmem.inst.valid then 2
  else if s.memwb.inst.valid then 1
  else 0

/-- Invariant of the loop on a program without branches: `pc` is not
negative and no branch is on its way to Execute. -/
structure DrainInv (s : State) : Prop where
  pc_nonneg : 0 ≤ s.cpu.pc
  ifid_nb : ¬ isBranch s.ifid.inst
  idex_nb : ¬ isBranch s.idex.inst

/-- The instructions in the four latches keep their register indices in
range. -/
structure LatchRegs (s : State) : Prop where
  ifid_regs : RegsInRange s.ifid.inst
  idex_regs : RegsInRange s.idex.inst
  exmem_regs : RegsInRange s.exmem.inst
  memwb_regs : RegsInRange s.memwb.inst

/-- Decidability of `RegsInRange`, for concrete programs. -/
instance instDecidableRegsInRange (i : Instruction) : Decidable (RegsInRange i) :=
  inferInstanceAs (Decidable ((0 ≤ i.rs ∧ i.rs < REG_COUNT) ∧ (0 ≤ i.rt ∧ i.rt < REG_COUNT) ∧
    (0 ≤ i.rd ∧ i.rd < REG_COUNT)))

/-- Decidability of `isBranch`, for concrete programs. -/
instance instDecidableIsBranch (i : Instruction) : Decidable (isBranch i) :=
  inferInstanceAs (Decidable (i.opcode = "BEQ" ∨ i.opcode = "J"))

/-- Index of the oldest instruction that has not yet left Execute: the one in
Decode/Execute, else the one in Fetch/Decode, else the next one to fetch. -/
def frontier (s : State) : Int :=
  if s.idex.inst.valid then s.idex.npc - 1
  else if s.ifid.inst.valid then s.ifid.npc - 1
  else s.cpu.pc

/-- How far that oldest instruction is from Execute. -/
def frontStage (p : List Instruction) (s : State) : Nat :=
  if s.idex.inst.valid then 0
  else if s.ifid.inst.valid then 1
  else if s.cpu.pc < (p.length : Int) then 2
  else 0

/-- Position of the last occupied latch past Execute. -/
def backStage (s : State) : Nat :=
  if s.exmem.inst.valid then 2
  else if s.memwb.inst.valid then 1
  else 0

/-- Termination measure of the loop on a program whose branches go forward. -/
def progress (p : List Instruction) (s : State) : Nat :=
  10 * ((p.length : Int) - frontier s).toNat + 3 * frontStage p s + backStage s

/-- Invariant of the loop on a program whose branches go forward: `pc` is
inside `[0, length]`, the latched instructions keep their register indices in
range, and a valid instruction in Fetch/Decode or Decode/Execute is the
program's instruction at index `npc - 1`, at most two behind `pc`. -/
structure FwdInv (p : List Instruction) (s : State) : Prop where
  pc_nonneg : 0 ≤ s.cpu.pc
  pc_le : s.cpu.pc ≤ (p.length : Int)
  ifid_regs : RegsInRange s.ifid.inst
  idex_regs : RegsInRange s.idex.inst
  exmem_regs : RegsInRange s.exmem.inst
  memwb_regs : RegsInRange s.memwb.inst
  ifid_at : s.ifid.inst.valid = true →
    s.ifid.npc = s.cpu.pc ∧ ∃ i : Nat, (i : Int) + 1 = s.ifid.npc ∧ p[i]? = some s.ifid.inst
  idex_at : s.idex.inst.valid = true →
    (∃ i : Nat, (i : Int) + 1 = s.idex.npc ∧ p[i]? = some s.idex.inst) ∧
      s.idex.npc ≤ s.cpu.pc ∧ s.cpu.pc ≤ s.idex.npc + 1 ∧
      (s.ifid.inst.valid = true → s.idex.npc < s.cpu.pc)

/-- Source of a program that jumps to itself. -/
def selfJumpLines : List String := ["L: J L"]

/-- The jump of `selfJumpLines`: its target is its own index 0. -/
def selfJumpInst : Instruction :=
  { opcode := "J", address := 0, raw := "J L", valid := true }

/-- The program `selfJumpLines` assembles to. -/
def selfJumpProgram : List Instruction := [selfJumpInst]

/-- Invariant of the loop on `selfJumpProgram`: every latch holds the jump or
a bubble, and either `pc = 0` or a jump is on its way to Execute. -/
structure SelfJumpInv (s : State) : Prop where
  ifid_inst : s.ifid.inst = {} ∨ s.ifid.inst = selfJumpInst
  idex_inst : s.idex.inst = {} ∨ s.idex.inst = selfJumpInst
  exmem_regs : RegsInRange s.exmem.inst
  memwb_regs : RegsInRange s.memwb.inst
  pc_cases : s.cpu.pc = 0 ∨ (s.cpu.pc = 1 ∧
    (s.ifid.inst.valid = true ∨ s.idex.inst.valid = true))

/-- A token of the input stream: not empty, no white space inside. -/
def isToken (t : List Char) : Prop := t ≠ [] ∧ ∀ c ∈ t, isSpaceC c = false

/-- Source lines of a program that stores to byte address `-1`. -/
def negativeStoreLines : List String :=
  ["ADDI $t0, $zero, 7", "NOP", "NOP", "SW $t0, -1($zero)"]

/-- The program `negativeStoreLines` assembles to. -/
def negativeStoreProgram : List Instruction :=
  [{ opcode := "ADDI", rt := 8, rs := 0, imm := 7, raw := "ADDI $t0, $zero, 7", valid := true },
   { opcode := "NOP", raw := "NOP", valid := false },
   { opcode := "NOP", raw := "NOP", valid := false },
   { opcode := "SW", rt := 8, rs := 0, imm := -1, raw := "SW $t0, -1($zero)", valid := true }]

/-! ## Definitions for the front-end and stage claims -/

/-- Whether the bounded run stopped at a cycle without defined behaviour. -/
def Run.isUndefined (r : Run) : Bool :=
  match r with
  | Run.undefinedBehaviour => true
  | _ => false

/-- The call `printCycleState(cpu, cycle - 1, false, ...)` after the loop: the
number shown in `FINAL STATE AFTER ... CYCLES`, when the bounded run has ended. -/
def finalReport (program : List Instruction) (fuel : Nat) : Option Int :=
  match runLoop program fuel initState 0 with
  | Run.done _ cycle => some (reportedCycles cycle)
  | _ => none

/-- The three register fields of an instruction: `rs`, `rt`, `rd`. -/
def regFields (i : Instruction) : Int × Int × Int := (i.rs, i.rt, i.rd)

/-- A source line naming register 32. -/
def outOfRangeRegLines : List String := ["ADD $32, $1, $2"]

/-- The program `outOfRangeRegLines` assembles to. -/
def outOfRangeRegProgram : List Instruction :=
  [{ opcode := "ADD", rd := 32, rs := 1, rt := 2, raw := "ADD $32, $1, $2", valid := true }]

/-- The instruction a line of blanks decodes to: empty opcode, not valid. -/
def blankLineInst : Instruction := { opcode := "", raw := "", valid := false }

/-- The one-line program of the cycle-count example. -/
def oneAddiProgram : List Instruction :=
  [{ opcode := "ADDI", rt := 8, rs := 0, imm := 5, raw := "ADDI $t0, $zero, 5", valid := true }]

/-- Removal of the trailing blanks and tabs of a text. -/
def trimTrailingBlanks (s : List Char) : List Char :=
  (s.reverse.dropWhile (fun c => c = ' ' || c = Char.ofNat 9)).reverse

/-- The label a line declares, in the words of the specification: the text
before the first `:` of the line, its trailing blanks trimmed, when that is
not empty. -/
def declaredLabel (l : String) : Option String :=
  match findChar ':' l.data with
  | none => none
  | some k =>
    if trimTrailingBlanks (l.data.take k) = [] then none
    else some (String.mk (trimTrailingBlanks (l.data.take k)))

/-- The label the first pass of `main` binds on the line `l0`, if any: the
expressions of `firstPassLine`. -/
def labelBound (l0 : String) : Option String :=
  match findChar ':' l0.data with
  | some k =>
    let label0 := substr l0.data 0 k
    let label := match findLastNotBlank label0 with
      | some e => substr label0 0 (e + 1)
      | none => label0
    if label = [] then none else some (String.mk label)
  | none => none

/-- The register write Write-Back performs for the latch `m`: the destination
index and the value, or `none` when the instruction is not valid or its
opcode writes no register. -/
def wbTarget (m : MEM_WB) : Option (Int × Int) :=
  if m.inst.valid then
    let op := m.inst.opcode
    if op = "ADD" ∨ op = "SUB" ∨ op = "MUL" ∨ op = "AND" ∨ op = "OR" ∨
        op = "SLL" ∨ op = "SRL" then some (m.inst.rd, m.aluResult)
    else if op = "ADDI" then some (m.inst.rt, m.aluResult)
    else if op = "LW" then some (m.inst.rt, m.memData)
    else none
  else none

/-- The opcodes for which Decode latches `regs[rs]` into `rsVal`. -/
def readsRs (i : Instruction) : Prop :=
  i.opcode = "ADDI" ∨
  (i.opcode = "ADD" ∨ i.opcode = "SUB" ∨ i.opcode = "MUL" ∨ i.opcode = "AND" ∨
    i.opcode = "OR") ∨
  (i.opcode = "LW" ∨ i.opcode = "SW") ∨ i.opcode = "BEQ"

/-- The opcodes for which Decode latches `regs[rt]` into `rtVal`. -/
def readsRt (i : Instruction) : Prop :=
  (i.opcode = "ADD" ∨ i.opcode = "SUB" ∨ i.opcode = "MUL" ∨ i.opcode = "AND" ∨
    i.opcode = "OR") ∨
  (i.opcode = "SLL" ∨ i.opcode = "SRL") ∨
  (i.opcode = "LW" ∨ i.opcode = "SW") ∨ i.opcode = "BEQ"

/-- A state whose Memory/Writeback latch holds a valid `ADDI` with destination
register 8 and result 5. -/
def writeBackState : State :=
  { cpu := { regs := fun i => if i = 9 then 3 else 0 },
    memwb := { inst := { opcode := "ADDI", rt := 8, rs := 0, imm := 5, valid := true },
               aluResult := 5 },
    ifid := { inst := { opcode := "ADD", rd := 10, rs := 8, rt := 9, valid := true },
              npc := 3 } }

/-- Source lines of a program in which a jump is in Execute while an `ADD` that
reads `$t0` is in Decode and the `ADDI` that writes `$t0` is in Write-Back. -/
def flushedReadLines : List String :=
  ["ADDI $t0, $zero, 5", "NOP", "J end", "ADD $t1, $t0, $t0", "end: NOP"]

/-- The program `flushedReadLines` assembles to. -/
def flushedReadProgram : List Instruction :=
  [{ opcode := "ADDI", rt := 8, rs := 0, imm := 5, raw := "ADDI $t0, $zero, 5", valid := true },
   { opcode := "NOP", raw := "NOP", valid := false },
   { opcode := "J", address := 4, raw := "J end", valid := true },
   { opcode := "ADD", rd := 9, rs := 8, rt := 8, raw := "ADD $t1, $t0, $t0", valid := true },
   { opcode := "NOP", raw := "NOP", valid := false }]

/-- Invariant of the loop for the fetch bound: `pc` is inside `[0, length]`
and a valid instruction in Fetch/Decode or Decode/Execute is one of the
program. -/
structure PcInv (p : List Instruction) (s : State) : Prop where
  pc_nonneg : 0 ≤ s.cpu.pc
  pc_le : s.cpu.pc ≤ (p.length : Int)
  ifid_mem : s.ifid.inst.valid = true → s.ifid.inst ∈ p
  idex_mem : s.idex.inst.valid = true → s.idex.inst ∈ p

/-- An instruction that is not valid has the empty opcode or `NOP`. -/
def bubbleOpcode (i : Instruction) : Prop :=
  i.valid = false → i.opcode = "" ∨ i.opcode = "NOP"

/-- Invariant of the loop: every latch holding an invalid instruction holds
one with the empty opcode or `NOP`. -/
structure BubbleInv (s : State) : Prop where
  ifid_ok : bubbleOpcode s.ifid.inst
  idex_ok : bubbleOpcode s.idex.inst
  exmem_ok : bubbleOpcode s.exmem.inst
  memwb_ok : bubbleOpcode s.memwb.inst

/-! ## Sequential execution, in the words of the specification -/

/-- Registers and data memory: the architectural state without `pc`. -/
structure Arch where
  regs : Nat → Int := fun _ => 0
  mem : Nat → Int := fun _ => 0

/-- The word a byte address designates, in the words of the specification:
an address outside `[0, 4·MEM_SIZE)` is out of range, an address inside it
designates the word `address / 4`. -/
def specWordIndex (a : Int) : Option Nat :=
  if 0 ≤ a ∧ a < 4 * (MEM_SIZE : Int) then some (a / 4).toNat else none

/-- The word a byte address designates in the Memory stage of the source:
`addr = aluResult / 4` with C++ division, kept when `0 ≤ addr < MEM_SIZE`. -/
def codeWordIndex (a : Int) : Option Nat :=
  if 0 ≤ Int.tdiv a 4 ∧ Int.tdiv a 4 < (MEM_SIZE : Int) then some (Int.tdiv a 4).toNat
  else none

/-- Result of an instruction's arithmetic on the current registers, per
opcode: sum, difference, product, bitwise and/or, shifted `rt`, or the
effective address `rs + imm` of a load or store; 32-bit wraparound. -/
def specValue (a : Arch) (i : Instruction) : Int :=
  let rs := a.regs i.rs.toNat
  let rt := a.regs i.rt.toNat
  if i.opcode = "ADD" then wrap32 (rs + rt)
  else if i.opcode = "ADDI" then wrap32 (rs + i.imm)
  else if i.opcode = "SUB" then wrap32 (rs - rt)
  else if i.opcode = "MUL" then wrap32 (rs * rt)
  else if i.opcode = "AND" then Int.land rs rt
  else if i.opcode = "OR" then Int.lor rs rt
  else if i.opcode = "SLL" then wrap32 (rt * 2 ^ (i.imm % 32).toNat)
  else if i.opcode = "SRL" then Int.shiftRight rt (i.imm % 32).toNat
  else if i.opcode = "LW" ∨ i.opcode = "SW" then wrap32 (rs + i.imm)
  else 0

/-- Register write of the sequential machine: register 0 stays 0. -/
def seqWrite (regs : Nat → Int) (r v : Int) : Nat → Int :=
  if r = 0 then regs else setAt regs r.toNat v

/-- A load of the sequential machine: the designated word, 0 out of range. -/
def loadWord (widx : Int → Option Nat) (mem : Nat → Int) (a : Int) : Int :=
  match widx a with
  | some w => mem w
  | none => 0

/-- A store of the sequential machine: dropped out of range. -/
def storeWord (widx : Int → Option Nat) (mem : Nat → Int) (a v : Int) : Nat → Int :=
  match widx a with
  | some w => setAt mem w v
  | none => mem

/-- One instruction executed on its own, in program order: arithmetic and
shifts write `rd`, ADDI and LW write `rt`, SW writes memory; an instruction
that is not valid does nothing. `widx` says which word an address
designates. -/
def seqStep (widx : Int → Option Nat) (a : Arch) (i : Instruction) : Arch :=
  if i.valid then
    if i.opcode = "ADD" ∨ i.opcode = "SUB" ∨ i.opcode = "MUL" ∨ i.opcode = "AND" ∨
        i.opcode = "OR" ∨ i.opcode = "SLL" ∨ i.opcode = "SRL" then
      { regs := seqWrite a.regs i.rd (specValue a i), mem := a.mem }
    else if i.opcode = "ADDI" then
      { regs := seqWrite a.regs i.rt (specValue a i), mem := a.mem }
    else if i.opcode = "LW" then
      { regs := seqWrite a.regs i.rt (loadWord widx a.mem (specValue a i)), mem := a.mem }
    else if i.opcode = "SW" then
      { regs := a.regs, mem := storeWord widx a.mem (specValue a i) (a.regs i.rt.toNat) }
    else a
  else a

/-- The program executed one instruction at a time from the zeroed state. -/
def seqRun (widx : Int → Option Nat) (p : List Instruction) : Arch :=
  p.foldl (seqStep widx) {}

/-- The register an instruction writes, if it writes one. -/
def writesReg (i : Instruction) : Option Int :=
  if i.valid then
    if i.opcode = "ADD" ∨ i.opcode = "SUB" ∨ i.opcode = "MUL" ∨ i.opcode = "AND" ∨
        i.opcode = "OR" ∨ i.opcode = "SLL" ∨ i.opcode = "SRL" then some i.rd
    else if i.opcode = "ADDI" ∨ i.opcode = "LW" then some i.rt
    else none
  else none

/-- The opcodes whose result depends on `regs[rs]`. -/
def usesRs (i : Instruction) : Prop :=
  i.opcode = "ADD" ∨ i.opcode = "ADDI" ∨ i.opcode = "SUB" ∨ i.opcode = "MUL" ∨
  i.opcode = "AND" ∨ i.opcode = "OR" ∨ i.opcode = "LW" ∨ i.opcode = "SW"

/-- The opcodes whose result depends on `regs[rt]`. -/
def usesRt (i : Instruction) : Prop :=
  i.opcode = "ADD" ∨ i.opcode = "SUB" ∨ i.opcode = "MUL" ∨ i.opcode = "AND" ∨
  i.opcode = "OR" ∨ i.opcode = "SLL" ∨ i.opcode = "SRL" ∨ i.opcode = "SW"

/-- The instruction `i` reads no register, other than register 0, that the
earlier instruction `w` writes. -/
def noHazard (w i : Instruction) : Prop :=
  i.valid = true →
    (usesRs i → i.rs ≠ 0 → writesReg w ≠ some i.rs) ∧
    (usesRt i → i.rt ≠ 0 → writesReg w ≠ some i.rt)

/-- Decidability of `noHazard`, for concrete programs. -/
instance instDecidableNoHazard (w i : Instruction) : Decidable (noHazard w i) :=
  inferInstanceAs (Decidable (i.valid = true →
    ((i.opcode = "ADD" ∨ i.opcode = "ADDI" ∨ i.opcode = "SUB" ∨ i.opcode = "MUL" ∨
        i.opcode = "AND" ∨ i.opcode = "OR" ∨ i.opcode = "LW" ∨ i.opcode = "SW") →
      i.rs ≠ 0 → writesReg w ≠ some i.rs) ∧
    ((i.opcode = "ADD" ∨ i.opcode = "SUB" ∨ i.opcode = "MUL" ∨ i.opcode = "AND" ∨
        i.opcode = "OR" ∨ i.opcode = "SLL" ∨ i.opcode = "SRL" ∨ i.opcode = "SW") →
      i.rt ≠ 0 → writesReg w ≠ some i.rt)))

/-- No valid instruction reads a register, other than register 0, that is
the destination of a valid register-writing instruction one or two positions
before it. -/
def HazardFree (p : List Instruction) : Prop :=
  (∀ q ∈ p.zip (p.drop 1), noHazard q.1 q.2) ∧ (∀ q ∈ p.zip (p.drop 2), noHazard q.1 q.2)

/-- Decidability of `HazardFree`, for concrete programs. -/
instance instDecidableHazardFree (p : List Instruction) : Decidable (HazardFree p) :=
  inferInstanceAs (Decidable ((∀ q ∈ p.zip (p.drop 1), noHazard q.1 q.2) ∧
    (∀ q ∈ p.zip (p.drop 2), noHazard q.1 q.2)))


/-- The instruction that entered the pipeline `d` cycles before cycle `k`
ended: `program[k - d]`, or a bubble when there is none. On a program without
branches it is the content of the `d`-th latch after `k` cycles. -/
def slot (p : List Instruction) (k d : Nat) : Instruction :=
  if d ≤ k then (p[k - d]?).getD {} else {}

/-- The operands in a Decode/Execute latch are those the sequential state `a`
gives its instruction. -/
def IdexOK (a : Arch) (d : ID_EX) : Prop :=
  d.inst.valid = true →
    alu d = specValue a d.inst ∧ (d.inst.opcode = "SW" → d.rtVal = a.regs d.inst.rt.toNat)

/-- The result in an Execute/Memory latch is the one the sequential state `a`
gives its instruction. -/
def ExmemOK (a : Arch) (e : EX_MEM) : Prop :=
  e.inst.valid = true →
    e.aluResult = specValue a e.inst ∧
      (e.inst.opcode = "SW" → e.rtVal = a.regs e.inst.rt.toNat)

/-- The result and the loaded word in a Memory/Writeback latch are those the
sequential state `a` gives its instruction. -/
def MemwbOK (a : Arch) (m : MEM_WB) : Prop :=
  m.inst.valid = true →
    m.aluResult = specValue a m.inst ∧
      (m.inst.opcode = "LW" → m.memData = loadWord codeWordIndex a.mem (specValue a m.inst))

/-- Invariant of the loop on a hazard-free program without branches, after
`k` cycles: the latches hold the last four fetched instructions, the registers
are those of the sequential run of the instructions that have left Write-Back,
the memory that of the instructions that have left Memory. -/
structure SeqInv (p : List Instruction) (k : Nat) (s : State) : Prop where
  pc_eq : s.cpu.pc = ((min k p.length : Nat) : Int)
  regs_eq : s.cpu.regs = (seqRun codeWordIndex (p.take (k - 4))).regs
  mem_eq : s.cpu.mem = (seqRun codeWordIndex (p.take (k - 3))).mem
  ifid_inst : s.ifid.inst = slot p k 1
  idex_inst : s.idex.inst = slot p k 2
  exmem_inst : s.exmem.inst = slot p k 3
  memwb_inst : s.memwb.inst = slot p k 4
  idex_ok : IdexOK (seqRun codeWordIndex (p.take (k - 2))) s.idex
  exmem_ok : ExmemOK (seqRun codeWordIndex (p.take (k - 3))) s.exmem
  memwb_ok : MemwbOK (seqRun codeWordIndex (p.take (k - 4))) s.memwb

/-- No load or store of the sequential run has an effective byte address in
`-3..-1`. -/
def NoSmallNegativeAddress (p : List Instruction) : Prop :=
  ∀ m ∈ List.range p.length,
    ((p[m]?).getD {}).valid = true →
    (((p[m]?).getD {}).opcode = "LW" ∨ ((p[m]?).getD {}).opcode = "SW") →
    ¬ (-4 < specValue (seqRun specWordIndex (p.take m)) ((p[m]?).getD {}) ∧
      specValue (seqRun specWordIndex (p.take m)) ((p[m]?).getD {}) < 0)

/-- Decidability of `NoSmallNegativeAddress`, for concrete programs. -/
instance instDecidableNoSmallNegativeAddress (p : List Instruction) :
    Decidable (NoSmallNegativeAddress p) :=
  inferInstanceAs (Decidable (∀ m ∈ List.range p.length,
    ((p[m]?).getD {}).valid = true →
    (((p[m]?).getD {}).opcode = "LW" ∨ ((p[m]?).getD {}).opcode = "SW") →
    ¬ (-4 < specValue (seqRun specWordIndex (p.take m)) ((p[m]?).getD {}) ∧
      specValue (seqRun specWordIndex (p.take m)) ((p[m]?).getD {}) < 0)))

/-- Source lines of a program without branches and without hazards that
stores a word and loads it back. -/
def hazardFreeLines : List String :=
  ["ADDI $t0, $zero, 5", "ADDI $t1, $zero, 8", "NOP", "NOP", "SW $t0, 0($t1)",
   "ADD $t2, $t0, $t1", "NOP", "LW $t3, 8($zero)"]

/-- The program `hazardFreeLines` assembles to. -/
def hazardFreeProgram : List Instruction :=
  [{ opcode := "ADDI", rt := 8, rs := 0, imm := 5, raw := "ADDI $t0, $zero, 5", valid := true },
   { opcode := "ADDI", rt := 9, rs := 0, imm := 8, raw := "ADDI $t1, $zero, 8", valid := true },
   { opcode := "NOP", raw := "NOP", valid := false },
   { opcode := "NOP", raw := "NOP", valid := false },
   { opcode := "SW", rt := 8, rs := 9, imm := 0, raw := "SW $t0, 0($t1)", valid := true },
   { opcode := "ADD", rd := 10, rs := 8, rt := 9, raw := "ADD $t2, $t0, $t1", valid := true },
   { opcode := "NOP", raw := "NOP", valid := false },
   { opcode := "LW", rt := 11, rs := 0, imm := 8, raw := "LW $t3, 8($zero)", valid := true }]
theorem runLoop_done_add (p : List Instruction) :
    ∀ (fuel : Nat) (s : State) (c : Nat) (s1 : State) (c1 : Nat) (k : Nat),
      runLoop p fuel s c = Run.done s1 c1 → runLoop p (fuel + k) s c = Run.done s1 c1 := by
  intro fuel
  induction fuel with
  | zero =>
    intro s c s1 c1 k h
    cases k with
    | zero => exact h
    | succ k =>
      simp only [runLoop] at h
      split at h
      · exact Run.noConfusion h
      · rename_i hc
        simp only [Nat.zero_add, runLoop, hc]
        exact h
  | succ fuel ih =>
    intro s c s1 c1 k h
    rw [Nat.add_right_comm]
    simp only [runLoop] at h ⊢
    split at h
    · rename_i hc
      rw [if_pos hc]
      cases hs : step p s with
      | none => rw [hs] at h; exact Run.noConfusion h
      | some s2 =>
        rw [hs] at h
        exact ih s2 (c + 1) s1 c1 k h
    · rename_i hc
      rw [if_neg hc]
      exact h

theorem runLoop_done_unique (p : List Instruction) (f1 f2 : Nat) (s : State) (c : Nat)
    (s1 s2 : State) (c1 c2 : Nat)
    (h1 : runLoop p f1 s c = Run.done s1 c1) (h2 : runLoop p f2 s c = Run.done s2 c2) :
    s1 = s2 ∧ c1 = c2 := by
  have e1 := runLoop_done_add p f1 s c s1 c1 f2 h1
  have e2 := runLoop_done_add p f2 s c s2 c2 f1 h2
  rw [Nat.add_comm] at e2
  rw [e1] at e2
  injection e2 with hs hc
  exact ⟨hs, hc⟩

theorem Run.exists_done_of_cycles (r : Run) (c : Nat) (h : r.cycles = some c) :
    ∃ s, r = Run.done s c := by
  cases r with
  | done s c1 =>
    simp only [Run.cycles, Option.some.injEq] at h
    exact ⟨s, by rw [h]⟩
  | undefinedBehaviour => simp [Run.cycles] at h
  | timeout => simp [Run.cycles] at h

/-! ## End-to-end examples -/

theorem example1_assembles : assemble example1Lines = some example1Program := by decide

/-- C1, as stated, fails: the first example assembles, the loop ends, but no
finished run has `regs[8]=5`, `regs[9]=3` and `regs[10]=8`. The `ADD` is decoded
in cycle 3, before either `ADDI` has written back. -/
theorem C1_example1_counterexample :
    ¬ ∃ (p : List Instruction) (fuel : Nat) (s : State) (c : Nat),
      assemble example1Lines = some p ∧ runLoop p fuel initState 0 = Run.done s c ∧
      s.cpu.regs 8 = 5 ∧ s.cpu.regs 9 = 3 ∧ s.cpu.regs 10 = 8 := by
  rintro ⟨p, fuel, s, c, hp, hrun, -, -, h10⟩
  rw [example1_assembles] at hp
  injection hp with hp
  subst hp
  obtain ⟨s7, h7⟩ := Run.exists_done_of_cycles (runLoop example1Program 7 initState 0) 7
    (by decide)
  have hr : (runLoop example1Program 7 initState 0).reg 10 = some 0 := by decide
  obtain ⟨hs, -⟩ := runLoop_done_unique _ _ _ _ _ _ _ _ _ hrun h7
  subst hs
  rw [h7] at hr
  simp only [Run.reg, Option.some.injEq] at hr
  omega

/-- C1, amended: the first example assembles to three instructions, the loop
ends after 7 cycles, and the final registers are `regs[8]=5`, `regs[9]=3` and
`regs[10]=0`. -/
theorem C1_example1_final_state :
    ∃ (s : State), assemble example1Lines = some example1Program ∧
      runLoop example1Program 7 initState 0 = Run.done s 7 ∧
      s.cpu.regs 8 = 5 ∧ s.cpu.regs 9 = 3 ∧ s.cpu.regs 10 = 0 := by
  obtain ⟨s7, h7⟩ := Run.exists_done_of_cycles (runLoop example1Program 7 initState 0) 7
    (by decide)
  have h8 : (runLoop example1Program 7 initState 0).reg 8 = some 5 := by decide
  have h9 : (runLoop example1Program 7 initState 0).reg 9 = some 3 := by decide
  have h10 : (runLoop example1Program 7 initState 0).reg 10 = some 0 := by decide
  rw [h7] at h8 h9 h10
  simp only [Run.reg, Option.some.injEq] at h8 h9 h10
  exact ⟨s7, example1_assembles, h7, h8, h9, h10⟩

theorem example2_assembles : assemble example2Lines = some example2Program := by decide

/-- C2, as stated, fails: the second example assembles and the loop ends, but
no finished run has `mem[0]=4` and `regs[9]=4`. The `SW` is decoded in cycle 2
and latches `regs[8]` before the `ADDI` writes it back in cycle 4. -/
theorem C2_example2_counterexample :
    ¬ ∃ (p : List Instruction) (fuel : Nat) (s : State) (c : Nat),
      assemble example2Lines = some p ∧ runLoop p fuel initState 0 = Run.done s c ∧
      s.cpu.mem 0 = 4 ∧ s.cpu.regs 9 = 4 := by
  rintro ⟨p, fuel, s, c, hp, hrun, hm, -⟩
  rw [example2_assembles] at hp
  injection hp with hp
  subst hp
  obtain ⟨s7, h7⟩ := Run.exists_done_of_cycles (runLoop example2Program 7 initState 0) 7
    (by decide)
  have hr : (runLoop example2Program 7 initState 0).memWord 0 = some 0 := by decide
  obtain ⟨hs, -⟩ := runLoop_done_unique _ _ _ _ _ _ _ _ _ hrun h7
  subst hs
  rw [h7] at hr
  simp only [Run.memWord, Option.some.injEq] at hr
  omega

/-- C2, amended: the second example assembles to three instructions, the loop
ends after 7 cycles, and the final state has `regs[8]=4`, `mem[0]=0` and
`regs[9]=0`. -/
theorem C2_example2_final_state :
    ∃ (s : State), assemble example2Lines = some example2Program ∧
      runLoop example2Program 7 initState 0 = Run.done s 7 ∧
      s.cpu.regs 8 = 4 ∧ s.cpu.mem 0 = 0 ∧ s.cpu.regs 9 = 0 := by
  obtain ⟨s7, h7⟩ := Run.exists_done_of_cycles (runLoop example2Program 7 initState 0) 7
    (by decide)
  have h8 : (runLoop example2Program 7 initState 0).reg 8 = some 4 := by decide
  have h9 : (runLoop example2Program 7 initState 0).reg 9 = some 0 := by decide
  have hm : (runLoop example2Program 7 initState 0).memWord 0 = some 0 := by decide
  rw [h7] at h8 h9 hm
  simp only [Run.reg, Run.memWord, Option.some.injEq] at h8 h9 hm
  exact ⟨s7, example2_assembles, h7, h8, hm, h9⟩

/-- C3, as stated, fails: written without a blank after the commas, the first
line is the single operand token `$t0,$zero,1`; `getRegNumber` hands
`t0,$zero,` to `stoi`, which throws, so no program is assembled. -/
theorem C3_example3_counterexample :
    parseLine "ADDI $t0,$zero,1" (firstPass (loadProgram example3Lines)).1 = none ∧
      assemble example3Lines = none := by
  constructor <;> decide

/-- C3, amended: with a blank after every comma the four lines assemble to a
four-instruction program with label `done` bound to index 3, the loop ends
after 9 cycles, and the final registers are `regs[9]=0` and `regs[10]=7`. -/
theorem C3_example3_spaced_final_state :
    ∃ (s : State), assemble example3SpacedLines = some example3Program ∧
      example3Program.length = 4 ∧
      (firstPass (loadProgram example3SpacedLines)).1.lookup "done" = some 3 ∧
      runLoop example3Program 9 initState 0 = Run.done s 9 ∧
      s.cpu.regs 9 = 0 ∧ s.cpu.regs 10 = 7 := by
  obtain ⟨s9, h9⟩ := Run.exists_done_of_cycles (runLoop example3Program 9 initState 0) 9
    (by decide)
  have r9 : (runLoop example3Program 9 initState 0).reg 9 = some 0 := by decide
  have r10 : (runLoop example3Program 9 initState 0).reg 10 = some 7 := by decide
  rw [h9] at r9 r10
  simp only [Run.reg, Option.some.injEq] at r9 r10
  exact ⟨s9, by decide, by decide, by decide, h9, r9, r10⟩

/-! ## Invariants of one cycle -/

theorem wbStage_reg_zero (regs r : Nat → Int) (m : MEM_WB) (h0 : regs 0 = 0)
    (h : wbStage regs m = some r) : r 0 = 0 := by
  unfold wbStage at h
  split at h
  · dsimp only at h
    split at h
    · exact Option.noConfusion h
    · injection h with h
      subst h
      simp [setAt]
  · injection h with h
    subst h
    exact h0

/-- What a defined cycle is made of: the results of the three stages that can
fail, and the next state assembled from them. -/
theorem step_some (p : List Instruction) (s s1 : State) (h : step p s = some s1) :
    ∃ regs1 nextIdex nextIfid pc1,
      wbStage s.cpu.regs s.memwb = some regs1 ∧
      idStage regs1 s.ifid = some nextIdex ∧
      ifStage p s.cpu.pc = some (nextIfid, pc1) ∧
      s1 = (match branchDecision s.idex with
        | some target =>
          { cpu := { regs := regs1, mem := (memStage s.cpu.mem s.exmem).2, pc := target },
            ifid := {}, idex := {}, exmem := (exStage s.idex).1,
            memwb := (memStage s.cpu.mem s.exmem).1 }
        | none =>
          { cpu := { regs := regs1, mem := (memStage s.cpu.mem s.exmem).2, pc := pc1 },
            ifid := nextIfid, idex := nextIdex, exmem := (exStage s.idex).1,
            memwb := (memStage s.cpu.mem s.exmem).1 }) := by
  unfold step at h
  cases hw : wbStage s.cpu.regs s.memwb with
  | none => rw [hw] at h; exact Option.noConfusion h
  | some regs1 =>
    rw [hw] at h
    dsimp only at h
    cases hd : idStage regs1 s.ifid with
    | none => rw [hd] at h; exact Option.noConfusion h
    | some nextIdex =>
      rw [hd] at h
      dsimp only at h
      cases hf : ifStage p s.cpu.pc with
      | none => rw [hf] at h; exact Option.noConfusion h
      | some q =>
        obtain ⟨nextIfid, pc1⟩ := q
        rw [hf] at h
        dsimp only at h
        refine ⟨regs1, nextIdex, nextIfid, pc1, rfl, hd, rfl, ?_⟩
        have he : (exStage s.idex).2 = branchDecision s.idex := rfl
        rw [he] at h
        cases hb : branchDecision s.idex with
        | none =>
          rw [hb] at h
          injection h with h
          exact h.symm
        | some t =>
          rw [hb] at h
          injection h with h
          exact h.symm

theorem step_cpu_regs (p : List Instruction) (s s1 : State) (h : step p s = some s1) :
    wbStage s.cpu.regs s.memwb = some s1.cpu.regs := by
  obtain ⟨regs1, nextIdex, nextIfid, pc1, hw, -, -, hs⟩ := step_some p s s1 h
  subst hs
  rw [hw]
  cases branchDecision s.idex <;> rfl

theorem step_reg_zero (p : List Instruction) (s s1 : State) (h0 : s.cpu.regs 0 = 0)
    (h : step p s = some s1) : s1.cpu.regs 0 = 0 :=
  wbStage_reg_zero _ _ _ h0 (step_cpu_regs p s s1 h)

theorem runCycles_reg_zero (p : List Instruction) :
    ∀ (k : Nat) (s s1 : State), s.cpu.regs 0 = 0 → runCycles p k s = some s1 →
      s1.cpu.regs 0 = 0 := by
  intro k
  induction k with
  | zero =>
    intro s s1 h0 h
    simp only [runCycles, Option.some.injEq] at h
    subst h
    exact h0
  | succ k ih =>
    intro s s1 h0 h
    simp only [runCycles] at h
    split at h
    · cases hs : step p s with
      | none => rw [hs] at h; exact Option.noConfusion h
      | some s2 =>
        rw [hs] at h
        exact ih s2 s1 (step_reg_zero p s s2 h0 hs) h
    · exact Option.noConfusion h

/-- A program whose only instruction names register 0 as its destination. -/
theorem zeroDestProgram_runs :
    (runCycles [{ opcode := "ADDI", rt := 0, rs := 0, imm := 5, valid := true }] 5
      initState).isSome = true := by decide

/-- C4: from the zero-initialised start state, after any number of executed
cycles of any program, `regs[0] = 0` (also when the retiring instruction has
register 0 as its destination). -/
theorem C4_reg_zero_hardwired (p : List Instruction) (k : Nat) (s : State)
    (h : runCycles p k initState = some s) : s.cpu.regs 0 = 0 :=
  runCycles_reg_zero p k initState s rfl h

/-- Witness for C4: `ADDI $zero, $zero, 5` run for its 5 cycles. -/
theorem C4_reg_zero_hardwired_witness :
    ∃ s, runCycles [{ opcode := "ADDI", rt := 0, rs := 0, imm := 5, valid := true }] 5
      initState = some s ∧ s.cpu.regs 0 = 0 := by
  cases h : runCycles [{ opcode := "ADDI", rt := 0, rs := 0, imm := 5, valid := true }] 5
      initState with
  | none =>
    have := zeroDestProgram_runs
    rw [h] at this
    exact absurd this (by decide)
  | some s => exact ⟨s, rfl, C4_reg_zero_hardwired _ 5 s h⟩

/-! ## Flush and invalid instructions -/

theorem step_eq_stepNoFlush (p : List Instruction) (s : State)
    (hb : branchDecision s.idex = none) : step p s = stepNoFlush p s := by
  unfold step stepNoFlush
  cases wbStage s.cpu.regs s.memwb with
  | none => rfl
  | some regs1 =>
    dsimp only
    cases idStage regs1 s.ifid with
    | none => rfl
    | some nextIdex =>
      dsimp only
      cases ifStage p s.cpu.pc with
      | none => rfl
      | some q =>
        have he : (exStage s.idex).2 = none := hb
        dsimp only
        rw [he]

theorem step_flush (p : List Instruction) (s s1 : State) (t : Int)
    (hb : branchDecision s.idex = some t) (h : step p s = some s1) :
    s1.cpu.pc = t ∧ s1.ifid = {} ∧ s1.idex = {} ∧
      ∃ u, stepNoFlush p s = some u ∧ s1.exmem = u.exmem ∧ s1.memwb = u.memwb ∧
        s1.cpu.regs = u.cpu.regs ∧ s1.cpu.mem = u.cpu.mem := by
  obtain ⟨regs1, nextIdex, nextIfid, pc1, hw, hd, hf, hs⟩ := step_some p s s1 h
  rw [hb] at hs
  subst hs
  refine ⟨rfl, rfl, rfl, ?_⟩
  unfold stepNoFlush
  rw [hw]
  dsimp only
  rw [hd]
  dsimp only
  rw [hf]
  exact ⟨_, rfl, rfl, rfl, rfl, rfl⟩

theorem wbStage_invalid (regs : Nat → Int) (m : MEM_WB) (h : m.inst.valid = false) :
    wbStage regs m = some regs := by
  unfold wbStage
  rw [h]
  rfl

/-- The Memory stage tests the opcode and not `valid`: were an invalid
instruction with opcode `SW` to stand in Execute/Memory, it would store. No
run holds such a latch (see `bubbleInv_runCycles`). -/
theorem memStage_tests_opcode_only :
    invalidStoreState.exmem.inst.valid = false ∧
      ∃ s1, step [] invalidStoreState = some s1 ∧
        invalidStoreState.cpu.mem 0 = 0 ∧ s1.cpu.mem 0 = 7 := by
  have h : (step [] invalidStoreState).map (fun t => t.cpu.mem 0) = some 7 := by decide
  obtain ⟨s1, hs, hm⟩ := Option.map_eq_some'.mp h
  exact ⟨rfl, s1, hs, rfl, hm⟩

/-- C6: when Decode/Execute holds a valid `J`, or a valid `BEQ` with equal
operands, the cycle sets `pc` to the instruction's address, leaves default
(bubble) Fetch/Decode and Decode/Execute latches, and gives the same
Execute/Memory and Memory/Writeback latches as the cycle without the flush;
a valid `BEQ` with different operands gives the cycle without the flush. -/
theorem C6_flush_correct (p : List Instruction) (s s1 : State)
    (h : step p s = some s1) (hv : s.idex.inst.valid = true) :
    ((s.idex.inst.opcode = "J" ∨
        (s.idex.inst.opcode = "BEQ" ∧ s.idex.rsVal = s.idex.rtVal)) →
      s1.cpu.pc = s.idex.inst.address ∧ s1.ifid = {} ∧ s1.idex = {} ∧
        ∃ u, stepNoFlush p s = some u ∧ s1.exmem = u.exmem ∧ s1.memwb = u.memwb) ∧
    ((s.idex.inst.opcode = "BEQ" ∧ s.idex.rsVal ≠ s.idex.rtVal) →
      stepNoFlush p s = some s1) := by
  constructor
  · intro hop
    have hb : branchDecision s.idex = some s.idex.inst.address := by
      unfold branchDecision
      rw [if_pos hv]
      rcases hop with hj | hbeq
      · rw [if_neg (fun hc => absurd (hj.symm.trans hc.1) (by decide)), if_pos hj]
      · rw [if_pos hbeq]
    obtain ⟨h1, h2, h3, u, hu, h4, h5, -, -⟩ := step_flush p s s1 _ hb h
    exact ⟨h1, h2, h3, u, hu, h4, h5⟩
  · intro hop
    have hb : branchDecision s.idex = none := by
      unfold branchDecision
      rw [if_pos hv, if_neg (fun hc => hop.2 hc.2),
        if_neg (fun hc => absurd (hop.1.symm.trans hc) (by decide))]
    rw [← step_eq_stepNoFlush p s hb]
    exact h

/-- Witness for C6: the taken `BEQ` of the third example in Decode/Execute. -/
theorem C6_flush_correct_witness :
    ∃ s1, step example3Program takenBranchState = some s1 ∧
      s1.cpu.pc = 3 ∧ s1.ifid = {} ∧ s1.idex = {} ∧
      ∃ u, stepNoFlush example3Program takenBranchState = some u ∧
        s1.exmem = u.exmem ∧ s1.memwb = u.memwb := by
  cases h : step example3Program takenBranchState with
  | none =>
    have hs : (step example3Program takenBranchState).isSome = true := by decide
    rw [h] at hs
    exact absurd hs (by decide)
  | some s1 =>
    exact ⟨s1, rfl,
      (C6_flush_correct example3Program takenBranchState s1 h rfl).1 (Or.inr ⟨rfl, rfl⟩)⟩

/-! ## Control skeleton of a cycle -/

theorem idStage_some (regs : Nat → Int) (f : IF_ID) (d : ID_EX)
    (h : idStage regs f = some d) : d.inst = f.inst ∧ d.npc = f.npc := by
  unfold idStage at h
  dsimp only at h
  split at h
  · split at h
    · split at h
      · exact Option.noConfusion h
      · injection h with h; subst h; exact ⟨rfl, rfl⟩
    · split at h
      · split at h
        · injection h with h; subst h; exact ⟨rfl, rfl⟩
        · exact Option.noConfusion h
      · split at h
        · split at h
          · exact Option.noConfusion h
          · injection h with h; subst h; exact ⟨rfl, rfl⟩
        · split at h
          · split at h
            · injection h with h; subst h; exact ⟨rfl, rfl⟩
            · exact Option.noConfusion h
          · split at h
            · split at h
              · injection h with h; subst h; exact ⟨rfl, rfl⟩
              · exact Option.noConfusion h
            · injection h with h; subst h; exact ⟨rfl, rfl⟩
  · injection h with h; subst h; exact ⟨rfl, rfl⟩

theorem ifStage_some (p : List Instruction) (pc pc1 : Int) (f : IF_ID)
    (h : ifStage p pc = some (f, pc1)) :
    (pc < (p.length : Int) ∧ 0 ≤ pc ∧ pc1 = pc + 1 ∧ f.npc = pc + 1 ∧
        p[pc.toNat]? = some f.inst) ∨
      ((p.length : Int) ≤ pc ∧ pc1 = pc ∧ f = {}) := by
  unfold ifStage at h
  split at h
  · rename_i hlt
    split at h
    · rename_i hge
      split at h
      · rename_i i hi
        injection h with h
        injection h with h1 h2
        subst h1 h2
        exact Or.inl ⟨hlt, hge, rfl, rfl, hi⟩
      · exact Option.noConfusion h
    · exact Option.noConfusion h
  · rename_i hlt
    injection h with h
    injection h with h1 h2
    subst h1 h2
    exact Or.inr ⟨not_lt.mp hlt, rfl, rfl⟩

theorem readReg_defined (regs : Nat → Int) (r : Int) (h : 0 ≤ r ∧ r < REG_COUNT) :
    readReg regs r = some (regs r.toNat) := by
  unfold readReg
  rw [if_pos h]

theorem writeReg_defined (regs : Nat → Int) (r v : Int) (h : 0 ≤ r ∧ r < REG_COUNT) :
    writeReg regs r v = some (setAt regs r.toNat v) := by
  unfold writeReg
  rw [if_pos h]

theorem wbStage_defined (regs : Nat → Int) (m : MEM_WB) (h : RegsInRange m.inst) :
    ∃ r, wbStage regs m = some r := by
  obtain ⟨-, hrt, hrd⟩ := h
  unfold wbStage
  dsimp only
  rw [writeReg_defined _ _ _ hrt, writeReg_defined _ _ _ hrt, writeReg_defined _ _ _ hrd]
  by_cases hv : m.inst.valid = true
  · rw [if_pos hv]
    split_ifs <;> exact ⟨_, rfl⟩
  · rw [if_neg hv]
    exact ⟨_, rfl⟩

theorem idStage_defined (regs : Nat → Int) (f : IF_ID) (h : RegsInRange f.inst) :
    ∃ d, idStage regs f = some d := by
  obtain ⟨hrs, hrt, -⟩ := h
  unfold idStage
  dsimp only
  rw [readReg_defined _ _ hrs, readReg_defined _ _ hrt]
  split
  · split
    · exact ⟨_, rfl⟩
    · split
      · exact ⟨_, rfl⟩
      · split
        · exact ⟨_, rfl⟩
        · split
          · exact ⟨_, rfl⟩
          · split
            · exact ⟨_, rfl⟩
            · exact ⟨_, rfl⟩
  · exact ⟨_, rfl⟩

theorem ifStage_defined (p : List Instruction) (pc : Int) (h : 0 ≤ pc) :
    ∃ q, ifStage p pc = some q := by
  unfold ifStage
  split
  · rename_i hlt
    have hi : pc.toNat < p.length := by omega
    rw [List.getElem?_eq_getElem hi]
    exact ⟨_, rfl⟩
  · exact ⟨_, rfl⟩

theorem step_defined (p : List Instruction) (s : State) (hwb : RegsInRange s.memwb.inst)
    (hid : RegsInRange s.ifid.inst) (hpc : 0 ≤ s.cpu.pc) : ∃ s1, step p s = some s1 := by
  unfold step
  obtain ⟨r, hr⟩ := wbStage_defined s.cpu.regs s.memwb hwb
  rw [hr]
  dsimp only
  obtain ⟨d, hd⟩ := idStage_defined r s.ifid hid
  rw [hd]
  dsimp only
  obtain ⟨⟨f, pc1⟩, hf⟩ := ifStage_defined p s.cpu.pc hpc
  rw [hf]
  dsimp only
  cases (exStage s.idex).2 <;> exact ⟨_, rfl⟩

theorem memStage_inst (mem : Nat → Int) (e : EX_MEM) : (memStage mem e).1.inst = e.inst := by
  unfold memStage
  dsimp only
  split_ifs <;> rfl

/-- Where the instructions and `pc` go in a defined cycle. -/
theorem step_skeleton (p : List Instruction) (s s1 : State) (h : step p s = some s1) :
    s1.exmem.inst = s.idex.inst ∧ s1.memwb.inst = s.exmem.inst ∧
    ((∃ t, branchDecision s.idex = some t ∧ s1.cpu.pc = t ∧ s1.ifid = {} ∧ s1.idex = {}) ∨
     (branchDecision s.idex = none ∧ s1.idex.inst = s.ifid.inst ∧ s1.idex.npc = s.ifid.npc ∧
       ((s.cpu.pc < (p.length : Int) ∧ 0 ≤ s.cpu.pc ∧ s1.cpu.pc = s.cpu.pc + 1 ∧
           s1.ifid.npc = s.cpu.pc + 1 ∧ p[s.cpu.pc.toNat]? = some s1.ifid.inst) ∨
        ((p.length : Int) ≤ s.cpu.pc ∧ s1.cpu.pc = s.cpu.pc ∧ s1.ifid = {})))) := by
  obtain ⟨regs1, nextIdex, nextIfid, pc1, -, hd, hf, hs⟩ := step_some p s s1 h
  obtain ⟨hd1, hd2⟩ := idStage_some _ _ _ hd
  have hf1 := ifStage_some _ _ _ _ hf
  subst hs
  cases hb : branchDecision s.idex with
  | some t =>
    exact ⟨rfl, memStage_inst _ _, Or.inl ⟨t, rfl, rfl, rfl, rfl⟩⟩
  | none =>
    exact ⟨rfl, memStage_inst _ _, Or.inr ⟨rfl, hd1, hd2, hf1⟩⟩

theorem branchDecision_of_not_branch (d : ID_EX) (h : ¬ isBranch d.inst) :
    branchDecision d = none := by
  unfold branchDecision
  unfold isBranch at h
  rw [not_or] at h
  split
  · rw [if_neg (fun hc => h.1 hc.1), if_neg h.2]
  · rfl

theorem regsInRange_default : RegsInRange ({} : Instruction) := by
  unfold RegsInRange REG_COUNT
  decide

theorem not_isBranch_default : ¬ isBranch ({} : Instruction) := by
  unfold isBranch
  decide

theorem latchRegs_step (p : List Instruction) (hreg : ∀ i ∈ p, RegsInRange i)
    (s s1 : State) (hR : LatchRegs s) (h1 : step p s = some s1) : LatchRegs s1 := by
  obtain ⟨he, hm, hk⟩ := step_skeleton p s s1 h1
  rcases hk with ⟨t, -, -, hif, hid⟩ | ⟨-, hdi, -, hfetch⟩
  · refine ⟨?_, ?_, he ▸ hR.idex_regs, hm ▸ hR.exmem_regs⟩
    · rw [hif]; exact regsInRange_default
    · rw [hid]; exact regsInRange_default
  · rcases hfetch with ⟨-, -, -, -, hget⟩ | ⟨-, -, hif⟩
    · exact ⟨hreg _ (List.getElem?_mem hget), hdi ▸ hR.ifid_regs, he ▸ hR.idex_regs,
        hm ▸ hR.exmem_regs⟩
    · refine ⟨?_, hdi ▸ hR.ifid_regs, he ▸ hR.idex_regs, hm ▸ hR.exmem_regs⟩
      rw [hif]; exact regsInRange_default

theorem drain_step (p : List Instruction) (hnb : ∀ i ∈ p, ¬ isBranch i) (s s1 : State)
    (hI : DrainInv s) (h1 : step p s = some s1) :
    DrainInv s1 ∧ (loopCond p s = true → drainBound p s1 + 1 ≤ drainBound p s) := by
  obtain ⟨he, hm, hk⟩ := step_skeleton p s s1 h1
  rw [branchDecision_of_not_branch _ hI.idex_nb] at hk
  have h0 := hI.pc_nonneg
  rcases hk with ⟨t, ht, -⟩ | ⟨-, hdi, -, hfetch⟩
  · exact Option.noConfusion ht
  · rcases hfetch with ⟨hlt, -, hpc, -, hget⟩ | ⟨hge, hpc, hif⟩
    · constructor
      · exact ⟨by omega, hnb _ (List.getElem?_mem hget), hdi ▸ hI.ifid_nb⟩
      · intro _
        unfold drainBound
        rw [if_pos hlt, hpc]
        split_ifs <;> omega
    · constructor
      · refine ⟨by omega, ?_, hdi ▸ hI.ifid_nb⟩
        rw [hif]; exact not_isBranch_default
      · intro hc
        have hlt : ¬ s.cpu.pc < (p.length : Int) := by omega
        have hlt1 : ¬ s1.cpu.pc < (p.length : Int) := by omega
        have hv : s1.ifid.inst.valid = false := by rw [hif]
        unfold loopCond at hc
        unfold drainBound
        rw [if_neg hlt, if_neg hlt1, hv, hdi, he, hm]
        simp only [hlt, decide_False, Bool.false_or, Bool.or_eq_true] at hc
        cases h1 : s.ifid.inst.valid <;> cases h2 : s.idex.inst.valid <;>
          cases h3 : s.exmem.inst.valid <;> cases h4 : s.memwb.inst.valid <;>
          simp_all

theorem drainBound_pos (p : List Instruction) (s : State) (hc : loopCond p s = true) :
    0 < drainBound p s := by
  unfold drainBound
  by_cases hlt : s.cpu.pc < (p.length : Int)
  · rw [if_pos hlt]
    omega
  · rw [if_neg hlt]
    unfold loopCond at hc
    simp only [hlt, decide_False, Bool.false_or, Bool.or_eq_true] at hc
    cases h1 : s.ifid.inst.valid <;> cases h2 : s.idex.inst.valid <;>
      cases h3 : s.exmem.inst.valid <;> cases h4 : s.memwb.inst.valid <;>
      simp_all

/-- On a branch-free program the loop never needs more than `drainBound`
iterations, and a finished run has counted at most that many. -/
theorem runLoop_drain_bound (p : List Instruction) (hnb : ∀ i ∈ p, ¬ isBranch i) :
    ∀ (fuel : Nat) (s : State) (c : Nat), DrainInv s →
      (drainBound p s ≤ fuel → runLoop p fuel s c ≠ Run.timeout) ∧
      (∀ s1 c1, runLoop p fuel s c = Run.done s1 c1 → c1 ≤ c + drainBound p s) := by
  intro fuel
  induction fuel with
  | zero =>
    intro s c hI
    constructor
    · intro hb
      have hc : ¬ loopCond p s = true := fun hc => by
        have := drainBound_pos p s hc
        omega
      simp only [runLoop, if_neg hc]
      exact fun h => Run.noConfusion h
    · intro s1 c1 h
      simp only [runLoop] at h
      split at h
      · exact Run.noConfusion h
      · injection h with _ hc1
        omega
  | succ fuel ih =>
    intro s c hI
    by_cases hc : loopCond p s = true
    · cases hs : step p s with
      | none =>
        constructor
        · intro _
          simp only [runLoop, if_pos hc, hs]
          exact fun h => Run.noConfusion h
        · intro s1 c1 h
          simp only [runLoop, if_pos hc, hs] at h
          exact Run.noConfusion h
      | some s2 =>
        obtain ⟨hI2, hdec⟩ := drain_step p hnb s s2 hI hs
        have hd := hdec hc
        obtain ⟨ih1, ih2⟩ := ih s2 (c + 1) hI2
        constructor
        · intro hb
          simp only [runLoop, if_pos hc, hs]
          exact ih1 (by omega)
        · intro s1 c1 h
          simp only [runLoop, if_pos hc, hs] at h
          have := ih2 s1 c1 h
          omega
    · constructor
      · intro _
        simp only [runLoop, if_neg hc]
        exact fun h => Run.noConfusion h
      · intro s1 c1 h
        simp only [runLoop, if_neg hc] at h
        injection h with _ hc1
        omega

/-- With register indices in range every cycle of a branch-free program is
defined, so the bounded loop ends. -/
theorem runLoop_drain_done (p : List Instruction) (hreg : ∀ i ∈ p, RegsInRange i)
    (hnb : ∀ i ∈ p, ¬ isBranch i) :
    ∀ (fuel : Nat) (s : State) (c : Nat), DrainInv s → LatchRegs s → drainBound p s ≤ fuel →
      ∃ s1 c1, runLoop p fuel s c = Run.done s1 c1 := by
  intro fuel
  induction fuel with
  | zero =>
    intro s c hI hR hb
    have hc : ¬ loopCond p s = true := fun hc => by
      have := drainBound_pos p s hc
      omega
    exact ⟨s, c, by simp only [runLoop, if_neg hc]⟩
  | succ fuel ih =>
    intro s c hI hR hb
    by_cases hc : loopCond p s = true
    · obtain ⟨s1, hs1⟩ := step_defined p s hR.memwb_regs hR.ifid_regs hI.pc_nonneg
      obtain ⟨hI1, hdec⟩ := drain_step p hnb s s1 hI hs1
      have hd := hdec hc
      obtain ⟨s2, c2, hrun⟩ := ih s1 (c + 1) hI1 (latchRegs_step p hreg s s1 hR hs1) (by omega)
      refine ⟨s2, c2, ?_⟩
      simp only [runLoop, if_pos hc, hs1]
      exact hrun
    · exact ⟨s, c, by simp only [runLoop, if_neg hc]⟩

theorem drainInv_initState : DrainInv initState :=
  ⟨le_refl _, not_isBranch_default, not_isBranch_default⟩

theorem latchRegs_initState : LatchRegs initState :=
  ⟨regsInRange_default, regsInRange_default, regsInRange_default, regsInRange_default⟩

theorem drainBound_initState (p : List Instruction) : drainBound p initState ≤ p.length + 4 := by
  unfold drainBound initState
  simp only
  split_ifs <;> simp

/-- C8: on a program of `n` instructions without `BEQ` and `J`, started from
the zero-initialised state, the loop never runs a cycle beyond `n + 4`, every
finished run has counted at most `n + 4` cycles, and when the register
indices are in range (so that every cycle is defined) the run is finished
within `n + 4` cycles. -/
theorem C8_bounded_drain (p : List Instruction)
    (hnb : ∀ i ∈ p, i.opcode ≠ "BEQ" ∧ i.opcode ≠ "J") :
    runLoop p (p.length + 4) initState 0 ≠ Run.timeout ∧
    (∀ fuel s c, runLoop p fuel initState 0 = Run.done s c → c ≤ p.length + 4) ∧
    ((∀ i ∈ p, RegsInRange i) →
      ∃ s c, runLoop p (p.length + 4) initState 0 = Run.done s c ∧ c ≤ p.length + 4) := by
  have hnb1 : ∀ i ∈ p, ¬ isBranch i := fun i hi hb => by
    rcases hb with h | h
    · exact (hnb i hi).1 h
    · exact (hnb i hi).2 h
  have hb0 := drainBound_initState p
  have hcyc : ∀ fuel s c, runLoop p fuel initState 0 = Run.done s c → c ≤ p.length + 4 := by
    intro fuel s c h
    have := (runLoop_drain_bound p hnb1 fuel initState 0 drainInv_initState).2 s c h
    omega
  refine ⟨(runLoop_drain_bound p hnb1 _ initState 0 drainInv_initState).1 hb0, hcyc, ?_⟩
  intro hreg
  obtain ⟨s, c, hrun⟩ := runLoop_drain_done p hreg hnb1 (p.length + 4) initState 0
    drainInv_initState latchRegs_initState hb0
  exact ⟨s, c, hrun, hcyc _ s c hrun⟩

/-- Witness for C8: the first example has no branch and halts within 7 cycles. -/
theorem C8_bounded_drain_witness :
    ∃ s c, runLoop example1Program (example1Program.length + 4) initState 0 = Run.done s c ∧
      c ≤ example1Program.length + 4 :=
  (C8_bounded_drain example1Program (by decide)).2.2 (by decide)

/-! ## Termination with forward branches -/

theorem branchDecision_some (d : ID_EX) (t : Int) (h : branchDecision d = some t) :
    d.inst.valid = true ∧ isBranch d.inst ∧ t = d.inst.address := by
  unfold branchDecision at h
  split at h
  · rename_i hv
    split at h
    · rename_i hb
      injection h with h
      exact ⟨hv, Or.inl hb.1, h.symm⟩
    · split at h
      · rename_i hj
        injection h with h
        exact ⟨hv, Or.inr hj, h.symm⟩
      · exact Option.noConfusion h
  · exact Option.noConfusion h

theorem frontStage_le (p : List Instruction) (s : State) : frontStage p s ≤ 2 := by
  unfold frontStage
  split_ifs <;> omega

theorem backStage_le (s : State) : backStage s ≤ 2 := by
  unfold backStage
  split_ifs <;> omega

theorem fwd_step (p : List Instruction) (hreg : ∀ i ∈ p, RegsInRange i)
    (hfwd : ∀ (i : Nat) (inst : Instruction), p[i]? = some inst → isBranch inst →
      (i : Int) < inst.address ∧ inst.address ≤ (p.length : Int))
    (s : State) (hI : FwdInv p s) :
    ∃ s1, step p s = some s1 ∧ FwdInv p s1 ∧
      (loopCond p s = true → progress p s1 < progress p s) ∧
      ((∀ (i : Nat) (inst : Instruction), p[i]? = some inst → isBranch inst →
          (i : Int) + 2 ≤ inst.address) → s.cpu.pc ≤ s1.cpu.pc) := by
  obtain ⟨s1, h1⟩ := step_defined p s hI.memwb_regs hI.ifid_regs hI.pc_nonneg
  refine ⟨s1, h1, ?_⟩
  obtain ⟨he, hm, hk⟩ := step_skeleton p s s1 h1
  have h0 := hI.pc_nonneg
  have hn := hI.pc_le
  have hfs := frontStage_le p s1
  have hbs := backStage_le s1
  rcases hk with ⟨t, ht, hpc, hif, hid⟩ | ⟨-, hdi, hdn, hfetch⟩
  · obtain ⟨hv, hbr, hta⟩ := branchDecision_some _ _ ht
    obtain ⟨⟨i, hi, hget⟩, hle, hle2, -⟩ := hI.idex_at hv
    obtain ⟨hlt, hge⟩ := hfwd i _ hget hbr
    have hin : i < p.length := (List.getElem?_eq_some.mp hget).1
    have hv1 : s1.ifid.inst.valid = false := by rw [hif]
    have hv2 : s1.idex.inst.valid = false := by rw [hid]
    refine ⟨⟨by omega, by omega, ?_, ?_, he ▸ hI.idex_regs, hm ▸ hI.exmem_regs, ?_, ?_⟩,
      ?_, ?_⟩
    · rw [hif]; exact regsInRange_default
    · rw [hid]; exact regsInRange_default
    · intro hc; rw [hv1] at hc; exact Bool.noConfusion hc
    · intro hc; rw [hv2] at hc; exact Bool.noConfusion hc
    · intro _
      have hf1 : frontier s1 = s1.cpu.pc := by
        unfold frontier
        rw [hv1, hv2]
        rfl
      have hf0 : frontier s = s.idex.npc - 1 := by
        unfold frontier
        rw [hv]
        rfl
      unfold progress
      rw [hf1, hf0]
      omega
    · intro hskip
      have := hskip i _ hget hbr
      omega
  · have hA : s.ifid.inst.valid = true → s.ifid.npc = s.cpu.pc ∧ 1 ≤ s.cpu.pc := by
      intro hv
      obtain ⟨hnp, i, hi, -⟩ := hI.ifid_at hv
      exact ⟨hnp, by omega⟩
    have hB : s.idex.inst.valid = true →
        s.idex.npc ≤ (p.length : Int) ∧ 1 ≤ s.idex.npc ∧ s.idex.npc ≤ s.cpu.pc ∧
          (s.ifid.inst.valid = true → s.idex.npc < s.cpu.pc) := by
      intro hv
      obtain ⟨⟨i, hi, hget⟩, hle, -, hlt⟩ := hI.idex_at hv
      have hin : i < p.length := (List.getElem?_eq_some.mp hget).1
      exact ⟨by omega, by omega, hle, hlt⟩
    have hD : s1.idex.inst.valid = true →
        (∃ i : Nat, (i : Int) + 1 = s1.idex.npc ∧ p[i]? = some s1.idex.inst) ∧
          s1.idex.npc = s.cpu.pc := by
      intro hv
      rw [hdi] at hv
      obtain ⟨hnp, i, hi, hget⟩ := hI.ifid_at hv
      exact ⟨⟨i, by rw [hdn]; exact hi, by rw [hdi]; exact hget⟩, by rw [hdn]; exact hnp⟩
    rcases hfetch with ⟨hlt, -, hpc, hnpc, hget⟩ | ⟨hge, hpc, hif⟩
    · refine ⟨⟨by omega, by omega, hreg _ (List.getElem?_mem hget), hdi ▸ hI.ifid_regs,
        he ▸ hI.idex_regs, hm ▸ hI.exmem_regs, ?_, ?_⟩, ?_, ?_⟩
      · intro _
        exact ⟨by omega, s.cpu.pc.toNat, by omega, hget⟩
      · intro hv
        obtain ⟨hex, hnp⟩ := hD hv
        exact ⟨hex, by omega, by omega, fun _ => by omega⟩
      · intro _
        clear hfs hbs
        unfold progress frontier frontStage backStage
        rw [hdi, hdn, he, hm, hpc, hnpc]
        by_cases hv1 : s.idex.inst.valid = true
        · obtain ⟨b1, b2, b3, b4⟩ := hB hv1
          by_cases hv2 : s.ifid.inst.valid = true
          · obtain ⟨a1, a2⟩ := hA hv2
            have b5 := b4 hv2
            simp only [if_pos hv1, if_pos hv2]
            split_ifs <;> omega
          · simp only [if_pos hv1, if_neg hv2]
            split_ifs <;> omega
        · by_cases hv2 : s.ifid.inst.valid = true
          · obtain ⟨a1, a2⟩ := hA hv2
            simp only [if_neg hv1, if_pos hv2]
            split_ifs <;> omega
          · simp only [if_neg hv1, if_neg hv2, if_pos hlt]
            split_ifs <;> omega
      · intro _
        omega
    · have hv3 : s1.ifid.inst.valid = false := by rw [hif]
      refine ⟨⟨by omega, by omega, ?_, hdi ▸ hI.ifid_regs,
        he ▸ hI.idex_regs, hm ▸ hI.exmem_regs, ?_, ?_⟩, ?_, ?_⟩
      · rw [hif]; exact regsInRange_default
      · intro hc; rw [hv3] at hc; exact Bool.noConfusion hc
      · intro hv
        obtain ⟨hex, hnp⟩ := hD hv
        exact ⟨hex, by omega, by omega,
          fun hc => by rw [hv3] at hc; exact Bool.noConfusion hc⟩
      · intro hc
        clear hfs hbs
        have hge1 : ¬ s.cpu.pc < (p.length : Int) := not_lt.mpr hge
        have hv3n : ¬ s1.ifid.inst.valid = true := by rw [hv3]; exact Bool.false_ne_true
        unfold progress frontier frontStage backStage
        rw [hdi, hdn, he, hm, hpc]
        by_cases hv1 : s.idex.inst.valid = true
        · obtain ⟨b1, b2, b3, b4⟩ := hB hv1
          by_cases hv2 : s.ifid.inst.valid = true
          · obtain ⟨a1, a2⟩ := hA hv2
            have b5 := b4 hv2
            simp only [if_pos hv1, if_pos hv2]
            split_ifs <;> omega
          · simp only [if_pos hv1, if_neg hv2, if_neg hv3n, if_neg hge1]
            split_ifs <;> omega
        · by_cases hv2 : s.ifid.inst.valid = true
          · obtain ⟨a1, a2⟩ := hA hv2
            simp only [if_neg hv1, if_pos hv2]
            split_ifs <;> omega
          · simp only [if_neg hv1, if_neg hv2, if_neg hv3n, if_neg hge1]
            have hc2 : s.exmem.inst.valid = true ∨ s.memwb.inst.valid = true := by
              unfold loopCond at hc
              rw [Bool.not_eq_true] at hv1 hv2
              rw [hv1, hv2, decide_eq_false hge1] at hc
              simpa using hc
            rcases hc2 with h4 | h5
            · simp only [if_pos h4]
              omega
            · simp only [if_pos h5]
              split_ifs <;> omega
      · intro _
        omega

theorem runLoop_of_progress (p : List Instruction) (hreg : ∀ i ∈ p, RegsInRange i)
    (hfwd : ∀ (i : Nat) (inst : Instruction), p[i]? = some inst → isBranch inst →
      (i : Int) < inst.address ∧ inst.address ≤ (p.length : Int)) :
    ∀ (fuel : Nat) (s : State) (c : Nat), FwdInv p s → progress p s ≤ fuel →
      ∃ s1 c1, runLoop p fuel s c = Run.done s1 c1 := by
  intro fuel
  induction fuel with
  | zero =>
    intro s c hI hb
    obtain ⟨s1, -, -, hdec, -⟩ := fwd_step p hreg hfwd s hI
    have hc : ¬ loopCond p s = true := fun hc => by have := hdec hc; omega
    exact ⟨s, c, by simp only [runLoop, if_neg hc]⟩
  | succ fuel ih =>
    intro s c hI hb
    obtain ⟨s1, hs1, hI1, hdec, -⟩ := fwd_step p hreg hfwd s hI
    by_cases hc : loopCond p s = true
    · have hd := hdec hc
      obtain ⟨s2, c2, hrun⟩ := ih s1 (c + 1) hI1 (by omega)
      refine ⟨s2, c2, ?_⟩
      simp only [runLoop, if_pos hc, hs1]
      exact hrun
    · exact ⟨s, c, by simp only [runLoop, if_neg hc]⟩

theorem runCycles_succ_last (p : List Instruction) :
    ∀ (k : Nat) (s0 s1 : State), runCycles p (k + 1) s0 = some s1 →
      ∃ s, runCycles p k s0 = some s ∧ loopCond p s = true ∧ step p s = some s1 := by
  intro k
  induction k with
  | zero =>
    intro s0 s1 h
    simp only [runCycles] at h
    split at h
    · rename_i hc
      cases hs : step p s0 with
      | none => rw [hs] at h; exact Option.noConfusion h
      | some s2 =>
        rw [hs] at h
        exact ⟨s0, rfl, hc, by rw [hs]; exact h⟩
    · exact Option.noConfusion h
  | succ k ih =>
    intro s0 s1 h
    rw [runCycles] at h
    split at h
    · rename_i hc
      cases hs : step p s0 with
      | none => rw [hs] at h; exact Option.noConfusion h
      | some s2 =>
        rw [hs] at h
        obtain ⟨s, hk, hcs, hst⟩ := ih s2 s1 h
        refine ⟨s, ?_, hcs, hst⟩
        rw [runCycles, if_pos hc, hs]
        exact hk
    · exact Option.noConfusion h

theorem fwdInv_runCycles (p : List Instruction) (hreg : ∀ i ∈ p, RegsInRange i)
    (hfwd : ∀ (i : Nat) (inst : Instruction), p[i]? = some inst → isBranch inst →
      (i : Int) < inst.address ∧ inst.address ≤ (p.length : Int)) :
    ∀ (k : Nat) (s0 s : State), FwdInv p s0 → runCycles p k s0 = some s → FwdInv p s := by
  intro k
  induction k with
  | zero =>
    intro s0 s hI h
    simp only [runCycles, Option.some.injEq] at h
    exact h ▸ hI
  | succ k ih =>
    intro s0 s hI h
    obtain ⟨s2, hk, -, hst⟩ := runCycles_succ_last p k s0 s h
    have hI2 := ih s0 s2 hI hk
    obtain ⟨s3, hs3, hI3, -, -⟩ := fwd_step p hreg hfwd s2 hI2
    rw [hst] at hs3
    injection hs3 with hs3
    exact hs3 ▸ hI3

theorem fwdInv_initState (p : List Instruction) : FwdInv p initState :=
  ⟨le_refl _, Int.ofNat_nonneg _, regsInRange_default, regsInRange_default,
    regsInRange_default, regsInRange_default,
    fun h => Bool.noConfusion h, fun h => Bool.noConfusion h⟩

/-- C7, amended: if every register index is in range and every `BEQ`/`J` at
index `i` has its target after `i` and at most at the program length, the
loop reaches its end condition after finitely many cycles; if moreover every
target is at least `i + 2`, `pc` never decreases from one cycle to the next. -/
theorem C7_termination_forward_branches (p : List Instruction)
    (hreg : ∀ i ∈ p, RegsInRange i)
    (hfwd : ∀ (i : Nat) (inst : Instruction), p[i]? = some inst →
      (inst.opcode = "BEQ" ∨ inst.opcode = "J") →
      (i : Int) < inst.address ∧ inst.address ≤ (p.length : Int)) :
    (∃ fuel s c, runLoop p fuel initState 0 = Run.done s c) ∧
    ((∀ (i : Nat) (inst : Instruction), p[i]? = some inst →
        (inst.opcode = "BEQ" ∨ inst.opcode = "J") → (i : Int) + 2 ≤ inst.address) →
      ∀ (k : Nat) (s s1 : State), runCycles p k initState = some s →
        runCycles p (k + 1) initState = some s1 → s.cpu.pc ≤ s1.cpu.pc) := by
  constructor
  · obtain ⟨s, c, h⟩ := runLoop_of_progress p hreg hfwd (progress p initState) initState 0
      (fwdInv_initState p) (le_refl _)
    exact ⟨_, s, c, h⟩
  · intro hskip k s s1 hk hk1
    obtain ⟨s2, hk2, -, hst⟩ := runCycles_succ_last p k initState s1 hk1
    rw [hk] at hk2
    injection hk2 with hk2
    subst hk2
    have hI := fwdInv_runCycles p hreg hfwd k initState s (fwdInv_initState p) hk
    obtain ⟨s3, hs3, -, -, hmono⟩ := fwd_step p hreg hfwd s hI
    rw [hst] at hs3
    injection hs3 with hs3
    subst hs3
    exact hmono hskip

theorem example3_forward : ∀ (i : Nat) (inst : Instruction),
    example3Program[i]? = some inst → (inst.opcode = "BEQ" ∨ inst.opcode = "J") →
      (i : Int) + 2 ≤ inst.address ∧ inst.address ≤ (example3Program.length : Int) := by
  intro i inst hget hbr
  have hi : i < 4 := (List.getElem?_eq_some.mp hget).1
  have h4 : i = 0 ∨ i = 1 ∨ i = 2 ∨ i = 3 := by omega
  rcases h4 with rfl | rfl | rfl | rfl <;>
    simp only [example3Program, List.getElem?_cons_zero, List.getElem?_cons_succ,
      Option.some.injEq] at hget <;> subst hget <;> revert hbr <;> decide

/-- Witness for C7: the third example, whose `BEQ` at index 1 targets index 3. -/
theorem C7_termination_forward_branches_witness :
    (∃ fuel s c, runLoop example3Program fuel initState 0 = Run.done s c) ∧
    (∀ (k : Nat) (s s1 : State), runCycles example3Program k initState = some s →
        runCycles example3Program (k + 1) initState = some s1 → s.cpu.pc ≤ s1.cpu.pc) :=
  have h := C7_termination_forward_branches example3Program (by decide)
    (fun i inst hg hb => ⟨by have := (example3_forward i inst hg hb).1; omega,
      (example3_forward i inst hg hb).2⟩)
  ⟨h.1, h.2 (fun i inst hg hb => (example3_forward i inst hg hb).1)⟩

/-! ## A program that never ends -/

theorem selfJump_step (s : State) (hI : SelfJumpInv s) :
    loopCond selfJumpProgram s = true ∧
      ∃ s1, step selfJumpProgram s = some s1 ∧ SelfJumpInv s1 := by
  have hrI : RegsInRange s.ifid.inst := by
    rcases hI.ifid_inst with h | h <;> rw [h] <;> decide
  have hrD : RegsInRange s.idex.inst := by
    rcases hI.idex_inst with h | h <;> rw [h] <;> decide
  have hpc : 0 ≤ s.cpu.pc := by
    rcases hI.pc_cases with h | ⟨h, -⟩ <;> omega
  constructor
  · unfold loopCond
    rcases hI.pc_cases with h | ⟨-, h | h⟩
    · have : s.cpu.pc < ((selfJumpProgram.length : Nat) : Int) := by
        rw [h]; decide
      simp [this]
    · simp [h]
    · simp [h]
  · obtain ⟨s1, h1⟩ := step_defined selfJumpProgram s hI.memwb_regs hrI hpc
    refine ⟨s1, h1, ?_⟩
    obtain ⟨he, hm, hk⟩ := step_skeleton selfJumpProgram s s1 h1
    rcases hk with ⟨t, ht, hpc1, hif, hid⟩ | ⟨hb, hdi, -, hfetch⟩
    · obtain ⟨hv, -, hta⟩ := branchDecision_some _ _ ht
      have hj : s.idex.inst = selfJumpInst := by
        rcases hI.idex_inst with h | h
        · rw [h] at hv; exact Bool.noConfusion hv
        · exact h
      refine ⟨Or.inl (by rw [hif]), Or.inl (by rw [hid]), he ▸ hrD, hm ▸ hI.exmem_regs,
        Or.inl ?_⟩
      rw [hpc1, hta, hj]
      rfl
    · have hd : s.idex.inst = {} := by
        rcases hI.idex_inst with h | h
        · exact h
        · have hv : s.idex.inst.valid = true := by rw [h]; rfl
          have hop : s.idex.inst.opcode = "J" := by rw [h]; rfl
          unfold branchDecision at hb
          rw [if_pos hv, if_neg (fun hc => absurd (hop.symm.trans hc.1) (by decide)),
            if_pos hop] at hb
          exact Option.noConfusion hb
      have hdv : ¬ s.idex.inst.valid = true := by rw [hd]; exact Bool.false_ne_true
      rcases hfetch with ⟨hlt, -, hpc1, -, hget⟩ | ⟨hge, hpc1, hif⟩
      · have hlen : ((selfJumpProgram.length : Nat) : Int) = 1 := rfl
        have hz : s.cpu.pc = 0 := by omega
        rw [hz] at hget
        have hfi : s1.ifid.inst = selfJumpInst := by
          simp only [selfJumpProgram, Int.toNat_zero, List.getElem?_cons_zero,
            Option.some.injEq] at hget
          exact hget.symm
        refine ⟨Or.inr hfi, hdi ▸ hI.ifid_inst, he ▸ hrD, hm ▸ hI.exmem_regs,
          Or.inr ⟨by omega, Or.inl (by rw [hfi]; rfl)⟩⟩
      · have hlen : ((selfJumpProgram.length : Nat) : Int) = 1 := rfl
        rcases hI.pc_cases with hz | ⟨h1pc, hv | hv⟩
        · omega
        · refine ⟨Or.inl (by rw [hif]), hdi ▸ hI.ifid_inst, he ▸ hrD, hm ▸ hI.exmem_regs,
            Or.inr ⟨by omega, Or.inr (by rw [hdi]; exact hv)⟩⟩
        · exact absurd hv hdv

theorem selfJump_timeout :
    ∀ (fuel : Nat) (s : State) (c : Nat), SelfJumpInv s →
      runLoop selfJumpProgram fuel s c = Run.timeout := by
  intro fuel
  induction fuel with
  | zero =>
    intro s c hI
    simp only [runLoop, if_pos (selfJump_step s hI).1]
  | succ fuel ih =>
    intro s c hI
    obtain ⟨hc, s1, hs1, hI1⟩ := selfJump_step s hI
    simp only [runLoop, if_pos hc, hs1]
    exact ih s1 (c + 1) hI1

theorem selfJumpInv_initState : SelfJumpInv initState :=
  ⟨Or.inl rfl, Or.inl rfl, regsInRange_default, regsInRange_default, Or.inl rfl⟩

/-- C7, as stated, fails: `L: J L` assembles to one `J` whose target 0 is
inside the program, yet the loop never reaches its end condition, and `pc`
drops from 1 to 0 in the third cycle. -/
theorem C7_self_jump_counterexample :
    assemble selfJumpLines = some selfJumpProgram ∧
    (∀ i ∈ selfJumpProgram, RegsInRange i ∧ 0 ≤ i.address ∧
      i.address < (selfJumpProgram.length : Int)) ∧
    (∀ fuel, runLoop selfJumpProgram fuel initState 0 = Run.timeout) ∧
    (∃ s s1, runCycles selfJumpProgram 2 initState = some s ∧
      runCycles selfJumpProgram 3 initState = some s1 ∧ s1.cpu.pc < s.cpu.pc) := by
  refine ⟨by decide, by decide, fun fuel => selfJump_timeout fuel initState 0
    selfJumpInv_initState, ?_⟩
  have h2 : (runCycles selfJumpProgram 2 initState).map (fun t => t.cpu.pc) = some 1 := by
    decide
  have h3 : (runCycles selfJumpProgram 3 initState).map (fun t => t.cpu.pc) = some 0 := by
    decide
  obtain ⟨s, hs, hp⟩ := Option.map_eq_some'.mp h2
  obtain ⟨s1, hs1, hp1⟩ := Option.map_eq_some'.mp h3
  exact ⟨s, s1, hs, hs1, by rw [hp, hp1]; decide⟩

/-! ## Register names -/

theorem lookup_some_mem (l : List (List Char × Int)) (reg : List Char) (n : Int)
    (h : l.lookup reg = some n) : ∃ q ∈ l, q.1 = reg := by
  induction l with
  | nil => exact Option.noConfusion h
  | cons q l ih =>
    obtain ⟨k, v⟩ := q
    rw [List.lookup_cons] at h
    by_cases hk : (reg == k) = true
    · exact ⟨(k, v), List.mem_cons_self _ _, (beq_iff_eq.mp hk).symm⟩
    · rw [Bool.not_eq_true] at hk
      rw [hk] at h
      obtain ⟨q, hq, hq1⟩ := ih h
      exact ⟨q, List.mem_cons_of_mem _ hq, hq1⟩

theorem regMap_lookup_some (reg : List Char) (n : Int) (h : regMap.lookup reg = some n) :
    reg.head? = some '$' ∧
      (reg.tail.head? = some 'z' ∨ reg.tail.head? = some 't' ∨ reg.tail.head? = some 's') := by
  have hk : ∀ q ∈ regMap, q.1.head? = some '$' ∧
      (q.1.tail.head? = some 'z' ∨ q.1.tail.head? = some 't' ∨ q.1.tail.head? = some 's') := by
    decide
  obtain ⟨q, hq, hq1⟩ := lookup_some_mem regMap reg n h
  rw [← hq1]
  exact hk q hq

theorem regMap_lookup_none (reg : List Char)
    (h : reg.head? ≠ some '$' ∨
      (reg.tail.head? ≠ some 'z' ∧ reg.tail.head? ≠ some 't' ∧ reg.tail.head? ≠ some 's')) :
    regMap.lookup reg = none := by
  cases hl : regMap.lookup reg with
  | none => rfl
  | some n =>
    obtain ⟨h1, h2⟩ := regMap_lookup_some reg n hl
    rcases h with h | ⟨hz, ht, hs⟩
    · exact absurd h1 h
    · rcases h2 with h2 | h2 | h2
      · exact absurd h2 hz
      · exact absurd h2 ht
      · exact absurd h2 hs

theorem getRegNumber_no_dollar (reg : List Char) (h : reg.head? ≠ some '$') :
    getRegNumber reg = some 0 := by
  unfold getRegNumber
  rw [regMap_lookup_none reg (Or.inl h)]
  cases reg with
  | nil => rfl
  | cons c r =>
    have hc : ¬ (c = '$' ∧ 1 < (c :: r).length) := fun hc => h (by rw [hc.1]; rfl)
    simp only [if_neg hc]

theorem isDigit_not_space (c : Char) (h : c.isDigit = true) : isSpaceC c = false := by
  have h1 : 48 ≤ c.val := by
    simp only [Char.isDigit, Bool.and_eq_true, decide_eq_true_eq] at h
    exact h.1
  cases hs : isSpaceC c with
  | false => rfl
  | true =>
    exfalso
    simp only [isSpaceC, Bool.or_eq_true, decide_eq_true_eq] at hs
    rcases hs with ((((hs | hs) | hs) | hs) | hs) | hs <;> rw [hs] at h1 <;>
      exact absurd h1 (by decide)

theorem takeWhile_all {α : Type} (f : α → Bool) (l : List α) (h : ∀ c ∈ l, f c = true) :
    l.takeWhile f = l := by
  induction l with
  | nil => rfl
  | cons c r ih =>
    rw [List.takeWhile_cons, h c (List.mem_cons_self _ _),
      ih (fun d hd => h d (List.mem_cons_of_mem _ hd))]
    rfl

theorem stoi_digits (ds : List Char) (hne : ds ≠ []) (hd : ∀ c ∈ ds, c.isDigit = true)
    (hb : digitsVal 0 ds ≤ 2147483647) : stoi ds = some ((digitsVal 0 ds : Nat) : Int) := by
  cases ds with
  | nil => exact absurd rfl hne
  | cons d r =>
    have hd0 : d.isDigit = true := hd d (List.mem_cons_self _ _)
    have hsp : isSpaceC d = false := isDigit_not_space d hd0
    have hm : ¬ d = '-' := fun hc => by rw [hc] at hd0; exact absurd hd0 (by decide)
    have hp : ¬ d = '+' := fun hc => by rw [hc] at hd0; exact absurd hd0 (by decide)
    unfold stoi
    have hdw : (d :: r).dropWhile isSpaceC = d :: r := by
      rw [List.dropWhile_cons, hsp]
      rfl
    simp only [hdw, hm, hp, decide_False, Bool.or_self, Bool.false_eq_true, if_false,
      takeWhile_all Char.isDigit (d :: r) hd]
    rw [if_neg (by simp), if_pos (by constructor <;> omega)]

theorem getRegNumber_numeral (ds : List Char) (hne : ds ≠ [])
    (hd : ∀ c ∈ ds, c.isDigit = true) (hb : digitsVal 0 ds ≤ 2147483647) :
    getRegNumber ('$' :: ds) = some ((digitsVal 0 ds : Nat) : Int) := by
  cases ds with
  | nil => exact absurd rfl hne
  | cons d r =>
    have hd0 : d.isDigit = true := hd d (List.mem_cons_self _ _)
    have hl : regMap.lookup ('$' :: d :: r) = none := by
      apply regMap_lookup_none
      right
      simp only [List.tail_cons, List.head?_cons, ne_eq, Option.some.injEq]
      refine ⟨?_, ?_, ?_⟩ <;> intro hc <;> rw [hc] at hd0 <;> exact absurd hd0 (by decide)
    unfold getRegNumber
    rw [hl]
    have hc : '$' = '$' ∧ 1 < ('$' :: d :: r).length := ⟨rfl, by simp⟩
    show (if '$' = '$' ∧ 1 < ('$' :: d :: r).length then stoi (d :: r) else some 0) = _
    rw [if_pos hc]
    exact stoi_digits (d :: r) hne hd hb

/-! ## Tokens of a register-register line -/

theorem takeWhile_token (t r : List Char) (h : ∀ c ∈ t, isSpaceC c = false) :
    (t ++ ' ' :: r).takeWhile (fun c => !isSpaceC c) = t ∧
      (t ++ ' ' :: r).dropWhile (fun c => !isSpaceC c) = ' ' :: r := by
  induction t with
  | nil => exact ⟨rfl, rfl⟩
  | cons c t ih =>
    have hc : isSpaceC c = false := h c (List.mem_cons_self _ _)
    obtain ⟨h1, h2⟩ := ih (fun d hd => h d (List.mem_cons_of_mem _ hd))
    constructor
    · rw [List.cons_append, List.takeWhile_cons, hc]
      simp only [Bool.not_false, if_true]
      rw [h1]
    · rw [List.cons_append, List.dropWhile_cons, hc]
      simp only [Bool.not_false, if_true]
      exact h2

theorem takeWhile_token_end (t : List Char) (h : ∀ c ∈ t, isSpaceC c = false) :
    t.takeWhile (fun c => !isSpaceC c) = t ∧ t.dropWhile (fun c => !isSpaceC c) = [] := by
  induction t with
  | nil => exact ⟨rfl, rfl⟩
  | cons c t ih =>
    have hc : isSpaceC c = false := h c (List.mem_cons_self _ _)
    obtain ⟨h1, h2⟩ := ih (fun d hd => h d (List.mem_cons_of_mem _ hd))
    constructor
    · rw [List.takeWhile_cons, hc]
      simp only [Bool.not_false, if_true]
      rw [h1]
    · rw [List.dropWhile_cons, hc]
      simp only [Bool.not_false, if_true]
      exact h2

theorem dropWhile_space_token (t r : List Char) (ht : isToken t) :
    (t ++ r).dropWhile isSpaceC = t ++ r := by
  obtain ⟨hne, hsp⟩ := ht
  cases t with
  | nil => exact absurd rfl hne
  | cons c t =>
    rw [List.cons_append, List.dropWhile_cons, hsp c (List.mem_cons_self _ _)]
    rfl

theorem nextToken_token (t r : List Char) (ht : isToken t) :
    nextToken (t ++ ' ' :: r) = (t, ' ' :: r) := by
  unfold nextToken
  dsimp only
  rw [dropWhile_space_token t _ ht, (takeWhile_token t r ht.2).1, (takeWhile_token t r ht.2).2]

theorem nextToken_token_end (t : List Char) (ht : isToken t) : nextToken t = (t, []) := by
  unfold nextToken
  dsimp only
  have h := dropWhile_space_token t [] ht
  rw [List.append_nil] at h
  rw [h, (takeWhile_token_end t ht.2).1, (takeWhile_token_end t ht.2).2]

theorem nextToken_space (s : List Char) : nextToken (' ' :: s) = nextToken s := by
  unfold nextToken
  dsimp only
  rw [List.dropWhile_cons]
  rfl

theorem isToken_comma (t : List Char) (ht : isToken t) : isToken (t ++ [',']) := by
  obtain ⟨hne, hsp⟩ := ht
  refine ⟨by simp, ?_⟩
  intro c hc
  rcases List.mem_append.mp hc with h | h
  · exact hsp c h
  · rw [List.mem_singleton.mp h]
    decide

theorem dropLastByte_concat (t : List Char) (x : Char) (hx : x.toNat < 128) :
    dropLastByte (t ++ [x]) = t := by
  unfold dropLastByte utf8Bytes
  rw [List.getLast?_concat]
  dsimp only
  rw [if_pos hx, List.dropLast_concat]
  simp

theorem parseLine_regreg (op : String) (a b c : List Char) (lm : List (String × Int))
    (hop : op = "ADD" ∨ op = "SUB" ∨ op = "MUL" ∨ op = "AND" ∨ op = "OR")
    (ha : isToken a) (hb : isToken b) (hc : isToken c) :
    parseLine (String.mk (op.data ++ ' ' :: (a ++ ',' :: ' ' :: (b ++ ',' :: ' ' :: c)))) lm =
      (getRegNumber a).bind (fun rd => (getRegNumber b).bind (fun rs =>
        (getRegNumber c).bind (fun rt =>
          some { opcode := op, rd := rd, rs := rs, rt := rt, valid := true,
                 raw := String.mk (op.data ++ ' ' :: (a ++ ',' :: ' ' :: (b ++ ',' :: ' ' :: c))) }))) := by
  have hto : isToken op.data := by
    rcases hop with h | h | h | h | h <;> rw [h] <;> exact ⟨by decide, by decide⟩
  have hni : ¬ op = "ADDI" := by
    rcases hop with h | h | h | h | h <;> rw [h] <;> decide
  have hblank : (op.data ++ ' ' :: (a ++ ',' :: ' ' :: (b ++ ',' :: ' ' :: c))).dropWhile
      (fun c => decide (c = ' ') || decide (c = Char.ofNat 9)) =
      op.data ++ ' ' :: (a ++ ',' :: ' ' :: (b ++ ',' :: ' ' :: c)) := by
    obtain ⟨hne, hsp⟩ := hto
    cases hd : op.data with
    | nil => exact absurd hd hne
    | cons d t =>
      have hd1 : isSpaceC d = false := hsp d (by rw [hd]; exact List.mem_cons_self _ _)
      have hd2 : (decide (d = ' ') || decide (d = Char.ofNat 9)) = false := by
        cases hx : (decide (d = ' ') || decide (d = Char.ofNat 9)) with
        | false => rfl
        | true =>
          exfalso
          simp only [Bool.or_eq_true, decide_eq_true_eq] at hx
          rcases hx with hx | hx <;> rw [hx] at hd1 <;> exact absurd hd1 (by decide)
      rw [List.cons_append, List.dropWhile_cons, hd2]
      rfl
  have e1 : a ++ ',' :: ' ' :: (b ++ ',' :: ' ' :: c) =
      (a ++ [',']) ++ ' ' :: (b ++ ',' :: ' ' :: c) := by simp
  have e2 : b ++ ',' :: ' ' :: c = (b ++ [',']) ++ ' ' :: c := by simp
  have t0 := nextToken_token op.data (a ++ ',' :: ' ' :: (b ++ ',' :: ' ' :: c)) hto
  have t1 : nextToken (' ' :: (a ++ ',' :: ' ' :: (b ++ ',' :: ' ' :: c))) =
      (a ++ [','], ' ' :: (b ++ ',' :: ' ' :: c)) := by
    rw [nextToken_space, e1]
    exact nextToken_token _ _ (isToken_comma a ha)
  have t2 : nextToken (' ' :: (b ++ ',' :: ' ' :: c)) = (b ++ [','], ' ' :: c) := by
    rw [nextToken_space, e2]
    exact nextToken_token _ _ (isToken_comma b hb)
  have t3 : nextToken (' ' :: c) = (c, []) := by
    rw [nextToken_space]
    exact nextToken_token_end c hc
  unfold parseLine
  simp only [hblank, t0, t1, t2, t3, dropLastByte_concat a ',' (by decide),
    dropLastByte_concat b ',' (by decide), if_neg hto.1, if_neg hni, if_pos hop]
  cases getRegNumber a <;> cases getRegNumber b <;> cases getRegNumber c <;> rfl

/-- C9, as stated, fails: `2147483648` is a decimal numeral, but `stoi` throws
`std::out_of_range` on it, so `getRegNumber` has no value for `$2147483648`. -/
theorem C9_numeral_beyond_int_counterexample :
    ("2147483648".data ≠ [] ∧ ∀ c ∈ "2147483648".data, c.isDigit = true) ∧
      getRegNumber ('$' :: "2147483648".data) = none := by
  decide

/-- C9, amended: `getRegNumber` maps `$zero` to 0, `$t0`..`$t7` to 8..15,
`$s0`..`$s5` to 16..21, every token `$k` with `k` a decimal numeral of value at
most 2147483647 to `k`, and every token not starting with `$` to 0; and for a
line `OP a, b, c` with `OP` in ADD, SUB, MUL, AND, OR, `parseLine` yields
`rd = getRegNumber a`, `rs = getRegNumber b`, `rt = getRegNumber c` (and throws
when one of the three lookups throws). -/
theorem C9_register_names :
    getRegNumber "$zero".data = some 0 ∧
    (∀ j : Fin 8, getRegNumber ['$', 't', Char.ofNat (48 + j.val)] = some (8 + (j.val : Int))) ∧
    (∀ j : Fin 6, getRegNumber ['$', 's', Char.ofNat (48 + j.val)] = some (16 + (j.val : Int))) ∧
    (∀ ds : List Char, ds ≠ [] → (∀ c ∈ ds, c.isDigit = true) → digitsVal 0 ds ≤ 2147483647 →
      getRegNumber ('$' :: ds) = some ((digitsVal 0 ds : Nat) : Int)) ∧
    (∀ reg : List Char, reg.head? ≠ some '$' → getRegNumber reg = some 0) ∧
    (∀ (op : String) (a b c : List Char) (lm : List (String × Int)),
      (op = "ADD" ∨ op = "SUB" ∨ op = "MUL" ∨ op = "AND" ∨ op = "OR") →
      isToken a → isToken b → isToken c →
      parseLine (String.mk (op.data ++ ' ' :: (a ++ ',' :: ' ' :: (b ++ ',' :: ' ' :: c)))) lm =
        (getRegNumber a).bind (fun rd => (getRegNumber b).bind (fun rs =>
          (getRegNumber c).bind (fun rt =>
            some { opcode := op, rd := rd, rs := rs, rt := rt, valid := true,
                   raw := String.mk
                     (op.data ++ ' ' :: (a ++ ',' :: ' ' :: (b ++ ',' :: ' ' :: c))) })))) :=
  ⟨by decide, by decide, by decide, getRegNumber_numeral, getRegNumber_no_dollar,
    fun op a b c lm hop ha hb hc => parseLine_regreg op a b c lm hop ha hb hc⟩

/-- Witness for C9: the tokens `$5` and `x9`, and the line `ADD $t0, $s5, $5`. -/
theorem C9_register_names_witness :
    getRegNumber "$5".data = some 5 ∧ getRegNumber "x9".data = some 0 ∧
    parseLine "ADD $t0, $s5, $5" [] =
      some { opcode := "ADD", rd := 8, rs := 21, rt := 5, valid := true,
             raw := "ADD $t0, $s5, $5" } :=
  ⟨C9_register_names.2.2.2.1 "5".data (by decide) (by decide) (by decide),
    C9_register_names.2.2.2.2.1 "x9".data (by decide),
    C9_register_names.2.2.2.2.2 "ADD" "$t0".data "$s5".data "$5".data [] (Or.inl rfl)
      ⟨by decide, by decide⟩ ⟨by decide, by decide⟩ ⟨by decide, by decide⟩⟩

/-! ## Memory stage and the address range -/

theorem tdiv_four (a : Int) :
    (0 ≤ a → Int.tdiv a 4 = a / 4) ∧ (a < 0 → Int.tdiv a 4 = -((-a) / 4)) := by
  constructor
  · intro h
    exact Int.tdiv_eq_ediv h (by decide)
  · intro h
    have h1 : Int.tdiv (-(-a)) 4 = -(Int.tdiv (-a) 4) := Int.neg_tdiv (-a) 4
    rw [Int.neg_neg] at h1
    rw [h1, Int.tdiv_eq_ediv (by omega) (by decide)]

/-- An effective address of at most `-4` or at least `4·MEM_SIZE` touches no
memory word: a store is dropped and a load latches 0. -/
theorem memStage_out_of_range (mem : Nat → Int) (e : EX_MEM)
    (h : e.aluResult ≤ -4 ∨ 4096 ≤ e.aluResult) :
    (memStage mem e).2 = mem ∧ (e.inst.opcode = "LW" → (memStage mem e).1.memData = 0) := by
  have hr : ¬ (0 ≤ Int.tdiv e.aluResult 4 ∧ Int.tdiv e.aluResult 4 < (MEM_SIZE : Int)) := by
    have hm : (MEM_SIZE : Int) = 1024 := rfl
    rw [hm]
    rcases h with h | h
    · rw [(tdiv_four e.aluResult).2 (by omega)]
      omega
    · rw [(tdiv_four e.aluResult).1 (by omega)]
      omega
  unfold memStage
  dsimp only
  split_ifs with h1 h2
  · exact ⟨rfl, fun _ => rfl⟩
  · exact ⟨rfl, fun hc => absurd hc h1⟩
  · exact ⟨rfl, fun hc => absurd hc h1⟩

/-- A store to an effective address in `[0, 4·MEM_SIZE)` writes `rtVal` to the
word `aluResult / 4` and to no other word. -/
theorem memStage_store_in_range (mem : Nat → Int) (e : EX_MEM) (hop : e.inst.opcode = "SW")
    (h : 0 ≤ e.aluResult ∧ e.aluResult < 4096) :
    (memStage mem e).2 (e.aluResult / 4).toNat = e.rtVal ∧
      ∀ j : Nat, j ≠ (e.aluResult / 4).toNat → (memStage mem e).2 j = mem j := by
  have hr : 0 ≤ Int.tdiv e.aluResult 4 ∧ Int.tdiv e.aluResult 4 < (MEM_SIZE : Int) := by
    have hm : (MEM_SIZE : Int) = 1024 := rfl
    rw [hm, (tdiv_four e.aluResult).1 h.1]
    omega
  have hl : ¬ e.inst.opcode = "LW" := fun hc => absurd (hop.symm.trans hc) (by decide)
  unfold memStage
  dsimp only
  rw [if_neg hl, if_pos hop, if_pos hr, (tdiv_four e.aluResult).1 h.1]
  constructor
  · simp [setAt]
  · intro j hj
    simp [setAt, hj]

theorem negativeStore_assembles : assemble negativeStoreLines = some negativeStoreProgram := by
  decide

/-- C10, the code at the failing input: with effective byte address `-1` the
word index is `-1 / 4 = 0` (C++ division), so the bounds test passes: a `SW`
overwrites `mem[0]` and a `LW` latches `mem[0]`; the program
`negativeStoreLines` ends with `mem[0] = 7`. -/
theorem C10_negative_address_reaches_word_zero :
    (memStage (fun _ => 0)
      { inst := { opcode := "SW", valid := true }, aluResult := -1, rtVal := 7 }).2 0 = 7 ∧
    (memStage (fun _ => 5)
      { inst := { opcode := "LW", valid := true }, aluResult := -1 }).1.memData = 5 ∧
    assemble negativeStoreLines = some negativeStoreProgram ∧
    (runLoop negativeStoreProgram 8 initState 0).memWord 0 = some 7 := by
  refine ⟨by decide, by decide, negativeStore_assembles, by decide⟩

/-! ## Front-end corner cases -/

/-- C11, the code at the failing input: `parseLine` returns `rd = 32` for
`ADD $32, $1, $2` (and `rd = -1` for `ADD $-1, $1, $2`), outside `[0, 32)`; the
program assembles, and its fifth cycle indexes `cpu.regs` out of bounds in
Write-Back. -/
theorem C11_register_index_unchecked :
    parseLine "ADD $32, $1, $2" [] =
      some { opcode := "ADD", rd := 32, rs := 1, rt := 2, raw := "ADD $32, $1, $2",
             valid := true } ∧
    (parseLine "ADD $-1, $1, $2" []).map regFields = some (1, 2, -1) ∧
    assemble outOfRangeRegLines = some outOfRangeRegProgram ∧
    (∃ i ∈ outOfRangeRegProgram, ¬ RegsInRange i) ∧
    (runLoop outOfRangeRegProgram 5 initState 0).isUndefined = true := by
  refine ⟨by decide, by decide, by decide, ⟨_, List.mem_cons_self _ _, by decide⟩, by decide⟩

/-- What a line adds to the instruction-line list does not depend on what
the first pass has seen before. -/
theorem firstPassLine_snd (acc : List (String × Int) × List String) (l0 : String) :
    (firstPassLine acc l0).2 = acc.2 ++ (firstPassLine ([], []) l0).2 := by
  unfold firstPassLine
  dsimp only
  split_ifs <;> simp

theorem firstPassLine_emits (l0 : String) :
    ∃ t : List Char, (firstPassLine ([], []) l0).2 = if t = [] then [] else [String.mk t] := by
  unfold firstPassLine
  exact ⟨_, rfl⟩

theorem firstPassLine_no_empty (acc : List (String × Int) × List String) (l0 : String)
    (h : ∀ l ∈ acc.2, l ≠ "") : ∀ l ∈ (firstPassLine acc l0).2, l ≠ "" := by
  intro l hl
  rw [firstPassLine_snd] at hl
  rcases List.mem_append.mp hl with h1 | h1
  · exact h l h1
  · obtain ⟨t, ht⟩ := firstPassLine_emits l0
    rw [ht] at h1
    split at h1
    · exact absurd h1 (List.not_mem_nil l)
    · rename_i hne
      rw [List.mem_singleton.mp h1]
      intro hc
      exact hne (congrArg String.data hc)

/-- No entry of the instruction-line list is the empty string. -/
theorem firstPass_no_empty (lines : List String) : ∀ l ∈ (firstPass lines).2, l ≠ "" := by
  unfold firstPass
  have hgen : ∀ (ls : List String) (acc : List (String × Int) × List String),
      (∀ l ∈ acc.2, l ≠ "") → ∀ l ∈ (ls.foldl firstPassLine acc).2, l ≠ "" := by
    intro ls
    induction ls with
    | nil => intro acc h; exact h
    | cons x xs ih =>
      intro acc h
      exact ih (firstPassLine acc x) (firstPassLine_no_empty acc x h)
  exact hgen lines ([], []) (fun l hl => absurd hl (List.not_mem_nil l))

/-- C13, the code at the failing inputs: a line of blanks, an indented
comment-only line and a label followed only by blanks each leave an entry made
of blanks in the instruction-line list; the line of blanks assembles to a
one-instruction program (a bubble), which runs one cycle where the empty
program runs none. -/
theorem C13_blank_line_kept :
    (firstPass (loadProgram ["   "])).2 = ["   "] ∧
    (firstPass (loadProgram ["  # note"])).2 = ["  "] ∧
    (firstPass (loadProgram ["L:  "])).2 = ["  "] ∧
    assemble ["   "] = some [blankLineInst] ∧
    (runLoop [blankLineInst] 1 initState 0).cycles = some 1 ∧
    (runLoop [] 1 initState 0).cycles = some 0 := by
  refine ⟨by decide, by decide, by decide, by decide, by decide, by decide⟩

/-- The value handed to the reporter is one less than the cycle counter. -/
theorem finalReport_of_done (p : List Instruction) (fuel : Nat) (s : State) (c : Nat)
    (h : runLoop p fuel initState 0 = Run.done s c) :
    finalReport p fuel = some ((c : Int) - 1) := by
  unfold finalReport
  rw [h]
  rfl

/-- C16, the code at the failing inputs: `ADDI $t0, $zero, 5` executes 5
cycles and the reporter is handed 4; the empty program executes 0 cycles and
the reporter is handed -1. -/
theorem C16_reported_cycle_count :
    assemble ["ADDI $t0, $zero, 5"] = some oneAddiProgram ∧
    (runLoop oneAddiProgram 5 initState 0).cycles = some 5 ∧
    finalReport oneAddiProgram 5 = some 4 ∧
    (runLoop [] 0 initState 0).cycles = some 0 ∧
    finalReport [] 0 = some (-1) := by
  refine ⟨by decide, by decide, by decide, by decide, by decide⟩

/-! ## Words of a line -/

theorem nextToken_trim (s : List Char) :
    nextToken (s.dropWhile (fun c => decide (c = ' ') || decide (c = Char.ofNat 9))) =
      nextToken s := by
  have h : (s.dropWhile (fun c => decide (c = ' ') || decide (c = Char.ofNat 9))).dropWhile
      isSpaceC = s.dropWhile isSpaceC := by
    induction s with
    | nil => rfl
    | cons c t ih =>
      rw [List.dropWhile_cons]
      by_cases hc : (decide (c = ' ') || decide (c = Char.ofNat 9)) = true
      · rw [if_pos hc, ih]
        have hs : isSpaceC c = true := by
          simp only [Bool.or_eq_true, decide_eq_true_eq] at hc
          rcases hc with hc | hc <;> rw [hc] <;> decide
        rw [List.dropWhile_cons, if_pos hs]
      · rw [if_neg hc]
  unfold nextToken
  dsimp only
  rw [h]

theorem dropWhile_space_append (ws s : List Char) (hws : ∀ c ∈ ws, isSpaceC c = true) :
    (ws ++ s).dropWhile isSpaceC = s.dropWhile isSpaceC := by
  induction ws with
  | nil => rfl
  | cons c t ih =>
    rw [List.cons_append, List.dropWhile_cons, if_pos (hws c (List.mem_cons_self _ _))]
    exact ih (fun d hd => hws d (List.mem_cons_of_mem _ hd))

theorem takeWhile_token_rest (t rest : List Char) (h : ∀ c ∈ t, isSpaceC c = false)
    (hr : rest = [] ∨ ∃ c r, rest = c :: r ∧ isSpaceC c = true) :
    (t ++ rest).takeWhile (fun c => !isSpaceC c) = t ∧
      (t ++ rest).dropWhile (fun c => !isSpaceC c) = rest := by
  induction t with
  | nil =>
    rcases hr with hr | ⟨c, r, hr, hc⟩
    · subst hr
      exact ⟨rfl, rfl⟩
    · subst hr
      rw [List.nil_append, List.takeWhile_cons, List.dropWhile_cons, hc]
      exact ⟨rfl, rfl⟩
  | cons c t ih =>
    have hc : isSpaceC c = false := h c (List.mem_cons_self _ _)
    obtain ⟨h1, h2⟩ := ih (fun d hd => h d (List.mem_cons_of_mem _ hd))
    rw [List.cons_append, List.takeWhile_cons, List.dropWhile_cons, hc]
    exact ⟨congrArg (List.cons c) h1, h2⟩

/-- The extraction `iss >> tok` on white space, a word, and a rest that is
empty or begins with white space: the word, and the rest left in the
stream. -/
theorem nextToken_word (ws t rest : List Char) (hws : ∀ c ∈ ws, isSpaceC c = true)
    (ht : isToken t) (hr : rest = [] ∨ ∃ c r, rest = c :: r ∧ isSpaceC c = true) :
    nextToken (ws ++ (t ++ rest)) = (t, rest) := by
  unfold nextToken
  dsimp only
  rw [dropWhile_space_append ws _ hws, dropWhile_space_token t rest ht,
    (takeWhile_token_rest t rest ht.2 hr).1, (takeWhile_token_rest t rest ht.2 hr).2]

/-- The words of a line are its maximal runs of characters other than white
space, in order. -/
theorem nthToken_words (ws t rest : List Char) (hws : ∀ c ∈ ws, isSpaceC c = true)
    (ht : isToken t) (hr : rest = [] ∨ ∃ c r, rest = c :: r ∧ isSpaceC c = true) (n : Nat) :
    nthToken 0 (ws ++ (t ++ rest)) = t ∧
      nthToken (n + 1) (ws ++ (t ++ rest)) = nthToken n rest := by
  have h := nextToken_word ws t rest hws ht hr
  constructor
  · show (nextToken (ws ++ (t ++ rest))).1 = t
    rw [h]
  · show nthToken n (nextToken (ws ++ (t ++ rest))).2 = nthToken n rest
    rw [h]

/-- A word holds no white space. -/
theorem nthToken_no_space (n : Nat) : ∀ (s : List Char), ∀ c ∈ nthToken n s,
    isSpaceC c = false := by
  induction n with
  | zero =>
    intro s c hc
    have h := List.mem_takeWhile_imp hc
    simpa using h
  | succ n ih =>
    intro s c hc
    exact ih _ c hc

/-! ## Decoding by words -/

/-- What `parseLine` makes of a line whose first word is `J`, whatever the
white space around the words and whatever follows the label. -/
theorem parseLine_jump (l : String) (lm : List (String × Int))
    (hop : String.mk (nthToken 0 l.data) = "J") :
    parseLine l lm =
      some { opcode := "J", valid := true,
             raw := String.mk (l.data.dropWhile (fun c => c = ' ' || c = Char.ofNat 9)),
             address := (lm.lookup (String.mk (nthToken 1 l.data))).getD (-1) } := by
  have hop0 : String.mk (nextToken l.data).1 = "J" := hop
  have hne : ¬ (nextToken l.data).1 = [] := by
    intro hc
    rw [hc] at hop0
    exact absurd hop0 (by decide)
  unfold parseLine
  simp only [nextToken_trim, nthToken]
  rw [if_neg hne]
  simp only [hop0]
  rw [if_neg (by decide), if_neg (by decide), if_neg (by decide), if_neg (by decide),
    if_neg (by decide), if_pos True.intro]
  cases lm.lookup (String.mk (nextToken (nextToken l.data).2).1) <;> rfl

/-- What `parseLine` makes of a line whose first word is `BEQ`, whatever the
white space around the words and whatever follows the label. -/
theorem parseLine_beq (l : String) (lm : List (String × Int))
    (hop : String.mk (nthToken 0 l.data) = "BEQ") :
    parseLine l lm =
      (getRegNumber (dropLastByte (nthToken 1 l.data))).bind (fun vrs =>
        (getRegNumber (dropLastByte (nthToken 2 l.data))).bind (fun vrt =>
          some { opcode := "BEQ", valid := true,
                 raw := String.mk (l.data.dropWhile (fun c => c = ' ' || c = Char.ofNat 9)),
                 rs := vrs, rt := vrt,
                 address := (lm.lookup (String.mk (nthToken 3 l.data))).getD (-1) })) := by
  have hop0 : String.mk (nextToken l.data).1 = "BEQ" := hop
  have hne : ¬ (nextToken l.data).1 = [] := by
    intro hc
    rw [hc] at hop0
    exact absurd hop0 (by decide)
  unfold parseLine
  simp only [nextToken_trim, nthToken]
  rw [if_neg hne]
  simp only [hop0]
  rw [if_neg (by decide), if_neg (by decide), if_neg (by decide), if_neg (by decide),
    if_pos True.intro]
  cases getRegNumber (dropLastByte (nextToken (nextToken l.data).2).1) with
  | none => rfl
  | some va =>
    cases getRegNumber (dropLastByte (nextToken (nextToken (nextToken l.data).2).2).1) with
    | none => rfl
    | some vb =>
      cases lm.lookup (String.mk
        (nextToken (nextToken (nextToken (nextToken l.data).2).2).2).1) <;> rfl

/-! ## The separator after a register token -/

/-- The register fields `parseLine` gives depend on the words of the line
only: on the opcode word, on the first operand word without its last byte, on
the second operand word (without its last byte unless the opcode is `LW` or
`SW`), and on the third operand word. -/
theorem parseLine_regFields_congr (l l1 : String) (lm : List (String × Int))
    (h0 : nthToken 0 l1.data = nthToken 0 l.data)
    (h1 : dropLastByte (nthToken 1 l1.data) = dropLastByte (nthToken 1 l.data))
    (h2 : (String.mk (nthToken 0 l.data) = "LW" ∨ String.mk (nthToken 0 l.data) = "SW") →
      nthToken 2 l1.data = nthToken 2 l.data)
    (h2n : ¬ (String.mk (nthToken 0 l.data) = "LW" ∨ String.mk (nthToken 0 l.data) = "SW") →
      dropLastByte (nthToken 2 l1.data) = dropLastByte (nthToken 2 l.data))
    (h3 : ¬ (String.mk (nthToken 0 l.data) = "LW" ∨ String.mk (nthToken 0 l.data) = "SW") →
      nthToken 3 l1.data = nthToken 3 l.data) :
    (parseLine l1 lm).map regFields = (parseLine l lm).map regFields := by
  have e0 : (nextToken l1.data).1 = (nextToken l.data).1 := h0
  have e1 : dropLastByte (nextToken (nextToken l1.data).2).1 =
      dropLastByte (nextToken (nextToken l.data).2).1 := h1
  have e2 : (String.mk (nextToken l.data).1 = "LW" ∨ String.mk (nextToken l.data).1 = "SW") →
      (nextToken (nextToken (nextToken l1.data).2).2).1 =
        (nextToken (nextToken (nextToken l.data).2).2).1 := h2
  have e2n : ¬ (String.mk (nextToken l.data).1 = "LW" ∨ String.mk (nextToken l.data).1 = "SW") →
      dropLastByte (nextToken (nextToken (nextToken l1.data).2).2).1 =
        dropLastByte (nextToken (nextToken (nextToken l.data).2).2).1 := h2n
  have e3 : ¬ (String.mk (nextToken l.data).1 = "LW" ∨ String.mk (nextToken l.data).1 = "SW") →
      (nextToken (nextToken (nextToken (nextToken l1.data).2).2).2).1 =
        (nextToken (nextToken (nextToken (nextToken l.data).2).2).2).1 := h3
  unfold parseLine
  simp only [nextToken_trim, e0, e1]
  by_cases he : (nextToken l.data).1 = []
  · simp only [if_pos he]
    rfl
  simp only [if_neg he]
  by_cases c1 : String.mk (nextToken l.data).1 = "ADDI"
  · have hn : ¬ (String.mk (nextToken l.data).1 = "LW" ∨
        String.mk (nextToken l.data).1 = "SW") := by rw [c1]; decide
    simp only [if_pos c1, e2n hn, e3 hn]
    cases getRegNumber (dropLastByte (nextToken (nextToken l.data).2).1) with
    | none => rfl
    | some va =>
      cases getRegNumber (dropLastByte (nextToken (nextToken (nextToken l.data).2).2).1) with
      | none => rfl
      | some vb =>
        cases stoi (nextToken (nextToken (nextToken (nextToken l.data).2).2).2).1 <;> rfl
  simp only [if_neg c1]
  by_cases c2 : String.mk (nextToken l.data).1 = "ADD" ∨
      String.mk (nextToken l.data).1 = "SUB" ∨ String.mk (nextToken l.data).1 = "MUL" ∨
      String.mk (nextToken l.data).1 = "AND" ∨ String.mk (nextToken l.data).1 = "OR"
  · have hn : ¬ (String.mk (nextToken l.data).1 = "LW" ∨
        String.mk (nextToken l.data).1 = "SW") := by
      rcases c2 with c | c | c | c | c <;> rw [c] <;> decide
    simp only [if_pos c2, e2n hn, e3 hn]
    cases getRegNumber (dropLastByte (nextToken (nextToken l.data).2).1) with
    | none => rfl
    | some va =>
      cases getRegNumber (dropLastByte (nextToken (nextToken (nextToken l.data).2).2).1) with
      | none => rfl
      | some vb =>
        cases getRegNumber
          (nextToken (nextToken (nextToken (nextToken l.data).2).2).2).1 <;> rfl
  simp only [if_neg c2]
  by_cases c3 : String.mk (nextToken l.data).1 = "SLL" ∨ String.mk (nextToken l.data).1 = "SRL"
  · have hn : ¬ (String.mk (nextToken l.data).1 = "LW" ∨
        String.mk (nextToken l.data).1 = "SW") := by
      rcases c3 with c | c <;> rw [c] <;> decide
    simp only [if_pos c3, e2n hn, e3 hn]
    cases getRegNumber (dropLastByte (nextToken (nextToken l.data).2).1) with
    | none => rfl
    | some va =>
      cases getRegNumber (dropLastByte (nextToken (nextToken (nextToken l.data).2).2).1) with
      | none => rfl
      | some vb =>
        cases stoi (nextToken (nextToken (nextToken (nextToken l.data).2).2).2).1 <;> rfl
  simp only [if_neg c3]
  by_cases c4 : String.mk (nextToken l.data).1 = "LW" ∨ String.mk (nextToken l.data).1 = "SW"
  · simp only [if_pos c4, e2 c4]
    cases getRegNumber (dropLastByte (nextToken (nextToken l.data).2).1) with
    | none => rfl
    | some va =>
      cases stoi (substr (nextToken (nextToken (nextToken l.data).2).2).1 0
        (posVal (findChar '(' (nextToken (nextToken (nextToken l.data).2).2).1))) with
      | none => rfl
      | some vi =>
        cases getRegNumber (substr (nextToken (nextToken (nextToken l.data).2).2).1
          ((posVal (findChar '(' (nextToken (nextToken (nextToken l.data).2).2).1) + 1) %
            18446744073709551616)
          ((posVal (findChar ')' (nextToken (nextToken (nextToken l.data).2).2).1) +
            18446744073709551616 * 2 -
            posVal (findChar '(' (nextToken (nextToken (nextToken l.data).2).2).1) - 1) %
            18446744073709551616)) <;> rfl
  simp only [if_neg c4]
  by_cases c5 : String.mk (nextToken l.data).1 = "BEQ"
  · simp only [if_pos c5, e2n c4, e3 c4]
    cases getRegNumber (dropLastByte (nextToken (nextToken l.data).2).1) with
    | none => rfl
    | some va =>
      cases getRegNumber (dropLastByte (nextToken (nextToken (nextToken l.data).2).2).1) with
      | none => rfl
      | some vb =>
        cases lm.lookup (String.mk
          (nextToken (nextToken (nextToken (nextToken l.data).2).2).2).1) <;> rfl
  simp only [if_neg c5]
  by_cases c6 : String.mk (nextToken l.data).1 = "J"
  · simp only [if_pos c6]
    cases lm.lookup (String.mk (nextToken (nextToken l1.data).2).1) <;>
      cases lm.lookup (String.mk (nextToken (nextToken l.data).2).1) <;> rfl
  simp only [if_neg c6]
  by_cases c7 : String.mk (nextToken l.data).1 = "NOP"
  · simp only [if_pos c7]
    rfl
  · simp only [if_neg c7]
    rfl

/-- The registers of a three-register instruction are those its first two
operand words name before their last byte, and the one its third operand word
names. -/
theorem parseLine_regs_three (l : String) (lm : List (String × Int))
    (hop : String.mk (nthToken 0 l.data) = "ADD" ∨ String.mk (nthToken 0 l.data) = "SUB" ∨
      String.mk (nthToken 0 l.data) = "MUL" ∨ String.mk (nthToken 0 l.data) = "AND" ∨
      String.mk (nthToken 0 l.data) = "OR") :
    (parseLine l lm).map regFields =
      (getRegNumber (dropLastByte (nthToken 1 l.data))).bind (fun rd =>
        (getRegNumber (dropLastByte (nthToken 2 l.data))).bind (fun rs =>
          (getRegNumber (nthToken 3 l.data)).map (fun rt => (rs, rt, rd)))) := by
  have c2 : String.mk (nextToken l.data).1 = "ADD" ∨
      String.mk (nextToken l.data).1 = "SUB" ∨ String.mk (nextToken l.data).1 = "MUL" ∨
      String.mk (nextToken l.data).1 = "AND" ∨ String.mk (nextToken l.data).1 = "OR" := hop
  have he : ¬ (nextToken l.data).1 = [] := by
    intro hc
    rw [hc] at c2
    exact absurd c2 (by decide)
  have c1 : ¬ String.mk (nextToken l.data).1 = "ADDI" := by
    rcases c2 with c | c | c | c | c <;> rw [c] <;> decide
  unfold parseLine
  simp only [nextToken_trim, nthToken, if_neg he, if_neg c1, if_pos c2]
  cases getRegNumber (dropLastByte (nextToken (nextToken l.data).2).1) with
  | none => rfl
  | some va =>
    cases getRegNumber (dropLastByte (nextToken (nextToken (nextToken l.data).2).2).1) with
    | none => rfl
    | some vb =>
      cases getRegNumber
        (nextToken (nextToken (nextToken (nextToken l.data).2).2).2).1 <;> rfl

/-- C14, as stated, fails: without separators the last character of each of
the first two register tokens is removed all the same, so `ADD $10 $11 $12`
decodes to `rs = 1`, `rt = 12`, `rd = 1`, while `ADD $10, $11, $12` decodes to
`rs = 11`, `rt = 12`, `rd = 10`. -/
theorem C14_missing_separator_counterexample :
    (parseLine "ADD $10 $11 $12" []).map regFields = some (1, 12, 1) ∧
    (parseLine "ADD $10, $11, $12" []).map regFields = some (11, 12, 10) := by
  constructor <;> decide

/-- A separator of several bytes loses its last byte only: after `$t0` the
rest of `é` stays on the register name and `stoi` throws, after `$8` it stays
behind the numeral and `stoi` reads 8. -/
theorem parseLine_multibyte_separator :
    parseLine "ADD $t0é $t1, $t2" [] = none ∧
    (parseLine "ADD $8é $9, $10" []).map regFields = some (9, 10, 8) := by
  constructor <;> decide

/-- C14, amended: when every non-final register word ends in one separator
character of a single byte, `parseLine` yields the same `rs`, `rt`, `rd`
whichever character that is, on every line: whatever the white space before
and between the words and whatever follows the operands. The lines `l` and
`l1` have the same opcode word, the first operand words `a⟨x⟩` and `a⟨x1⟩`,
and either (`LW`, `SW`) the same second operand word, or the second operand
words `b⟨y⟩` and `b⟨y1⟩` and the same third operand word. For the
three-register opcodes the registers are those `a`, `b` and the third word
name. -/
theorem C14_separator_character_free (l l1 : String) (lm : List (String × Int))
    (a b : List Char) (x y x1 y1 : Char)
    (hx : x.toNat < 128) (hy : y.toNat < 128) (hx1 : x1.toNat < 128) (hy1 : y1.toNat < 128)
    (h0 : nthToken 0 l1.data = nthToken 0 l.data)
    (ha : nthToken 1 l.data = a ++ [x]) (ha1 : nthToken 1 l1.data = a ++ [x1]) :
    ((String.mk (nthToken 0 l.data) = "LW" ∨ String.mk (nthToken 0 l.data) = "SW") →
      nthToken 2 l1.data = nthToken 2 l.data →
      (parseLine l1 lm).map regFields = (parseLine l lm).map regFields) ∧
    (¬ (String.mk (nthToken 0 l.data) = "LW" ∨ String.mk (nthToken 0 l.data) = "SW") →
      nthToken 2 l.data = b ++ [y] → nthToken 2 l1.data = b ++ [y1] →
      nthToken 3 l1.data = nthToken 3 l.data →
      (parseLine l1 lm).map regFields = (parseLine l lm).map regFields) ∧
    ((String.mk (nthToken 0 l.data) = "ADD" ∨ String.mk (nthToken 0 l.data) = "SUB" ∨
        String.mk (nthToken 0 l.data) = "MUL" ∨ String.mk (nthToken 0 l.data) = "AND" ∨
        String.mk (nthToken 0 l.data) = "OR") →
      nthToken 2 l.data = b ++ [y] →
      (parseLine l lm).map regFields =
        (getRegNumber a).bind (fun rd => (getRegNumber b).bind (fun rs =>
          (getRegNumber (nthToken 3 l.data)).map (fun rt => (rs, rt, rd))))) := by
  have e1 : dropLastByte (nthToken 1 l1.data) = dropLastByte (nthToken 1 l.data) := by
    rw [ha, ha1, dropLastByte_concat a x hx, dropLastByte_concat a x1 hx1]
  refine ⟨?_, ?_, ?_⟩
  · intro hls h2
    exact parseLine_regFields_congr l l1 lm h0 e1 (fun _ => h2) (fun hn => absurd hls hn)
      (fun hn => absurd hls hn)
  · intro hn hb hb1 h3
    refine parseLine_regFields_congr l l1 lm h0 e1 (fun hls => absurd hls hn) (fun _ => ?_)
      (fun _ => h3)
    rw [hb, hb1, dropLastByte_concat b y hy, dropLastByte_concat b y1 hy1]
  · intro hop hb
    rw [parseLine_regs_three l lm hop, ha, hb, dropLastByte_concat a x hx,
      dropLastByte_concat b y hy]

/-- Witness for C14: `ADDI $t0; $t1. 5` written with tabs, several blanks and
a trailing word against `ADDI $t0, $t1, 5`; `LW $t0; 4($t1)` against
`LW $t0, 4($t1)`; and `ADD $10; $11; $12`. -/
theorem C14_separator_character_free_witness :
    (parseLine "ADDI $t0, $t1, 5" []).map regFields =
      (parseLine "  ADDI\t$t0;   $t1.  5  x" []).map regFields ∧
    (parseLine "LW $t0, 4($t1)" []).map regFields =
      (parseLine "LW  $t0;  4($t1) " []).map regFields ∧
    (parseLine " ADD  $10;\t$11;  $12 " []).map regFields = some (11, 12, 10) :=
  ⟨(C14_separator_character_free "  ADDI\t$t0;   $t1.  5  x" "ADDI $t0, $t1, 5" []
      "$t0".data "$t1".data ';' '.' ',' ',' (by decide) (by decide) (by decide) (by decide)
      (by decide) (by decide) (by decide)).2.1 (by decide) (by decide) (by decide) (by decide),
    (C14_separator_character_free "LW  $t0;  4($t1) " "LW $t0, 4($t1)" []
      "$t0".data [] ';' ',' ',' ',' (by decide) (by decide) (by decide) (by decide)
      (by decide) (by decide) (by decide)).1 (by decide) (by decide),
    (C14_separator_character_free " ADD  $10;\t$11;  $12 " " ADD  $10;\t$11;  $12 " []
      "$10".data "$11".data ';' ';' ';' ';' (by decide) (by decide) (by decide) (by decide)
      (by decide) (by decide) (by decide)).2.2 (by decide) (by decide)⟩

/-! ## Label binding -/

theorem firstPassLine_fst (acc : List (String × Int) × List String) (l0 : String) :
    (firstPassLine acc l0).1 =
      match labelBound l0 with
      | some L => (L, (acc.2.length : Int)) :: acc.1
      | none => acc.1 := by
  unfold firstPassLine labelBound
  dsimp only
  cases findChar ':' l0.data with
  | none => rfl
  | some k =>
    dsimp only
    split_ifs <;> rfl

theorem take_length_reverse_dropWhile (p : Char → Bool) (s : List Char) :
    s.take (s.reverse.dropWhile p).length = (s.reverse.dropWhile p).reverse := by
  have h : s.reverse = s.reverse.takeWhile p ++ s.reverse.dropWhile p :=
    (List.takeWhile_append_dropWhile p s.reverse).symm
  have h2 : s = (s.reverse.dropWhile p).reverse ++ (s.reverse.takeWhile p).reverse := by
    have := congrArg List.reverse h
    rw [List.reverse_reverse, List.reverse_append] at this
    exact this
  have key : ∀ d t : List Char, s = d.reverse ++ t.reverse → s.take d.length = d.reverse := by
    intro d t e
    rw [e, ← List.length_reverse d]
    exact List.take_left _ _
  exact key _ _ h2

/-- A label in the sense of the specification is the label the first pass
binds. -/
theorem labelBound_of_declared (l : String) (L : String) (h : declaredLabel l = some L) :
    labelBound l = some L := by
  unfold declaredLabel at h
  unfold labelBound
  cases hk : findChar ':' l.data with
  | none => rw [hk] at h; exact Option.noConfusion h
  | some k =>
    rw [hk] at h
    dsimp only at h ⊢
    split at h
    · exact Option.noConfusion h
    · rename_i hne
      have hne2 : ¬ ((List.take k l.data).reverse.dropWhile
          (fun c => decide (c = ' ') || decide (c = Char.ofNat 9))) = [] := by
        intro hc
        apply hne
        unfold trimTrailingBlanks
        rw [hc]
        rfl
      have hpos : 0 < ((List.take k l.data).reverse.dropWhile
          (fun c => decide (c = ' ') || decide (c = Char.ofNat 9))).length :=
        List.length_pos.mpr hne2
      have hlab : substr (substr l.data 0 k) 0
          (((substr l.data 0 k).reverse.dropWhile
            (fun c => decide (c = ' ') || decide (c = Char.ofNat 9))).length - 1 + 1) =
          trimTrailingBlanks (List.take k l.data) := by
        have e0 : substr l.data 0 k = List.take k l.data := rfl
        rw [e0]
        have e1 : ((List.take k l.data).reverse.dropWhile
            (fun c => decide (c = ' ') || decide (c = Char.ofNat 9))).length - 1 + 1 =
            ((List.take k l.data).reverse.dropWhile
              (fun c => decide (c = ' ') || decide (c = Char.ofNat 9))).length := by omega
        rw [e1]
        exact take_length_reverse_dropWhile _ _
      unfold findLastNotBlank
      have e0 : substr l.data 0 k = List.take k l.data := rfl
      simp only [e0, if_neg hne2]
      rw [e0] at hlab
      rw [hlab, if_neg hne]
      exact h

/-- A label in the sense of the specification has a character that is not a
blank. -/
theorem declared_hasNonBlank (l : String) (L : String) (h : declaredLabel l = some L) :
    hasNonBlank L.data = true := by
  unfold declaredLabel at h
  cases hk : findChar ':' l.data with
  | none => rw [hk] at h; exact Option.noConfusion h
  | some k =>
    rw [hk] at h
    dsimp only at h
    split at h
    · exact Option.noConfusion h
    · rename_i hne
      injection h with h
      subst h
      unfold trimTrailingBlanks at hne ⊢
      have hne2 : ((List.take k l.data).reverse.dropWhile
          (fun c => decide (c = ' ') || decide (c = Char.ofNat 9))) ≠ [] := by
        intro hc
        apply hne
        rw [hc]
        rfl
      have hh := List.head_dropWhile_not
        (fun c => decide (c = ' ') || decide (c = Char.ofNat 9)) (List.take k l.data).reverse hne2
      unfold hasNonBlank
      rw [List.any_eq_true]
      refine ⟨((List.take k l.data).reverse.dropWhile
          (fun c => decide (c = ' ') || decide (c = Char.ofNat 9))).head hne2, ?_, ?_⟩
      · exact List.mem_reverse.mpr (List.head_mem hne2)
      · rw [hh]
        rfl

/-- The first pass binds a label in the sense of the specification, or a
name made of blanks only. -/
theorem labelBound_cases (l : String) (L : String) (h : labelBound l = some L) :
    declaredLabel l = some L ∨ hasNonBlank L.data = false := by
  unfold labelBound at h
  unfold declaredLabel
  cases hk : findChar ':' l.data with
  | none => rw [hk] at h; exact Option.noConfusion h
  | some k =>
    rw [hk] at h
    dsimp only at h ⊢
    have e0 : substr l.data 0 k = List.take k l.data := rfl
    rw [e0] at h
    by_cases hd : ((List.take k l.data).reverse.dropWhile
        (fun c => decide (c = ' ') || decide (c = Char.ofNat 9))) = []
    · right
      have hf : findLastNotBlank (List.take k l.data) = none := by
        unfold findLastNotBlank
        simp only [hd, if_true]
      rw [hf] at h
      dsimp only at h
      split at h
      · exact Option.noConfusion h
      · injection h with h
        subst h
        unfold hasNonBlank
        rw [List.any_eq_false]
        intro c hc
        have := (List.dropWhile_eq_nil_iff.mp hd) c (List.mem_reverse.mpr hc)
        simp only [this, Bool.not_true, Bool.false_eq_true, not_false_eq_true]
    · left
      have hf : findLastNotBlank (List.take k l.data) =
          some (((List.take k l.data).reverse.dropWhile
            (fun c => decide (c = ' ') || decide (c = Char.ofNat 9))).length - 1) := by
        unfold findLastNotBlank
        simp only [hd, if_false]
      rw [hf] at h
      dsimp only at h
      have hpos : 0 < ((List.take k l.data).reverse.dropWhile
          (fun c => decide (c = ' ') || decide (c = Char.ofNat 9))).length :=
        List.length_pos.mpr hd
      have e1 : ((List.take k l.data).reverse.dropWhile
          (fun c => decide (c = ' ') || decide (c = Char.ofNat 9))).length - 1 + 1 =
          ((List.take k l.data).reverse.dropWhile
            (fun c => decide (c = ' ') || decide (c = Char.ofNat 9))).length := by omega
      have hlab : substr (List.take k l.data) 0
          (((List.take k l.data).reverse.dropWhile
            (fun c => decide (c = ' ') || decide (c = Char.ofNat 9))).length - 1 + 1) =
          trimTrailingBlanks (List.take k l.data) := by
        rw [e1]
        exact take_length_reverse_dropWhile _ _
      rw [hlab] at h
      exact h

theorem labelBound_ne_of_not_declared (l1 : String) (L : String)
    (hL : hasNonBlank L.data = true) (h : declaredLabel l1 ≠ some L) :
    labelBound l1 ≠ some L := by
  intro hc
  rcases labelBound_cases l1 L hc with h1 | h1
  · exact h h1
  · rw [hL] at h1
    exact Bool.noConfusion h1

theorem firstPass_foldl_lookup (L : String) (v : Int) :
    ∀ (post : List String) (acc : List (String × Int) × List String),
      acc.1.lookup L = some v → (∀ l1 ∈ post, labelBound l1 ≠ some L) →
      (post.foldl firstPassLine acc).1.lookup L = some v := by
  intro post
  induction post with
  | nil => intro acc h _; exact h
  | cons x xs ih =>
    intro acc h hpost
    rw [List.foldl_cons]
    apply ih
    · rw [firstPassLine_fst]
      have hx := hpost x (List.mem_cons_self _ _)
      cases hb : labelBound x with
      | none => exact h
      | some L1 =>
        dsimp only
        have hne : (L == L1) = false := by
          rw [beq_eq_false_iff_ne]
          intro hc
          apply hx
          rw [hb, hc]
        rw [List.lookup_cons, hne]
        exact h
    · intro l1 hl1
      exact hpost l1 (List.mem_cons_of_mem _ hl1)

theorem firstPass_append (pre rest : List String) :
    firstPass (pre ++ rest) = rest.foldl firstPassLine (firstPass pre) := by
  unfold firstPass
  rw [List.foldl_append]

theorem firstPass_foldl_snd :
    ∀ (rest : List String) (acc : List (String × Int) × List String),
      (rest.foldl firstPassLine acc).2 = acc.2 ++ (rest.foldl firstPassLine ([], [])).2 := by
  intro rest
  induction rest with
  | nil => intro acc; simp
  | cons x xs ih =>
    intro acc
    rw [List.foldl_cons, List.foldl_cons, ih (firstPassLine acc x),
      ih (firstPassLine ([], []) x), firstPassLine_snd acc x, List.append_assoc]

/-- The instruction lines of a text are those of its beginning followed by
those of its end. -/
theorem firstPass_snd_append (pre rest : List String) :
    (firstPass (pre ++ rest)).2 = (firstPass pre).2 ++ (firstPass rest).2 := by
  rw [firstPass_append, firstPass_foldl_snd]
  rfl

/-- The table entry of a label after the first pass: the number of
instruction lines emitted before its last declaration. -/
theorem firstPass_label (pre : List String) (l : String) (post : List String) (L : String)
    (hl : declaredLabel l = some L) (hpost : ∀ l1 ∈ post, declaredLabel l1 ≠ some L) :
    (firstPass (pre ++ l :: post)).1.lookup L = some ((firstPass pre).2.length : Int) := by
  rw [firstPass_append, List.foldl_cons]
  apply firstPass_foldl_lookup
  · rw [firstPassLine_fst, labelBound_of_declared l L hl]
    dsimp only
    rw [List.lookup_cons, beq_self_eq_true]
  · intro l1 hl1
    exact labelBound_ne_of_not_declared l1 L (declared_hasNonBlank l L hl) (hpost l1 hl1)

theorem exists_last_declaration (L : String) :
    ∀ lines : List String, (∃ l ∈ lines, declaredLabel l = some L) →
      ∃ pre l post, lines = pre ++ l :: post ∧ declaredLabel l = some L ∧
        ∀ l1 ∈ post, declaredLabel l1 ≠ some L := by
  intro lines
  induction lines with
  | nil =>
    rintro ⟨l, hl, -⟩
    exact absurd hl (List.not_mem_nil l)
  | cons x xs ih =>
    intro h
    by_cases hx : ∃ l ∈ xs, declaredLabel l = some L
    · obtain ⟨pre, l, post, e, hl, hp⟩ := ih hx
      exact ⟨x :: pre, l, post, by rw [e]; rfl, hl, hp⟩
    · obtain ⟨l, hl, hd⟩ := h
      rcases List.mem_cons.mp hl with h1 | h1
      · subst h1
        exact ⟨[], l, xs, rfl, hd, fun l1 hl1 hc => hx ⟨l1, hl1, hc⟩⟩
      · exact absurd ⟨l, h1, hd⟩ hx

/-- The program is the instruction lines decoded one by one with the same
label table. -/
theorem buildProgram_spec (lm : List (String × Int)) :
    ∀ (ls : List String) (p : List Instruction), buildProgram lm ls = some p →
      p.length = ls.length ∧
      ∀ (k : Nat) (i : Instruction), p[k]? = some i →
        ∃ l, ls[k]? = some l ∧ parseLine l lm = some i := by
  intro ls
  induction ls with
  | nil =>
    intro p h
    simp only [buildProgram, Option.some.injEq] at h
    subst h
    exact ⟨rfl, fun k i hk => by simp at hk⟩
  | cons x xs ih =>
    intro p h
    rw [buildProgram] at h
    cases hx : parseLine x lm with
    | none => rw [hx] at h; exact Option.noConfusion h
    | some i0 =>
      rw [hx] at h
      dsimp only at h
      cases hr : buildProgram lm xs with
      | none => rw [hr] at h; exact Option.noConfusion h
      | some is =>
        rw [hr] at h
        injection h with h
        subst h
        obtain ⟨hlen, hall⟩ := ih is hr
        refine ⟨by simp [hlen], ?_⟩
        intro k i hk
        cases k with
        | zero =>
          simp only [List.getElem?_cons_zero, Option.some.injEq] at hk
          subst hk
          exact ⟨x, List.getElem?_cons_zero, hx⟩
        | succ k =>
          simp only [List.getElem?_cons_succ] at hk ⊢
          exact hall k i hk

/-- C12: for every declared label `L` of the input there is its last
declaration `l`, splitting the lines as `pre ++ l :: post`; the first pass
binds `L` to the number of instruction lines emitted from `pre`, which is the
index in the instruction-line list where the lines emitted from `l :: post`
begin (the list length when there is none). On every line whose first word is
`J`, `parseLine` sets the address to the table entry of the second word, or
leaves -1 when the table has none; on every line whose first word is `BEQ`
(and whose register words decode) it does so with the fourth word; whatever
the white space around the words and whatever follows the label. And
`assemble` decodes every instruction line with the complete table, so forward
references resolve. -/
theorem C12_label_binding :
    (∀ (lines : List String) (L : String), (∃ l ∈ lines, declaredLabel l = some L) →
      ∃ pre l post, lines = pre ++ l :: post ∧ declaredLabel l = some L ∧
        (∀ l1 ∈ post, declaredLabel l1 ≠ some L) ∧
        (firstPass lines).1.lookup L = some ((firstPass pre).2.length : Int) ∧
        (firstPass lines).2 = (firstPass pre).2 ++ (firstPass (l :: post)).2) ∧
    (∀ (l : String) (lm : List (String × Int)), String.mk (nthToken 0 l.data) = "J" →
      parseLine l lm =
        some { opcode := "J", valid := true,
               raw := String.mk (l.data.dropWhile (fun c => c = ' ' || c = Char.ofNat 9)),
               address := (lm.lookup (String.mk (nthToken 1 l.data))).getD (-1) }) ∧
    (∀ (l : String) (lm : List (String × Int)), String.mk (nthToken 0 l.data) = "BEQ" →
      parseLine l lm =
        (getRegNumber (dropLastByte (nthToken 1 l.data))).bind (fun vrs =>
          (getRegNumber (dropLastByte (nthToken 2 l.data))).bind (fun vrt =>
            some { opcode := "BEQ", valid := true,
                   raw := String.mk (l.data.dropWhile (fun c => c = ' ' || c = Char.ofNat 9)),
                   rs := vrs, rt := vrt,
                   address := (lm.lookup (String.mk (nthToken 3 l.data))).getD (-1) }))) ∧
    (∀ (lines : List String) (p : List Instruction), assemble lines = some p →
      p.length = (firstPass (loadProgram lines)).2.length ∧
      ∀ (k : Nat) (i : Instruction), p[k]? = some i →
        ∃ l, (firstPass (loadProgram lines)).2[k]? = some l ∧
          parseLine l (firstPass (loadProgram lines)).1 = some i) := by
  refine ⟨?_, parseLine_jump, parseLine_beq, ?_⟩
  · intro lines L h
    obtain ⟨pre, l, post, e, hl, hp⟩ := exists_last_declaration L lines h
    refine ⟨pre, l, post, e, hl, hp, ?_, ?_⟩
    · rw [e]
      exact firstPass_label pre l post L hl hp
    · rw [e]
      exact firstPass_snd_append pre (l :: post)
  · intro lines p h
    exact buildProgram_spec _ _ p h

/-- Witness for C12: the label `done` of the third example; the line `J done`
as a trailing comment leaves it, with a blank at the end; a `BEQ` line written
with tabs, several blanks and a trailing word; the assembled third example;
and a forward jump on a commented line, assembled. -/
theorem C12_label_binding_witness :
    (∃ pre l post, example3SpacedLines = pre ++ l :: post ∧ declaredLabel l = some "done" ∧
        (∀ l1 ∈ post, declaredLabel l1 ≠ some "done") ∧
        (firstPass example3SpacedLines).1.lookup "done" =
          some ((firstPass pre).2.length : Int) ∧
        (firstPass example3SpacedLines).2 =
          (firstPass pre).2 ++ (firstPass (l :: post)).2) ∧
    parseLine "J done " [("done", 3)] =
      some { opcode := "J", valid := true, raw := "J done ", address := 3 } ∧
    parseLine " \tBEQ  $t0,\t$t0,   done  x" [("done", 3)] =
      some { opcode := "BEQ", valid := true, raw := "BEQ  $t0,\t$t0,   done  x", rs := 8,
             rt := 8, address := 3 } ∧
    parseLine "BEQ $t0, $t0, done" [] =
      some { opcode := "BEQ", valid := true, raw := "BEQ $t0, $t0, done", rs := 8, rt := 8,
             address := -1 } ∧
    example3Program.length = (firstPass (loadProgram example3SpacedLines)).2.length ∧
    assemble ["J done # forward", "NOP", "done: NOP"] =
      some [{ opcode := "J", valid := true, raw := "J done ", address := 2 },
            { opcode := "NOP", raw := "NOP", valid := false },
            { opcode := "NOP", raw := "NOP", valid := false }] :=
  ⟨C12_label_binding.1 example3SpacedLines "done"
      ⟨"done: ADDI $t2, $zero, 7", by decide, by decide⟩,
    C12_label_binding.2.1 "J done " [("done", 3)] (by decide),
    C12_label_binding.2.2.1 " \tBEQ  $t0,\t$t0,   done  x" [("done", 3)] (by decide),
    C12_label_binding.2.2.1 "BEQ $t0, $t0, done" [] (by decide),
    (C12_label_binding.2.2.2 example3SpacedLines example3Program (by decide)).1,
    by decide⟩

/-! ## Write-Back and the operands read in the same cycle -/

/-- The register file after Write-Back, in terms of the write it performs. -/
theorem wbStage_spec (regs r : Nat → Int) (m : MEM_WB) (h : wbStage regs m = some r) :
    (m.inst.valid = false → r = regs) ∧
    (m.inst.valid = true →
      (∀ d v, wbTarget m = some (d, v) →
        (0 ≤ d ∧ d < REG_COUNT) ∧ r = setAt (setAt regs d.toNat v) 0 0) ∧
      (wbTarget m = none → r = setAt regs 0 0)) := by
  constructor
  · intro hv
    rw [wbStage_invalid regs m hv] at h
    injection h with h
    exact h.symm
  · intro hv
    unfold wbStage at h
    unfold wbTarget
    rw [if_pos hv] at h
    rw [if_pos hv]
    dsimp only at h ⊢
    by_cases h1 : m.inst.opcode = "ADD" ∨ m.inst.opcode = "SUB" ∨ m.inst.opcode = "MUL" ∨
        m.inst.opcode = "AND" ∨ m.inst.opcode = "OR" ∨ m.inst.opcode = "SLL" ∨
        m.inst.opcode = "SRL"
    · rw [if_pos h1] at h
      rw [if_pos h1]
      unfold writeReg at h
      by_cases hr : 0 ≤ m.inst.rd ∧ m.inst.rd < REG_COUNT
      · rw [if_pos hr] at h
        injection h with h
        refine ⟨?_, fun hc => Option.noConfusion hc⟩
        intro d v hdv
        injection hdv with hdv
        injection hdv with hd hv2
        subst hd hv2
        exact ⟨hr, h.symm⟩
      · rw [if_neg hr] at h
        exact Option.noConfusion h
    · rw [if_neg h1] at h
      rw [if_neg h1]
      by_cases h2 : m.inst.opcode = "ADDI"
      · rw [if_pos h2] at h
        rw [if_pos h2]
        unfold writeReg at h
        by_cases hr : 0 ≤ m.inst.rt ∧ m.inst.rt < REG_COUNT
        · rw [if_pos hr] at h
          injection h with h
          refine ⟨?_, fun hc => Option.noConfusion hc⟩
          intro d v hdv
          injection hdv with hdv
          injection hdv with hd hv2
          subst hd hv2
          exact ⟨hr, h.symm⟩
        · rw [if_neg hr] at h
          exact Option.noConfusion h
      · rw [if_neg h2] at h
        rw [if_neg h2]
        by_cases h3 : m.inst.opcode = "LW"
        · rw [if_pos h3] at h
          rw [if_pos h3]
          unfold writeReg at h
          by_cases hr : 0 ≤ m.inst.rt ∧ m.inst.rt < REG_COUNT
          · rw [if_pos hr] at h
            injection h with h
            refine ⟨?_, fun hc => Option.noConfusion hc⟩
            intro d v hdv
            injection hdv with hdv
            injection hdv with hd hv2
            subst hd hv2
            exact ⟨hr, h.symm⟩
          · rw [if_neg hr] at h
            exact Option.noConfusion h
        · rw [if_neg h3] at h
          rw [if_neg h3]
          injection h with h
          exact ⟨fun d v hc => Option.noConfusion hc, fun _ => h.symm⟩

theorem setAt_setAt_zero (regs : Nat → Int) (d : Nat) (v : Int) (i : Nat) (hi : i ≠ 0) :
    setAt (setAt regs d v) 0 0 i = if i = d then v else regs i := by
  unfold setAt
  rw [if_neg hi]

theorem setAt_zero_ne (regs : Nat → Int) (i : Nat) (hi : i ≠ 0) :
    setAt regs 0 0 i = regs i := by
  unfold setAt
  rw [if_neg hi]

/-- C15: in one cycle step with a valid instruction in Memory/Writeback,
`regs[0]` is 0 afterwards; for ADD, SUB, MUL, AND, OR, SLL, SRL register `rd`
receives `aluResult`, for ADDI register `rt` receives `aluResult`, for LW
register `rt` receives `memData`, and every other register (register 0
apart) keeps its value; for every other opcode every register other than
register 0 keeps its value, so no register changes when `regs[0]` was 0. -/
theorem C15_write_back_commits_one (p : List Instruction) (s s1 : State)
    (h : step p s = some s1) (hv : s.memwb.inst.valid = true) :
    s1.cpu.regs 0 = 0 ∧
    ((s.memwb.inst.opcode = "ADD" ∨ s.memwb.inst.opcode = "SUB" ∨
        s.memwb.inst.opcode = "MUL" ∨ s.memwb.inst.opcode = "AND" ∨
        s.memwb.inst.opcode = "OR" ∨ s.memwb.inst.opcode = "SLL" ∨
        s.memwb.inst.opcode = "SRL") →
      (0 ≤ s.memwb.inst.rd ∧ s.memwb.inst.rd < REG_COUNT) ∧
      ∀ i : Nat, i ≠ 0 → s1.cpu.regs i =
        if i = s.memwb.inst.rd.toNat then s.memwb.aluResult else s.cpu.regs i) ∧
    (s.memwb.inst.opcode = "ADDI" →
      (0 ≤ s.memwb.inst.rt ∧ s.memwb.inst.rt < REG_COUNT) ∧
      ∀ i : Nat, i ≠ 0 → s1.cpu.regs i =
        if i = s.memwb.inst.rt.toNat then s.memwb.aluResult else s.cpu.regs i) ∧
    (s.memwb.inst.opcode = "LW" →
      (0 ≤ s.memwb.inst.rt ∧ s.memwb.inst.rt < REG_COUNT) ∧
      ∀ i : Nat, i ≠ 0 → s1.cpu.regs i =
        if i = s.memwb.inst.rt.toNat then s.memwb.memData else s.cpu.regs i) ∧
    (¬ (s.memwb.inst.opcode = "ADD" ∨ s.memwb.inst.opcode = "SUB" ∨
        s.memwb.inst.opcode = "MUL" ∨ s.memwb.inst.opcode = "AND" ∨
        s.memwb.inst.opcode = "OR" ∨ s.memwb.inst.opcode = "SLL" ∨
        s.memwb.inst.opcode = "SRL") →
      s.memwb.inst.opcode ≠ "ADDI" → s.memwb.inst.opcode ≠ "LW" →
      (∀ i : Nat, i ≠ 0 → s1.cpu.regs i = s.cpu.regs i) ∧
      (s.cpu.regs 0 = 0 → ∀ i : Nat, s1.cpu.regs i = s.cpu.regs i)) := by
  have hw := step_cpu_regs p s s1 h
  obtain ⟨hsome, hnone⟩ := (wbStage_spec _ _ _ hw).2 hv
  have h0 : s1.cpu.regs 0 = 0 := by
    cases ht : wbTarget s.memwb with
    | none =>
      rw [hnone ht]
      rfl
    | some q =>
      obtain ⟨d, v⟩ := q
      rw [(hsome d v ht).2]
      rfl
  refine ⟨h0, ?_, ?_, ?_, ?_⟩
  · intro hop
    have ht : wbTarget s.memwb = some (s.memwb.inst.rd, s.memwb.aluResult) := by
      unfold wbTarget
      rw [if_pos hv]
      dsimp only
      rw [if_pos hop]
    obtain ⟨hr, hreg⟩ := hsome _ _ ht
    exact ⟨hr, fun i hi => by rw [hreg]; exact setAt_setAt_zero _ _ _ i hi⟩
  · intro hop
    have hn : ¬ (s.memwb.inst.opcode = "ADD" ∨ s.memwb.inst.opcode = "SUB" ∨
        s.memwb.inst.opcode = "MUL" ∨ s.memwb.inst.opcode = "AND" ∨
        s.memwb.inst.opcode = "OR" ∨ s.memwb.inst.opcode = "SLL" ∨
        s.memwb.inst.opcode = "SRL") := by
      rw [hop]
      decide
    have ht : wbTarget s.memwb = some (s.memwb.inst.rt, s.memwb.aluResult) := by
      unfold wbTarget
      rw [if_pos hv]
      dsimp only
      rw [if_neg hn, if_pos hop]
    obtain ⟨hr, hreg⟩ := hsome _ _ ht
    exact ⟨hr, fun i hi => by rw [hreg]; exact setAt_setAt_zero _ _ _ i hi⟩
  · intro hop
    have hn : ¬ (s.memwb.inst.opcode = "ADD" ∨ s.memwb.inst.opcode = "SUB" ∨
        s.memwb.inst.opcode = "MUL" ∨ s.memwb.inst.opcode = "AND" ∨
        s.memwb.inst.opcode = "OR" ∨ s.memwb.inst.opcode = "SLL" ∨
        s.memwb.inst.opcode = "SRL") := by
      rw [hop]
      decide
    have hn2 : ¬ s.memwb.inst.opcode = "ADDI" := by
      rw [hop]
      decide
    have ht : wbTarget s.memwb = some (s.memwb.inst.rt, s.memwb.memData) := by
      unfold wbTarget
      rw [if_pos hv]
      dsimp only
      rw [if_neg hn, if_neg hn2, if_pos hop]
    obtain ⟨hr, hreg⟩ := hsome _ _ ht
    exact ⟨hr, fun i hi => by rw [hreg]; exact setAt_setAt_zero _ _ _ i hi⟩
  · intro hn hn2 hn3
    have ht : wbTarget s.memwb = none := by
      unfold wbTarget
      rw [if_pos hv]
      dsimp only
      rw [if_neg hn, if_neg hn2, if_neg hn3]
    have hreg := hnone ht
    have hne : ∀ i : Nat, i ≠ 0 → s1.cpu.regs i = s.cpu.regs i :=
      fun i hi => by rw [hreg]; exact setAt_zero_ne _ i hi
    refine ⟨hne, ?_⟩
    intro hz i
    by_cases hi : i = 0
    · rw [hi, h0, hz]
    · exact hne i hi

/-- Witness for C15: an `ADDI` with destination register 8 and result 5 in
Memory/Writeback. -/
theorem C15_write_back_commits_one_witness :
    ∃ s1, step [] writeBackState = some s1 ∧ s1.cpu.regs 0 = 0 ∧
      ∀ i : Nat, i ≠ 0 → s1.cpu.regs i =
        if i = writeBackState.memwb.inst.rt.toNat then writeBackState.memwb.aluResult
        else writeBackState.cpu.regs i := by
  cases h : step [] writeBackState with
  | none =>
    have hs : (step [] writeBackState).isSome = true := by decide
    rw [h] at hs
    exact absurd hs (by decide)
  | some s1 =>
    have hc := C15_write_back_commits_one [] writeBackState s1 h rfl
    exact ⟨s1, rfl, hc.1, (hc.2.2.1 rfl).2⟩

theorem readReg_some (regs : Nat → Int) (r v : Int) (h : readReg regs r = some v) :
    (0 ≤ r ∧ r < REG_COUNT) ∧ v = regs r.toNat := by
  unfold readReg at h
  split at h
  · rename_i hr
    injection h with h
    exact ⟨hr, h.symm⟩
  · exact Option.noConfusion h

/-- The operands Decode latches for a valid instruction. -/
theorem idStage_operands (regs : Nat → Int) (f : IF_ID) (d : ID_EX)
    (h : idStage regs f = some d) (hv : f.inst.valid = true) :
    (readsRs f.inst → (0 ≤ f.inst.rs ∧ f.inst.rs < REG_COUNT) ∧
      d.rsVal = regs f.inst.rs.toNat) ∧
    (readsRt f.inst → (0 ≤ f.inst.rt ∧ f.inst.rt < REG_COUNT) ∧
      d.rtVal = regs f.inst.rt.toNat) := by
  unfold idStage at h
  rw [if_pos hv] at h
  dsimp only at h
  unfold readsRs readsRt
  by_cases h1 : f.inst.opcode = "ADDI"
  · rw [if_pos h1] at h
    cases hr : readReg regs f.inst.rs with
    | none => rw [hr] at h; exact Option.noConfusion h
    | some a =>
      rw [hr] at h
      injection h with h
      subst h
      refine ⟨fun _ => readReg_some _ _ _ hr, ?_⟩
      rw [h1]
      intro hc
      exact absurd hc (by decide)
  · rw [if_neg h1] at h
    by_cases h2 : f.inst.opcode = "ADD" ∨ f.inst.opcode = "SUB" ∨ f.inst.opcode = "MUL" ∨
        f.inst.opcode = "AND" ∨ f.inst.opcode = "OR"
    · rw [if_pos h2] at h
      cases hr : readReg regs f.inst.rs with
      | none => rw [hr] at h; exact Option.noConfusion h
      | some a =>
        cases hr2 : readReg regs f.inst.rt with
        | none => rw [hr, hr2] at h; exact Option.noConfusion h
        | some b =>
          rw [hr, hr2] at h
          injection h with h
          subst h
          exact ⟨fun _ => readReg_some _ _ _ hr, fun _ => readReg_some _ _ _ hr2⟩
    · rw [if_neg h2] at h
      by_cases h3 : f.inst.opcode = "SLL" ∨ f.inst.opcode = "SRL"
      · rw [if_pos h3] at h
        cases hr2 : readReg regs f.inst.rt with
        | none => rw [hr2] at h; exact Option.noConfusion h
        | some b =>
          rw [hr2] at h
          injection h with h
          subst h
          refine ⟨?_, fun _ => readReg_some _ _ _ hr2⟩
          intro hc
          exfalso
          rcases h3 with h3 | h3 <;> rw [h3] at hc <;> exact absurd hc (by decide)
      · rw [if_neg h3] at h
        by_cases h4 : f.inst.opcode = "LW" ∨ f.inst.opcode = "SW"
        · rw [if_pos h4] at h
          cases hr : readReg regs f.inst.rs with
          | none => rw [hr] at h; exact Option.noConfusion h
          | some a =>
            cases hr2 : readReg regs f.inst.rt with
            | none => rw [hr, hr2] at h; exact Option.noConfusion h
            | some b =>
              rw [hr, hr2] at h
              injection h with h
              subst h
              exact ⟨fun _ => readReg_some _ _ _ hr, fun _ => readReg_some _ _ _ hr2⟩
        · rw [if_neg h4] at h
          by_cases h5 : f.inst.opcode = "BEQ"
          · rw [if_pos h5] at h
            cases hr : readReg regs f.inst.rs with
            | none => rw [hr] at h; exact Option.noConfusion h
            | some a =>
              cases hr2 : readReg regs f.inst.rt with
              | none => rw [hr, hr2] at h; exact Option.noConfusion h
              | some b =>
                rw [hr, hr2] at h
                injection h with h
                subst h
                exact ⟨fun _ => readReg_some _ _ _ hr, fun _ => readReg_some _ _ _ hr2⟩
          · constructor
            · intro hc
              rcases hc with hc | hc | hc | hc
              · exact absurd hc h1
              · exact absurd hc h2
              · exact absurd hc h4
              · exact absurd hc h5
            · intro hc
              rcases hc with hc | hc | hc | hc
              · exact absurd hc h2
              · exact absurd hc h3
              · exact absurd hc h4
              · exact absurd hc h5

/-- The value of a register other than register 0 that Decode reads in a
cycle: the value Write-Back writes in this cycle when it writes that register,
the value at the start of the cycle otherwise. -/
theorem wbStage_read (regs r : Nat → Int) (m : MEM_WB) (x : Int)
    (h : wbStage regs m = some r) (hx : 0 ≤ x) (hx0 : x ≠ 0) :
    (∀ v, wbTarget m = some (x, v) → r x.toNat = v) ∧
    ((∀ v, wbTarget m ≠ some (x, v)) → r x.toNat = regs x.toNat) := by
  have hxn : x.toNat ≠ 0 := by omega
  obtain ⟨hinv, hval⟩ := wbStage_spec regs r m h
  cases hv : m.inst.valid with
  | false =>
    have ht : wbTarget m = none := by
      unfold wbTarget
      rw [hv]
      rfl
    rw [hinv hv]
    exact ⟨fun v hc => by rw [ht] at hc; exact Option.noConfusion hc, fun _ => rfl⟩
  | true =>
    obtain ⟨hsome, hnone⟩ := hval hv
    cases ht : wbTarget m with
    | none =>
      rw [hnone ht, setAt_zero_ne _ _ hxn]
      exact ⟨fun v hc => Option.noConfusion hc, fun _ => rfl⟩
    | some q =>
      obtain ⟨d, w⟩ := q
      obtain ⟨hd, hr⟩ := hsome d w ht
      rw [hr, setAt_setAt_zero _ _ _ _ hxn]
      constructor
      · intro v hc
        injection hc with hc
        injection hc with hc1 hc2
        rw [hc1, if_pos rfl, hc2]
      · intro hne
        have hdx : d ≠ x := fun hc => hne w (by rw [hc])
        have : ¬ x.toNat = d.toNat := by omega
        rw [if_neg this]

/-- C17, as stated, fails: in the fifth cycle of `flushedReadProgram` the
`ADDI` in Memory/Writeback writes 5 to register 8 and the valid `ADD` in
Fetch/Decode reads register 8 as `rs`, but the `J` in Execute is taken, so the
next Decode/Execute latch is a bubble whose `rsVal` is 0, not 5. -/
theorem C17_flushed_read_counterexample :
    assemble flushedReadLines = some flushedReadProgram ∧
    ∃ s s1, runCycles flushedReadProgram 4 initState = some s ∧
      step flushedReadProgram s = some s1 ∧
      wbTarget s.memwb = some (8, 5) ∧ s.ifid.inst.valid = true ∧
      s.ifid.inst.opcode = "ADD" ∧ s.ifid.inst.rs = 8 ∧ s1.idex.rsVal = 0 := by
  refine ⟨by decide, ?_⟩
  have h4 : (runCycles flushedReadProgram 4 initState).map
      (fun t => (wbTarget t.memwb, t.ifid.inst.valid, t.ifid.inst.opcode, t.ifid.inst.rs,
        (step flushedReadProgram t).map (fun u => u.idex.rsVal))) =
      some (some (8, 5), true, "ADD", 8, some 0) := by decide
  obtain ⟨s, hs, hp⟩ := Option.map_eq_some'.mp h4
  injection hp with h1 hp
  injection hp with h2 hp
  injection hp with h3 hp
  injection hp with h5 h6
  obtain ⟨s1, hs1, hr⟩ := Option.map_eq_some'.mp h6
  exact ⟨s, s1, hs, hs1, h1, h2, h3, h5, hr⟩

/-- C17, amended: in one cycle step in which no branch is taken in Execute,
for a valid instruction in Fetch/Decode that reads a register `d ≠ 0` as `rs`
(or as `rt`), the `rsVal` (`rtVal`) of the next Decode/Execute latch is the
value Write-Back writes to `d` in this cycle when Memory/Writeback holds a
valid instruction writing `d`, and the start-of-cycle `regs[d]` when it holds
none. -/
theorem C17_same_cycle_read_after_write (p : List Instruction) (s s1 : State)
    (h : step p s = some s1) (hb : branchDecision s.idex = none)
    (hv : s.ifid.inst.valid = true) :
    (readsRs s.ifid.inst → s.ifid.inst.rs ≠ 0 →
      (∀ v, wbTarget s.memwb = some (s.ifid.inst.rs, v) → s1.idex.rsVal = v) ∧
      ((∀ v, wbTarget s.memwb ≠ some (s.ifid.inst.rs, v)) →
        s1.idex.rsVal = s.cpu.regs s.ifid.inst.rs.toNat)) ∧
    (readsRt s.ifid.inst → s.ifid.inst.rt ≠ 0 →
      (∀ v, wbTarget s.memwb = some (s.ifid.inst.rt, v) → s1.idex.rtVal = v) ∧
      ((∀ v, wbTarget s.memwb ≠ some (s.ifid.inst.rt, v)) →
        s1.idex.rtVal = s.cpu.regs s.ifid.inst.rt.toNat)) := by
  obtain ⟨regs1, nextIdex, nextIfid, pc1, hw, hd, -, hs⟩ := step_some p s s1 h
  rw [hb] at hs
  have hidex : s1.idex = nextIdex := by rw [hs]
  obtain ⟨hrs, hrt⟩ := idStage_operands regs1 s.ifid nextIdex hd hv
  constructor
  · intro hr h0
    obtain ⟨hrange, hval⟩ := hrs hr
    rw [hidex, hval]
    exact wbStage_read _ _ _ _ hw hrange.1 h0
  · intro hr h0
    obtain ⟨hrange, hval⟩ := hrt hr
    rw [hidex, hval]
    exact wbStage_read _ _ _ _ hw hrange.1 h0

/-- Witness for C17: `ADDI` writing 5 to register 8 in Memory/Writeback, `ADD`
reading registers 8 and 9 in Fetch/Decode. -/
theorem C17_same_cycle_read_after_write_witness :
    ∃ s1, step [] writeBackState = some s1 ∧ s1.idex.rsVal = 5 ∧ s1.idex.rtVal = 3 := by
  cases h : step [] writeBackState with
  | none =>
    have hs : (step [] writeBackState).isSome = true := by decide
    rw [h] at hs
    exact absurd hs (by decide)
  | some s1 =>
    have hc := C17_same_cycle_read_after_write [] writeBackState s1 h rfl rfl
    have ht : wbTarget writeBackState.memwb = some (8, 5) := by decide
    refine ⟨s1, rfl, (hc.1 (Or.inr (Or.inl (Or.inl rfl))) (by decide)).1 5 ht,
      (hc.2 (Or.inl (Or.inl rfl)) (by decide)).2 ?_⟩
    intro v hv
    rw [ht] at hv
    injection hv with hv
    injection hv with h1 _
    exact absurd h1 (by decide)

/-! ## Fetch bound and bubbles -/

theorem lookup_mem_of_some (l : List (String × Int)) (L : String) (v : Int)
    (h : l.lookup L = some v) : (L, v) ∈ l := by
  induction l with
  | nil => exact Option.noConfusion h
  | cons q l ih =>
    obtain ⟨k, w⟩ := q
    rw [List.lookup_cons] at h
    by_cases hk : (L == k) = true
    · rw [hk] at h
      injection h with h
      rw [beq_iff_eq.mp hk, h]
      exact List.mem_cons_self _ _
    · rw [Bool.not_eq_true] at hk
      rw [hk] at h
      exact List.mem_cons_of_mem _ (ih h)

theorem firstPass_foldl_bound :
    ∀ (ls : List String) (acc : List (String × Int) × List String),
      (∀ q ∈ acc.1, 0 ≤ q.2 ∧ q.2 ≤ (acc.2.length : Int)) →
      ∀ q ∈ (ls.foldl firstPassLine acc).1,
        0 ≤ q.2 ∧ q.2 ≤ ((ls.foldl firstPassLine acc).2.length : Int) := by
  intro ls
  induction ls with
  | nil => intro acc h; exact h
  | cons x xs ih =>
    intro acc h
    rw [List.foldl_cons]
    apply ih
    intro q hq
    rw [firstPassLine_snd, List.length_append]
    rw [firstPassLine_fst] at hq
    cases hb : labelBound x with
    | none =>
      rw [hb] at hq
      have := h q hq
      constructor
      · exact this.1
      · push_cast
        omega
    | some L =>
      rw [hb] at hq
      rcases List.mem_cons.mp hq with h1 | h1
      · rw [h1]
        constructor
        · exact Int.ofNat_nonneg _
        · push_cast
          omega
      · have := h q h1
        constructor
        · exact this.1
        · push_cast
          omega

/-- Every entry of the label table is an index in `[0, number of instruction
lines]`. -/
theorem firstPass_lookup_bound (lines : List String) (L : String) (v : Int)
    (h : (firstPass lines).1.lookup L = some v) :
    0 ≤ v ∧ v ≤ ((firstPass lines).2.length : Int) := by
  have hm := lookup_mem_of_some _ L v h
  exact firstPass_foldl_bound lines ([], []) (fun q hq => absurd hq (List.not_mem_nil q))
    (L, v) hm

theorem pcInv_step (p : List Instruction)
    (hb : ∀ i ∈ p, isBranch i → 0 ≤ i.address ∧ i.address ≤ (p.length : Int))
    (s s1 : State) (hI : PcInv p s) (h : step p s = some s1) : PcInv p s1 := by
  obtain ⟨-, -, hk⟩ := step_skeleton p s s1 h
  have h0 := hI.pc_nonneg
  have hn := hI.pc_le
  rcases hk with ⟨t, ht, hpc, hif, hid⟩ | ⟨-, hdi, -, hfetch⟩
  · obtain ⟨hv, hbr, hta⟩ := branchDecision_some _ _ ht
    obtain ⟨ha0, han⟩ := hb _ (hI.idex_mem hv) hbr
    refine ⟨by omega, by omega, ?_, ?_⟩
    · intro hc; rw [hif] at hc; exact Bool.noConfusion hc
    · intro hc; rw [hid] at hc; exact Bool.noConfusion hc
  · rcases hfetch with ⟨hlt, -, hpc, -, hget⟩ | ⟨hge, hpc, hif⟩
    · exact ⟨by omega, by omega, fun _ => List.getElem?_mem hget,
        fun hc => by rw [hdi] at hc ⊢; exact hI.ifid_mem hc⟩
    · refine ⟨by omega, by omega, ?_, fun hc => by rw [hdi] at hc ⊢; exact hI.ifid_mem hc⟩
      intro hc; rw [hif] at hc; exact Bool.noConfusion hc

theorem pcInv_runCycles (p : List Instruction)
    (hb : ∀ i ∈ p, isBranch i → 0 ≤ i.address ∧ i.address ≤ (p.length : Int)) :
    ∀ (k : Nat) (s0 s : State), PcInv p s0 → runCycles p k s0 = some s → PcInv p s := by
  intro k
  induction k with
  | zero =>
    intro s0 s hI h
    simp only [runCycles, Option.some.injEq] at h
    exact h ▸ hI
  | succ k ih =>
    intro s0 s hI h
    obtain ⟨s2, hk, -, hst⟩ := runCycles_succ_last p k s0 s h
    exact pcInv_step p hb s2 s (ih s0 s2 hI hk) hst

theorem pcInv_initState (p : List Instruction) : PcInv p initState :=
  ⟨le_refl _, Int.ofNat_nonneg _, fun h => Bool.noConfusion h, fun h => Bool.noConfusion h⟩

/-- C19: for a program assembled by the front-end in which the address of
every `BEQ` and `J` is the table entry of a label, `0 ≤ pc ≤ length` holds at
the start of every cycle reached from the zero-initialised start state. -/
theorem C19_fetch_in_bounds (lines : List String) (p : List Instruction)
    (hp : assemble lines = some p)
    (hres : ∀ i ∈ p, (i.opcode = "BEQ" ∨ i.opcode = "J") →
      ∃ L, (firstPass (loadProgram lines)).1.lookup L = some i.address)
    (k : Nat) (s : State) (hk : runCycles p k initState = some s) :
    0 ≤ s.cpu.pc ∧ s.cpu.pc ≤ (p.length : Int) := by
  have hlen : p.length = (firstPass (loadProgram lines)).2.length :=
    (buildProgram_spec _ _ p hp).1
  have hb : ∀ i ∈ p, isBranch i → 0 ≤ i.address ∧ i.address ≤ (p.length : Int) := by
    intro i hi hbr
    obtain ⟨L, hL⟩ := hres i hi hbr
    rw [hlen]
    exact firstPass_lookup_bound _ L _ hL
  have hI := pcInv_runCycles p hb k initState s (pcInv_initState p) hk
  exact ⟨hI.pc_nonneg, hI.pc_le⟩

theorem example3_resolved : ∀ i ∈ example3Program, (i.opcode = "BEQ" ∨ i.opcode = "J") →
    ∃ L, (firstPass (loadProgram example3SpacedLines)).1.lookup L = some i.address := by
  intro i hi hb
  simp only [example3Program, List.mem_cons, List.mem_singleton, List.not_mem_nil,
    or_false] at hi
  rcases hi with rfl | rfl | rfl | rfl
  · exact absurd hb (by decide)
  · exact ⟨"done", by decide⟩
  · exact absurd hb (by decide)
  · exact absurd hb (by decide)

/-- Witness for C19: the third example after its flush cycle. -/
theorem C19_fetch_in_bounds_witness :
    ∃ s, runCycles example3Program 4 initState = some s ∧
      0 ≤ s.cpu.pc ∧ s.cpu.pc ≤ (example3Program.length : Int) := by
  cases h : runCycles example3Program 4 initState with
  | none =>
    have hs : (runCycles example3Program 4 initState).isSome = true := by decide
    rw [h] at hs
    exact absurd hs (by decide)
  | some s =>
    exact ⟨s, rfl, C19_fetch_in_bounds example3SpacedLines example3Program (by decide)
      example3_resolved 4 s h⟩

/-- An instruction `parseLine` marks invalid has the empty opcode or `NOP`. -/
theorem parseLine_invalid_opcode (l : String) (lm : List (String × Int)) (i : Instruction)
    (h : parseLine l lm = some i) : bubbleOpcode i := by
  intro hv
  unfold parseLine at h
  dsimp only at h
  generalize nextToken (List.dropWhile (fun c => decide (c = ' ') || decide (c = Char.ofNat 9))
    l.data) = q at h
  obtain ⟨opc, r0⟩ := q
  dsimp only at h
  by_cases h0 : opc = []
  · rw [if_pos h0] at h
    injection h with h
    subst h
    left
    rw [h0]
  · rw [if_neg h0] at h
    by_cases h1 : String.mk opc = "ADDI"
    · rw [if_pos h1] at h
      exfalso
      repeat' split at h
      all_goals first
        | exact Option.noConfusion h
        | (injection h with h; subst h; exact Bool.noConfusion hv)
    · rw [if_neg h1] at h
      by_cases h2 : String.mk opc = "ADD" ∨ String.mk opc = "SUB" ∨ String.mk opc = "MUL" ∨
          String.mk opc = "AND" ∨ String.mk opc = "OR"
      · rw [if_pos h2] at h
        exfalso
        repeat' split at h
        all_goals first
          | exact Option.noConfusion h
          | (injection h with h; subst h; exact Bool.noConfusion hv)
      · rw [if_neg h2] at h
        by_cases h3 : String.mk opc = "SLL" ∨ String.mk opc = "SRL"
        · rw [if_pos h3] at h
          exfalso
          repeat' split at h
          all_goals first
            | exact Option.noConfusion h
            | (injection h with h; subst h; exact Bool.noConfusion hv)
        · rw [if_neg h3] at h
          by_cases h4 : String.mk opc = "LW" ∨ String.mk opc = "SW"
          · rw [if_pos h4] at h
            exfalso
            repeat' split at h
            all_goals first
              | exact Option.noConfusion h
              | (injection h with h; subst h; exact Bool.noConfusion hv)
          · rw [if_neg h4] at h
            by_cases h5 : String.mk opc = "BEQ"
            · rw [if_pos h5] at h
              exfalso
              repeat' split at h
              all_goals first
                | exact Option.noConfusion h
                | (injection h with h; subst h; exact Bool.noConfusion hv)
            · rw [if_neg h5] at h
              by_cases h6 : String.mk opc = "J"
              · rw [if_pos h6] at h
                exfalso
                repeat' split at h
                all_goals first
                  | exact Option.noConfusion h
                  | (injection h with h; subst h; exact Bool.noConfusion hv)
              · rw [if_neg h6] at h
                by_cases h7 : String.mk opc = "NOP"
                · rw [if_pos h7] at h
                  injection h with h
                  subst h
                  right
                  exact h7
                · rw [if_neg h7] at h
                  injection h with h
                  subst h
                  exact Bool.noConfusion hv

theorem bubbleOpcode_default : bubbleOpcode ({} : Instruction) := fun _ => Or.inl rfl

theorem bubbleInv_step (p : List Instruction) (hp : ∀ i ∈ p, bubbleOpcode i)
    (s s1 : State) (hI : BubbleInv s) (h : step p s = some s1) : BubbleInv s1 := by
  obtain ⟨he, hm, hk⟩ := step_skeleton p s s1 h
  rcases hk with ⟨t, -, -, hif, hid⟩ | ⟨-, hdi, -, hfetch⟩
  · refine ⟨?_, ?_, he ▸ hI.idex_ok, hm ▸ hI.exmem_ok⟩
    · rw [hif]; exact bubbleOpcode_default
    · rw [hid]; exact bubbleOpcode_default
  · rcases hfetch with ⟨-, -, -, -, hget⟩ | ⟨-, -, hif⟩
    · exact ⟨hp _ (List.getElem?_mem hget), hdi ▸ hI.ifid_ok, he ▸ hI.idex_ok,
        hm ▸ hI.exmem_ok⟩
    · refine ⟨?_, hdi ▸ hI.ifid_ok, he ▸ hI.idex_ok, hm ▸ hI.exmem_ok⟩
      rw [hif]; exact bubbleOpcode_default

theorem bubbleInv_runCycles (p : List Instruction) (hp : ∀ i ∈ p, bubbleOpcode i) :
    ∀ (k : Nat) (s0 s : State), BubbleInv s0 → runCycles p k s0 = some s → BubbleInv s := by
  intro k
  induction k with
  | zero =>
    intro s0 s hI h
    simp only [runCycles, Option.some.injEq] at h
    exact h ▸ hI
  | succ k ih =>
    intro s0 s hI h
    obtain ⟨s2, hk, -, hst⟩ := runCycles_succ_last p k s0 s h
    exact bubbleInv_step p hp s2 s (ih s0 s2 hI hk) hst

theorem bubbleInv_initState : BubbleInv initState :=
  ⟨bubbleOpcode_default, bubbleOpcode_default, bubbleOpcode_default, bubbleOpcode_default⟩

/-- With the empty opcode or `NOP` in Execute/Memory the Memory stage leaves
the memory as it is and latches `memData = 0`. -/
theorem memStage_bubble (mem : Nat → Int) (e : EX_MEM)
    (h : e.inst.opcode = "" ∨ e.inst.opcode = "NOP") :
    (memStage mem e).2 = mem ∧ (memStage mem e).1.memData = 0 := by
  have hl : ¬ e.inst.opcode = "LW" := by
    rcases h with h | h <;> rw [h] <;> decide
  have hs : ¬ e.inst.opcode = "SW" := by
    rcases h with h | h <;> rw [h] <;> decide
  unfold memStage
  dsimp only
  rw [if_neg hl, if_neg hs]
  exact ⟨rfl, rfl⟩

/-- Every instruction of an assembled program is a result of `parseLine`. -/
theorem assemble_parsed (lines : List String) (p : List Instruction)
    (h : assemble lines = some p) : ∀ i ∈ p, ∃ l lm, parseLine l lm = some i := by
  intro i hi
  obtain ⟨k, hk⟩ := List.getElem?_of_mem hi
  obtain ⟨l, -, hl⟩ := (buildProgram_spec _ _ p h).2 k i hk
  exact ⟨l, _, hl⟩

/-- C20: for a program whose instructions are all results of `parseLine`, in
every state reached from the start state each latch whose instruction is not
valid has the empty opcode or `NOP`; hence for an invalid instruction in
Execute/Memory the Memory stage leaves the memory unchanged and latches
`memData = 0`. -/
theorem C20_bubbles_carry_no_memory_opcode (p : List Instruction)
    (hp : ∀ i ∈ p, ∃ l lm, parseLine l lm = some i) (k : Nat) (s : State)
    (hk : runCycles p k initState = some s) :
    (s.ifid.inst.valid = false → s.ifid.inst.opcode = "" ∨ s.ifid.inst.opcode = "NOP") ∧
    (s.idex.inst.valid = false → s.idex.inst.opcode = "" ∨ s.idex.inst.opcode = "NOP") ∧
    (s.exmem.inst.valid = false → s.exmem.inst.opcode = "" ∨ s.exmem.inst.opcode = "NOP") ∧
    (s.memwb.inst.valid = false → s.memwb.inst.opcode = "" ∨ s.memwb.inst.opcode = "NOP") ∧
    (s.exmem.inst.valid = false →
      (memStage s.cpu.mem s.exmem).2 = s.cpu.mem ∧
      (memStage s.cpu.mem s.exmem).1.memData = 0) := by
  have hp1 : ∀ i ∈ p, bubbleOpcode i := by
    intro i hi
    obtain ⟨l, lm, hl⟩ := hp i hi
    exact parseLine_invalid_opcode l lm i hl
  have hI := bubbleInv_runCycles p hp1 k initState s bubbleInv_initState hk
  exact ⟨hI.ifid_ok, hI.idex_ok, hI.exmem_ok, hI.memwb_ok,
    fun hv => memStage_bubble _ _ (hI.exmem_ok hv)⟩

/-- Witness for C20: `flushedReadProgram`, with two `NOP` lines and a taken
jump, after 6 cycles, when the flushed `ADD` would be in Execute/Memory. -/
theorem C20_bubbles_carry_no_memory_opcode_witness :
    ∃ s, runCycles flushedReadProgram 6 initState = some s ∧
      s.exmem.inst.valid = false ∧
      (s.exmem.inst.opcode = "" ∨ s.exmem.inst.opcode = "NOP") ∧
      (memStage s.cpu.mem s.exmem).2 = s.cpu.mem := by
  have h6 : (runCycles flushedReadProgram 6 initState).map
      (fun t => t.exmem.inst.valid) = some false := by decide
  obtain ⟨s, hs, hv⟩ := Option.map_eq_some'.mp h6
  have hc := C20_bubbles_carry_no_memory_opcode flushedReadProgram
    (assemble_parsed flushedReadLines flushedReadProgram (by decide)) 6 s hs
  exact ⟨s, hs, hv, hc.2.2.1 hv, (hc.2.2.2.2 hv).1⟩

/-! ## Pipeline against sequential execution -/

theorem seqStep_invalid (w : Int → Option Nat) (a : Arch) (i : Instruction)
    (h : i.valid = false) : seqStep w a i = a := by
  unfold seqStep
  rw [h]
  rfl

theorem seqRun_take_succ (w : Int → Option Nat) (p : List Instruction) (m : Nat)
    (i : Instruction) (h : p[m]? = some i) :
    seqRun w (p.take (m + 1)) = seqStep w (seqRun w (p.take m)) i := by
  unfold seqRun
  rw [List.take_succ, h, List.foldl_append]
  rfl

theorem seqRun_take_ge (w : Int → Option Nat) (p : List Instruction) (m : Nat)
    (h : p.length ≤ m) : seqRun w (p.take m) = seqRun w p := by
  rw [List.take_of_length_le h]

/-- One more cycle lets the instruction in the `d`-th latch join the
sequential run of those that have passed it. -/
theorem seqRun_advance (w : Int → Option Nat) (p : List Instruction) (k d : Nat) :
    seqRun w (p.take (k + 1 - d)) = seqStep w (seqRun w (p.take (k - d))) (slot p k d) := by
  unfold slot
  by_cases h : d ≤ k
  · rw [if_pos h]
    have e : k + 1 - d = (k - d) + 1 := by omega
    rw [e]
    cases hg : p[k - d]? with
    | some i => rw [seqRun_take_succ w p _ i hg]; rfl
    | none =>
      have hl : p.length ≤ k - d := List.getElem?_eq_none_iff.mp hg
      rw [seqRun_take_ge w p _ hl, seqRun_take_ge w p _ (Nat.le_succ_of_le hl)]
      exact (seqStep_invalid w _ _ rfl).symm
  · rw [if_neg h]
    have e : k + 1 - d = k - d := by omega
    rw [e]
    exact (seqStep_invalid w _ _ rfl).symm

theorem slot_succ (p : List Instruction) (k d : Nat) : slot p (k + 1) (d + 1) = slot p k d := by
  unfold slot
  have e : k + 1 - (d + 1) = k - d := by omega
  rw [e]
  by_cases h : d ≤ k
  · rw [if_pos h, if_pos (Nat.succ_le_succ h)]
  · rw [if_neg h, if_neg (fun hc => h (Nat.le_of_succ_le_succ hc))]

theorem slot_one (p : List Instruction) (k : Nat) : slot p (k + 1) 1 = (p[k]?).getD {} := by
  unfold slot
  rw [if_pos (Nat.succ_le_succ (Nat.zero_le k))]
  rfl

theorem slot_cases (p : List Instruction) (k d : Nat) :
    (d ≤ k ∧ p[k - d]? = some (slot p k d)) ∨ slot p k d = {} := by
  unfold slot
  by_cases h : d ≤ k
  · rw [if_pos h]
    cases hg : p[k - d]? with
    | some i => exact Or.inl ⟨h, rfl⟩
    | none => exact Or.inr rfl
  · rw [if_neg h]
    exact Or.inr rfl

theorem slot_valid (p : List Instruction) (k d : Nat) (hv : (slot p k d).valid = true) :
    d ≤ k ∧ p[k - d]? = some (slot p k d) := by
  rcases slot_cases p k d with h | h
  · exact h
  · rw [h] at hv
    exact absurd hv (by decide)

theorem slot_regs (p : List Instruction) (hreg : ∀ i ∈ p, RegsInRange i) (k d : Nat) :
    RegsInRange (slot p k d) := by
  rcases slot_cases p k d with h | h
  · exact hreg _ (List.getElem?_mem h.2)
  · rw [h]; exact regsInRange_default

theorem slot_not_branch (p : List Instruction) (hnb : ∀ i ∈ p, ¬ isBranch i) (k d : Nat) :
    ¬ isBranch (slot p k d) := by
  rcases slot_cases p k d with h | h
  · exact hnb _ (List.getElem?_mem h.2)
  · rw [h]; exact not_isBranch_default

theorem slot_bubble (p : List Instruction) (hbub : ∀ i ∈ p, bubbleOpcode i) (k d : Nat) :
    bubbleOpcode (slot p k d) := by
  rcases slot_cases p k d with h | h
  · exact hbub _ (List.getElem?_mem h.2)
  · rw [h]; exact bubbleOpcode_default

theorem seqWrite_zero (regs : Nat → Int) (r v : Int) (hr : 0 ≤ r) (h0 : regs 0 = 0) :
    seqWrite regs r v 0 = 0 := by
  unfold seqWrite
  by_cases h : r = 0
  · rw [if_pos h]; exact h0
  · rw [if_neg h]
    unfold setAt
    have : ¬ (0 = r.toNat) := by omega
    rw [if_neg this]
    exact h0

theorem seqWrite_other (regs : Nat → Int) (r d v : Int) (hd : 0 ≤ d)
    (hne : d ≠ r) : seqWrite regs d v r.toNat = regs r.toNat := by
  unfold seqWrite
  by_cases h : d = 0
  · rw [if_pos h]
  · rw [if_neg h]
    unfold setAt
    have : ¬ (r.toNat = d.toNat) := by omega
    rw [if_neg this]

/-- Register 0 stays 0 in the sequential machine. -/
theorem seqStep_regs_zero (w : Int → Option Nat) (a : Arch) (i : Instruction)
    (hi : RegsInRange i) (h0 : a.regs 0 = 0) : (seqStep w a i).regs 0 = 0 := by
  unfold seqStep
  split_ifs
  · exact seqWrite_zero _ _ _ hi.2.2.1 h0
  · exact seqWrite_zero _ _ _ hi.2.1.1 h0
  · exact seqWrite_zero _ _ _ hi.2.1.1 h0
  · exact h0
  · exact h0
  · exact h0

theorem foldl_seqStep_regs_zero (w : Int → Option Nat) :
    ∀ (p : List Instruction) (a : Arch), (∀ i ∈ p, RegsInRange i) → a.regs 0 = 0 →
      (p.foldl (seqStep w) a).regs 0 = 0 := by
  intro p
  induction p with
  | nil => intro a _ h0; exact h0
  | cons x xs ih =>
    intro a hreg h0
    rw [List.foldl_cons]
    exact ih _ (fun i hi => hreg i (List.mem_cons_of_mem _ hi))
      (seqStep_regs_zero w a x (hreg x (List.mem_cons_self _ _)) h0)

theorem seqRun_take_regs_zero (w : Int → Option Nat) (p : List Instruction)
    (hreg : ∀ i ∈ p, RegsInRange i) (m : Nat) : (seqRun w (p.take m)).regs 0 = 0 :=
  foldl_seqStep_regs_zero w _ _ (fun i hi => hreg i (List.mem_of_mem_take hi)) rfl

/-- An instruction leaves every register it does not write as it was. -/
theorem seqStep_regs_keep (w : Int → Option Nat) (a : Arch) (x : Instruction) (r : Int)
    (hr : 0 ≤ r) (hx : RegsInRange x) (h0 : a.regs 0 = 0)
    (hw : r ≠ 0 → writesReg x ≠ some r) :
    (seqStep w a x).regs r.toNat = a.regs r.toNat := by
  by_cases hz : r = 0
  · subst hz
    exact (seqStep_regs_zero w a x hx h0).trans h0.symm
  · have hw1 := hw hz
    unfold writesReg at hw1
    unfold seqStep
    by_cases hv : x.valid = true
    · rw [if_pos hv] at hw1 ⊢
      by_cases h1 : x.opcode = "ADD" ∨ x.opcode = "SUB" ∨ x.opcode = "MUL" ∨
          x.opcode = "AND" ∨ x.opcode = "OR" ∨ x.opcode = "SLL" ∨ x.opcode = "SRL"
      · rw [if_pos h1] at hw1 ⊢
        exact seqWrite_other _ _ _ _ hx.2.2.1 (fun hc => hw1 (congrArg some hc))
      · rw [if_neg h1] at hw1 ⊢
        by_cases h2 : x.opcode = "ADDI"
        · rw [if_pos (Or.inl h2)] at hw1
          rw [if_pos h2]
          exact seqWrite_other _ _ _ _ hx.2.1.1 (fun hc => hw1 (congrArg some hc))
        · rw [if_neg h2]
          by_cases h3 : x.opcode = "LW"
          · rw [if_pos (Or.inr h3)] at hw1
            rw [if_pos h3]
            exact seqWrite_other _ _ _ _ hx.2.1.1 (fun hc => hw1 (congrArg some hc))
          · rw [if_neg h3]
            split_ifs <;> rfl
    · rw [if_neg hv]

theorem noHazard_of_getElem (p : List Instruction) (hhaz : HazardFree p) (j d : Nat)
    (hd : d = 1 ∨ d = 2) (x i : Instruction) (hx : p[j]? = some x)
    (hi : p[j + d]? = some i) : noHazard x i := by
  have hm : (x, i) ∈ p.zip (p.drop d) := by
    refine List.mem_iff_getElem?.mpr ⟨j, ?_⟩
    rw [List.getElem?_zip_eq_some]
    refine ⟨hx, ?_⟩
    rw [List.getElem?_drop, Nat.add_comm]
    exact hi
  rcases hd with hd | hd
  · subst hd; exact hhaz.1 _ hm
  · subst hd; exact hhaz.2 _ hm

/-- The instruction one or two positions before `i` leaves the registers `i`
depends on as they were. -/
theorem seqRun_succ_regs (w : Int → Option Nat) (p : List Instruction)
    (hreg : ∀ i ∈ p, RegsInRange i) (hhaz : HazardFree p) (j d : Nat) (hd : d = 1 ∨ d = 2)
    (i : Instruction) (hi : p[j + d]? = some i) (hv : i.valid = true) :
    (usesRs i → (seqRun w (p.take (j + 1))).regs i.rs.toNat =
        (seqRun w (p.take j)).regs i.rs.toNat) ∧
    (usesRt i → (seqRun w (p.take (j + 1))).regs i.rt.toNat =
        (seqRun w (p.take j)).regs i.rt.toNat) := by
  have hlen : j < p.length := by
    have := (List.getElem?_eq_some.mp hi).1
    omega
  have hx : p[j]? = some (p[j]) := List.getElem?_eq_getElem hlen
  have hnh := noHazard_of_getElem p hhaz j d hd _ i hx hi hv
  have hri := hreg i (List.getElem?_mem hi)
  have hrx := hreg _ (List.getElem?_mem hx)
  rw [seqRun_take_succ w p j _ hx]
  exact ⟨fun hu => seqStep_regs_keep w _ _ _ hri.1.1 hrx (seqRun_take_regs_zero w p hreg j)
      (hnh.1 hu),
    fun hu => seqStep_regs_keep w _ _ _ hri.2.1.1 hrx (seqRun_take_regs_zero w p hreg j)
      (hnh.2 hu)⟩

/-- On a hazard-free program the registers an instruction depends on are, two
instructions earlier, already what they are when its turn comes. -/
theorem hazard_regs (w : Int → Option Nat) (p : List Instruction)
    (hreg : ∀ i ∈ p, RegsInRange i) (hhaz : HazardFree p) (j : Nat) (i : Instruction)
    (hi : p[j]? = some i) (hv : i.valid = true) :
    (usesRs i → (seqRun w (p.take (j - 2))).regs i.rs.toNat =
        (seqRun w (p.take j)).regs i.rs.toNat) ∧
    (usesRt i → (seqRun w (p.take (j - 2))).regs i.rt.toNat =
        (seqRun w (p.take j)).regs i.rt.toNat) := by
  match j, hi with
  | 0, _ => exact ⟨fun _ => rfl, fun _ => rfl⟩
  | 1, hi =>
    have h := seqRun_succ_regs w p hreg hhaz 0 1 (Or.inl rfl) i hi hv
    exact ⟨fun hu => (h.1 hu).symm, fun hu => (h.2 hu).symm⟩
  | m + 2, hi =>
    have h2 := seqRun_succ_regs w p hreg hhaz m 2 (Or.inr rfl) i hi hv
    have h1 := seqRun_succ_regs w p hreg hhaz (m + 1) 1 (Or.inl rfl) i hi hv
    exact ⟨fun hu => ((h1.1 hu).trans (h2.1 hu)).symm,
      fun hu => ((h1.2 hu).trans (h2.2 hu)).symm⟩

/-- The immediate Decode latches for the opcodes that use one. -/
theorem idStage_imm (regs : Nat → Int) (f : IF_ID) (d : ID_EX)
    (h : idStage regs f = some d) (hv : f.inst.valid = true)
    (hop : f.inst.opcode = "ADDI" ∨ (f.inst.opcode = "SLL" ∨ f.inst.opcode = "SRL") ∨
      (f.inst.opcode = "LW" ∨ f.inst.opcode = "SW")) : d.imm = f.inst.imm := by
  unfold idStage at h
  rw [if_pos hv] at h
  dsimp only at h
  by_cases h1 : f.inst.opcode = "ADDI"
  · rw [if_pos h1] at h
    cases hr : readReg regs f.inst.rs with
    | none => rw [hr] at h; exact Option.noConfusion h
    | some a =>
      rw [hr] at h
      injection h with h
      subst h
      rfl
  · rw [if_neg h1] at h
    by_cases h2 : f.inst.opcode = "ADD" ∨ f.inst.opcode = "SUB" ∨ f.inst.opcode = "MUL" ∨
        f.inst.opcode = "AND" ∨ f.inst.opcode = "OR"
    · exfalso
      rcases hop with hop | (hop | hop) | (hop | hop) <;> rw [hop] at h2 <;>
        exact absurd h2 (by decide)
    · rw [if_neg h2] at h
      by_cases h3 : f.inst.opcode = "SLL" ∨ f.inst.opcode = "SRL"
      · rw [if_pos h3] at h
        cases hr2 : readReg regs f.inst.rt with
        | none => rw [hr2] at h; exact Option.noConfusion h
        | some b =>
          rw [hr2] at h
          injection h with h
          subst h
          rfl
      · rw [if_neg h3] at h
        by_cases h4 : f.inst.opcode = "LW" ∨ f.inst.opcode = "SW"
        · rw [if_pos h4] at h
          cases hr : readReg regs f.inst.rs with
          | none => rw [hr] at h; exact Option.noConfusion h
          | some a =>
            cases hr2 : readReg regs f.inst.rt with
            | none => rw [hr, hr2] at h; exact Option.noConfusion h
            | some b =>
              rw [hr, hr2] at h
              injection h with h
              subst h
              rfl
        · exfalso
          rcases hop with hop | hop | hop
          · exact h1 hop
          · exact h3 hop
          · exact h4 hop

/-- The ALU on operands read from the registers of `a` computes the value the
sequential machine computes in `a`. -/
theorem alu_eq_specValue (a : Arch) (d : ID_EX)
    (hrs : usesRs d.inst → d.rsVal = a.regs d.inst.rs.toNat)
    (hrt : usesRt d.inst → d.rtVal = a.regs d.inst.rt.toNat)
    (himm : d.inst.opcode = "ADDI" ∨ (d.inst.opcode = "SLL" ∨ d.inst.opcode = "SRL") ∨
      (d.inst.opcode = "LW" ∨ d.inst.opcode = "SW") → d.imm = d.inst.imm) :
    alu d = specValue a d.inst := by
  unfold usesRs at hrs
  unfold usesRt at hrt
  unfold alu specValue
  dsimp only
  by_cases h1 : d.inst.opcode = "ADD"
  · rw [if_pos h1, if_pos h1, hrs (Or.inl h1), hrt (Or.inl h1)]
  rw [if_neg h1, if_neg h1]
  by_cases h2 : d.inst.opcode = "ADDI"
  · rw [if_pos h2, if_pos h2, hrs (Or.inr (Or.inl h2)), himm (Or.inl h2)]
  rw [if_neg h2, if_neg h2]
  by_cases h3 : d.inst.opcode = "SUB"
  · rw [if_pos h3, if_pos h3, hrs (Or.inr (Or.inr (Or.inl h3))), hrt (Or.inr (Or.inl h3))]
  rw [if_neg h3, if_neg h3]
  by_cases h4 : d.inst.opcode = "MUL"
  · rw [if_pos h4, if_pos h4, hrs (Or.inr (Or.inr (Or.inr (Or.inl h4)))),
      hrt (Or.inr (Or.inr (Or.inl h4)))]
  rw [if_neg h4, if_neg h4]
  by_cases h5 : d.inst.opcode = "AND"
  · rw [if_pos h5, if_pos h5, hrs (Or.inr (Or.inr (Or.inr (Or.inr (Or.inl h5))))),
      hrt (Or.inr (Or.inr (Or.inr (Or.inl h5))))]
  rw [if_neg h5, if_neg h5]
  by_cases h6 : d.inst.opcode = "OR"
  · rw [if_pos h6, if_pos h6, hrs (Or.inr (Or.inr (Or.inr (Or.inr (Or.inr (Or.inl h6)))))),
      hrt (Or.inr (Or.inr (Or.inr (Or.inr (Or.inl h6)))))]
  rw [if_neg h6, if_neg h6]
  by_cases h7 : d.inst.opcode = "SLL"
  · rw [if_pos h7, if_pos h7, hrt (Or.inr (Or.inr (Or.inr (Or.inr (Or.inr (Or.inl h7)))))),
      himm (Or.inr (Or.inl (Or.inl h7)))]
  rw [if_neg h7, if_neg h7]
  by_cases h8 : d.inst.opcode = "SRL"
  · rw [if_pos h8, if_pos h8,
      hrt (Or.inr (Or.inr (Or.inr (Or.inr (Or.inr (Or.inr (Or.inl h8))))))),
      himm (Or.inr (Or.inl (Or.inr h8)))]
  rw [if_neg h8, if_neg h8]
  by_cases h9 : d.inst.opcode = "LW" ∨ d.inst.opcode = "SW"
  · rw [if_pos h9, if_pos h9, himm (Or.inr (Or.inr h9))]
    rcases h9 with h9 | h9
    · rw [hrs (Or.inr (Or.inr (Or.inr (Or.inr (Or.inr (Or.inr (Or.inl h9)))))))]
    · rw [hrs (Or.inr (Or.inr (Or.inr (Or.inr (Or.inr (Or.inr (Or.inr h9)))))))]
  rw [if_neg h9, if_neg h9]

theorem usesRs_readsRs (i : Instruction) (h : usesRs i) : readsRs i := by
  unfold usesRs at h
  unfold readsRs
  rcases h with h | h | h | h | h | h | h | h
  · exact Or.inr (Or.inl (Or.inl h))
  · exact Or.inl h
  · exact Or.inr (Or.inl (Or.inr (Or.inl h)))
  · exact Or.inr (Or.inl (Or.inr (Or.inr (Or.inl h))))
  · exact Or.inr (Or.inl (Or.inr (Or.inr (Or.inr (Or.inl h)))))
  · exact Or.inr (Or.inl (Or.inr (Or.inr (Or.inr (Or.inr h)))))
  · exact Or.inr (Or.inr (Or.inl (Or.inl h)))
  · exact Or.inr (Or.inr (Or.inl (Or.inr h)))

theorem usesRt_readsRt (i : Instruction) (h : usesRt i) : readsRt i := by
  unfold usesRt at h
  unfold readsRt
  rcases h with h | h | h | h | h | h | h | h
  · exact Or.inl (Or.inl h)
  · exact Or.inl (Or.inr (Or.inl h))
  · exact Or.inl (Or.inr (Or.inr (Or.inl h)))
  · exact Or.inl (Or.inr (Or.inr (Or.inr (Or.inl h))))
  · exact Or.inl (Or.inr (Or.inr (Or.inr (Or.inr h))))
  · exact Or.inr (Or.inl (Or.inl h))
  · exact Or.inr (Or.inl (Or.inr h))
  · exact Or.inr (Or.inr (Or.inl (Or.inr h)))

/-- Decode: when the registers an instruction depends on are in `regs` what
they are in the sequential state `a`, the latch holds the operands `a` gives
the instruction. -/
theorem idStage_ok (a : Arch) (regs : Nat → Int) (f : IF_ID) (d : ID_EX)
    (h : idStage regs f = some d)
    (hrs : f.inst.valid = true → usesRs f.inst →
      regs f.inst.rs.toNat = a.regs f.inst.rs.toNat)
    (hrt : f.inst.valid = true → usesRt f.inst →
      regs f.inst.rt.toNat = a.regs f.inst.rt.toNat) : IdexOK a d := by
  intro hv
  have hinst := (idStage_some regs f d h).1
  rw [hinst] at hv ⊢
  have hrs := hrs hv
  have hrt := hrt hv
  have hop := idStage_operands regs f d h hv
  refine ⟨?_, ?_⟩
  · have := alu_eq_specValue a d
      (by rw [hinst]; exact fun hu => ((hop.1 (usesRs_readsRs _ hu)).2).trans (hrs hu))
      (by rw [hinst]; exact fun hu => ((hop.2 (usesRt_readsRt _ hu)).2).trans (hrt hu))
      (by rw [hinst]; exact idStage_imm regs f d h hv)
    rw [hinst] at this
    exact this
  · intro hsw
    have hu : usesRt f.inst := by
      unfold usesRt
      exact Or.inr (Or.inr (Or.inr (Or.inr (Or.inr (Or.inr (Or.inr hsw))))))
    exact ((hop.2 (usesRt_readsRt _ hu)).2).trans (hrt hu)

/-- Execute hands the operands on as the result. -/
theorem exStage_ok (a : Arch) (d : ID_EX) (h : IdexOK a d) : ExmemOK a (exStage d).1 := by
  intro hv
  have hv1 : d.inst.valid = true := hv
  obtain ⟨h1, h2⟩ := h hv1
  refine ⟨?_, h2⟩
  show (if d.inst.valid = true then alu d else 0) = specValue a d.inst
  rw [if_pos hv1]
  exact h1

/-- Memory does to the data memory what the sequential machine does, and
latches the word the sequential machine loads. -/
theorem memStage_ok (a : Arch) (mem : Nat → Int) (e : EX_MEM) (h : ExmemOK a e)
    (hb : bubbleOpcode e.inst) (hm : mem = a.mem) :
    MemwbOK a (memStage mem e).1 ∧ (memStage mem e).2 = (seqStep codeWordIndex a e.inst).mem := by
  subst hm
  by_cases hv : e.inst.valid = true
  · obtain ⟨h1, h2⟩ := h hv
    unfold memStage seqStep
    rw [if_pos hv]
    dsimp only
    by_cases hl : e.inst.opcode = "LW"
    · rw [if_pos hl]
      refine ⟨?_, ?_⟩
      · intro _
        refine ⟨h1, fun _ => ?_⟩
        show (if 0 ≤ Int.tdiv e.aluResult 4 ∧ Int.tdiv e.aluResult 4 < (MEM_SIZE : Int)
          then a.mem (Int.tdiv e.aluResult 4).toNat else 0) = _
        rw [← h1]
        unfold loadWord codeWordIndex
        split_ifs <;> rfl
      · rw [hl]
        rfl
    · rw [if_neg hl]
      by_cases hs : e.inst.opcode = "SW"
      · rw [if_pos hs]
        refine ⟨fun _ => ⟨h1, fun hc => absurd hc hl⟩, ?_⟩
        rw [hs]
        show (if 0 ≤ Int.tdiv e.aluResult 4 ∧ Int.tdiv e.aluResult 4 < (MEM_SIZE : Int)
          then setAt a.mem (Int.tdiv e.aluResult 4).toNat e.rtVal else a.mem) =
          storeWord codeWordIndex a.mem (specValue a e.inst) (a.regs e.inst.rt.toNat)
        rw [← h1, ← h2 hs]
        unfold storeWord codeWordIndex
        split_ifs <;> rfl
      · rw [if_neg hs]
        refine ⟨fun _ => ⟨h1, fun hc => absurd hc hl⟩, ?_⟩
        rw [if_neg hl, if_neg hs]
        split_ifs <;> rfl
  · have hv0 : e.inst.valid = false := by
      cases hvv : e.inst.valid
      · rfl
      · exact absurd hvv hv
    have hop := hb hv0
    have hl : ¬ e.inst.opcode = "LW" := by
      rcases hop with hop | hop <;> rw [hop] <;> decide
    have hs : ¬ e.inst.opcode = "SW" := by
      rcases hop with hop | hop <;> rw [hop] <;> decide
    rw [seqStep_invalid _ _ _ hv0]
    unfold memStage
    dsimp only
    rw [if_neg hl, if_neg hs]
    exact ⟨fun hc => absurd hc hv, rfl⟩

theorem setAt_zero_id (regs : Nat → Int) (h0 : regs 0 = 0) : setAt regs 0 0 = regs := by
  funext j
  unfold setAt
  by_cases hj : j = 0
  · rw [if_pos hj, hj, h0]
  · rw [if_neg hj]

theorem setAt_zero_seqWrite (regs : Nat → Int) (d v : Int) (hd : 0 ≤ d) (h0 : regs 0 = 0) :
    setAt (setAt regs d.toNat v) 0 0 = seqWrite regs d v := by
  funext j
  unfold seqWrite
  by_cases hz : d = 0
  · rw [if_pos hz, hz]
    unfold setAt
    by_cases hj : j = 0
    · rw [if_pos hj, hj, h0]
    · rw [if_neg hj]
      have : ¬ (j = (0 : Int).toNat) := hj
      rw [if_neg this]
  · rw [if_neg hz]
    unfold setAt
    by_cases hj : j = 0
    · have : ¬ (j = d.toNat) := by omega
      rw [if_pos hj, if_neg this, hj, h0]
    · rw [if_neg hj]

/-- Write-Back does to the registers what the sequential machine does. -/
theorem wbStage_ok (a : Arch) (regs r : Nat → Int) (m : MEM_WB) (h : MemwbOK a m)
    (hr : regs = a.regs) (h0 : a.regs 0 = 0) (hw : wbStage regs m = some r) :
    r = (seqStep codeWordIndex a m.inst).regs := by
  subst hr
  obtain ⟨hinv, hval⟩ := wbStage_spec _ _ _ hw
  by_cases hv : m.inst.valid = true
  · obtain ⟨h1, h2⟩ := h hv
    obtain ⟨hsome, hnone⟩ := hval hv
    unfold wbTarget at hsome hnone
    rw [if_pos hv] at hsome hnone
    dsimp only at hsome hnone
    unfold seqStep
    rw [if_pos hv]
    by_cases c1 : m.inst.opcode = "ADD" ∨ m.inst.opcode = "SUB" ∨ m.inst.opcode = "MUL" ∨
        m.inst.opcode = "AND" ∨ m.inst.opcode = "OR" ∨ m.inst.opcode = "SLL" ∨
        m.inst.opcode = "SRL"
    · rw [if_pos c1] at hsome
      rw [if_pos c1]
      obtain ⟨hd, hr⟩ := hsome _ _ rfl
      rw [hr, h1]
      exact setAt_zero_seqWrite _ _ _ hd.1 h0
    · rw [if_neg c1] at hsome hnone
      rw [if_neg c1]
      by_cases c2 : m.inst.opcode = "ADDI"
      · rw [if_pos c2] at hsome
        rw [if_pos c2]
        obtain ⟨hd, hr⟩ := hsome _ _ rfl
        rw [hr, h1]
        exact setAt_zero_seqWrite _ _ _ hd.1 h0
      · rw [if_neg c2] at hsome hnone
        rw [if_neg c2]
        by_cases c3 : m.inst.opcode = "LW"
        · rw [if_pos c3] at hsome
          rw [if_pos c3]
          obtain ⟨hd, hr⟩ := hsome _ _ rfl
          rw [hr, h2 c3]
          exact setAt_zero_seqWrite _ _ _ hd.1 h0
        · rw [if_neg c3] at hnone
          rw [if_neg c3]
          rw [hnone rfl, setAt_zero_id _ h0]
          split_ifs <;> rfl
  · have hv0 : m.inst.valid = false := by
      cases hvv : m.inst.valid
      · rfl
      · exact absurd hvv hv
    rw [seqStep_invalid _ _ _ hv0]
    exact hinv hv0

theorem seqRun_advance_invalid (w : Int → Option Nat) (p : List Instruction) (k d : Nat)
    (h : (slot p k d).valid = false) :
    seqRun w (p.take (k + 1 - d)) = seqRun w (p.take (k - d)) := by
  rw [seqRun_advance, seqStep_invalid _ _ _ h]

theorem seqInv_initState (p : List Instruction) : SeqInv p 0 initState where
  pc_eq := by
    show (0 : Int) = ((min 0 p.length : Nat) : Int)
    rw [Nat.zero_min]
    rfl
  regs_eq := rfl
  mem_eq := rfl
  ifid_inst := rfl
  idex_inst := rfl
  exmem_inst := rfl
  memwb_inst := rfl
  idex_ok := fun hv => absurd hv (by decide)
  exmem_ok := fun hv => absurd hv (by decide)
  memwb_ok := fun hv => absurd hv (by decide)

/-- One cycle keeps the correspondence with the sequential run. -/
theorem seqInv_step (p : List Instruction) (hreg : ∀ i ∈ p, RegsInRange i)
    (hnb : ∀ i ∈ p, ¬ isBranch i) (hbub : ∀ i ∈ p, bubbleOpcode i) (hhaz : HazardFree p)
    (k : Nat) (s s1 : State) (hI : SeqInv p k s) (h1 : step p s = some s1) :
    SeqInv p (k + 1) s1 := by
  obtain ⟨regs1, nextIdex, nextIfid, pc1, hw, hd, hf, hs1⟩ := step_some p s s1 h1
  have hbr : branchDecision s.idex = none :=
    branchDecision_of_not_branch _ (by rw [hI.idex_inst]; exact slot_not_branch p hnb k 2)
  rw [hbr] at hs1
  dsimp only at hs1
  subst hs1
  have e4 : k + 1 - 4 = k - 3 := by omega
  have e3 : k + 1 - 3 = k - 2 := by omega
  have e2 : k + 1 - 2 = k - 1 := by omega
  have hregs1 : regs1 = (seqRun codeWordIndex (p.take (k + 1 - 4))).regs := by
    rw [seqRun_advance _ p k 4, ← hI.memwb_inst]
    exact wbStage_ok _ _ _ _ hI.memwb_ok hI.regs_eq (seqRun_take_regs_zero _ p hreg _) hw
  have hmem := memStage_ok _ s.cpu.mem s.exmem hI.exmem_ok
    (by rw [hI.exmem_inst]; exact slot_bubble p hbub k 3) hI.mem_eq
  have hpc := hI.pc_eq
  refine ⟨?_, hregs1, ?_, ?_, ?_, ?_, ?_, ?_, ?_, ?_⟩
  · show pc1 = ((min (k + 1) p.length : Nat) : Int)
    rcases ifStage_some p _ _ _ hf with ⟨h1, -, h3, -, -⟩ | ⟨h1, h3, -⟩
    · rw [h3, hpc]
      rw [hpc] at h1
      omega
    · rw [h3, hpc]
      rw [hpc] at h1
      omega
  · show (memStage s.cpu.mem s.exmem).2 = _
    rw [seqRun_advance _ p k 3, ← hI.exmem_inst]
    exact hmem.2
  · show nextIfid.inst = slot p (k + 1) 1
    rw [slot_one]
    rcases ifStage_some p _ _ _ hf with ⟨h1, h2, -, -, h5⟩ | ⟨h1, -, h3⟩
    · have hk : s.cpu.pc.toNat = k := by
        rw [hpc] at h1 ⊢
        omega
      rw [hk] at h5
      rw [h5]
      rfl
    · have hk : p.length ≤ k := by
        rw [hpc] at h1
        omega
      rw [List.getElem?_eq_none hk, h3]
      rfl
  · show nextIdex.inst = slot p (k + 1) 2
    rw [(idStage_some _ _ _ hd).1, hI.ifid_inst, slot_succ]
  · show s.idex.inst = slot p (k + 1) 3
    rw [hI.idex_inst, slot_succ]
  · show (memStage s.cpu.mem s.exmem).1.inst = slot p (k + 1) 4
    rw [memStage_inst, hI.exmem_inst, slot_succ]
  · show IdexOK (seqRun codeWordIndex (p.take (k + 1 - 2))) nextIdex
    have key : ∀ hv : s.ifid.inst.valid = true,
        (usesRs s.ifid.inst → regs1 s.ifid.inst.rs.toNat =
          (seqRun codeWordIndex (p.take (k + 1 - 2))).regs s.ifid.inst.rs.toNat) ∧
        (usesRt s.ifid.inst → regs1 s.ifid.inst.rt.toNat =
          (seqRun codeWordIndex (p.take (k + 1 - 2))).regs s.ifid.inst.rt.toNat) := by
      intro hv
      rw [hI.ifid_inst] at hv ⊢
      obtain ⟨-, hget⟩ := slot_valid p k 1 hv
      have hz := hazard_regs codeWordIndex p hreg hhaz (k - 1) _ hget hv
      have e : k - 1 - 2 = k + 1 - 4 := by omega
      rw [e, ← hregs1, ← e2] at hz
      exact hz
    exact idStage_ok _ _ _ _ hd (fun hv => (key hv).1) (fun hv => (key hv).2)
  · show ExmemOK (seqRun codeWordIndex (p.take (k + 1 - 3))) (exStage s.idex).1
    rw [e3]
    exact exStage_ok _ _ hI.idex_ok
  · show MemwbOK (seqRun codeWordIndex (p.take (k + 1 - 4))) (memStage s.cpu.mem s.exmem).1
    rw [e4]
    exact hmem.1

/-- When the loop ends, the registers and the memory are those of the whole
sequential run. -/
theorem seqInv_final (p : List Instruction) (k : Nat) (s : State) (hI : SeqInv p k s)
    (hc : ¬ loopCond p s = true) :
    s.cpu.regs = (seqRun codeWordIndex p).regs ∧ s.cpu.mem = (seqRun codeWordIndex p).mem := by
  unfold loopCond at hc
  simp only [Bool.or_eq_true, decide_eq_true_eq, not_or, Bool.not_eq_true] at hc
  obtain ⟨⟨⟨⟨hpc, h1⟩, h2⟩, h3⟩, h4⟩ := hc
  rw [hI.pc_eq] at hpc
  have hk : p.length ≤ k := by omega
  rw [hI.ifid_inst] at h1
  rw [hI.idex_inst] at h2
  rw [hI.exmem_inst] at h3
  rw [hI.memwb_inst] at h4
  have a1 := seqRun_advance_invalid codeWordIndex p k 1 h1
  have a2 := seqRun_advance_invalid codeWordIndex p k 2 h2
  have a3 := seqRun_advance_invalid codeWordIndex p k 3 h3
  have a4 := seqRun_advance_invalid codeWordIndex p k 4 h4
  have e1 : k + 1 - 1 = k := by omega
  have e2 : k + 1 - 2 = k - 1 := by omega
  have e3 : k + 1 - 3 = k - 2 := by omega
  have e4 : k + 1 - 4 = k - 3 := by omega
  rw [e1, seqRun_take_ge _ p k hk] at a1
  rw [e2, ← a1] at a2
  rw [e3, ← a2] at a3
  rw [e4, ← a3] at a4
  exact ⟨by rw [hI.regs_eq, ← a4], by rw [hI.mem_eq, ← a3]⟩

theorem runLoop_seqInv (p : List Instruction) (hreg : ∀ i ∈ p, RegsInRange i)
    (hnb : ∀ i ∈ p, ¬ isBranch i) (hbub : ∀ i ∈ p, bubbleOpcode i) (hhaz : HazardFree p) :
    ∀ (fuel k : Nat) (s : State) (c : Nat) (s1 : State) (c1 : Nat), SeqInv p k s →
      runLoop p fuel s c = Run.done s1 c1 →
      s1.cpu.regs = (seqRun codeWordIndex p).regs ∧
        s1.cpu.mem = (seqRun codeWordIndex p).mem := by
  intro fuel
  induction fuel with
  | zero =>
    intro k s c s1 c1 hI h
    by_cases hc : loopCond p s = true
    · simp only [runLoop, if_pos hc] at h
      exact Run.noConfusion h
    · simp only [runLoop, if_neg hc] at h
      injection h with hs _
      subst hs
      exact seqInv_final p k s hI hc
  | succ fuel ih =>
    intro k s c s1 c1 hI h
    by_cases hc : loopCond p s = true
    · simp only [runLoop, if_pos hc] at h
      cases hstep : step p s with
      | none => rw [hstep] at h; exact Run.noConfusion h
      | some s2 =>
        rw [hstep] at h
        exact ih (k + 1) s2 (c + 1) s1 c1 (seqInv_step p hreg hnb hbub hhaz k s s2 hI hstep) h
    · simp only [runLoop, if_neg hc] at h
      injection h with hs _
      subst hs
      exact seqInv_final p k s hI hc

/-- A hazard-free program without branches drains, and leaves the registers
and the memory that executing its instructions one at a time leaves, the word
index of a load or store being the one the Memory stage computes. -/
theorem pipeline_matches_sequential (p : List Instruction) (hreg : ∀ i ∈ p, RegsInRange i)
    (hnb : ∀ i ∈ p, ¬ isBranch i) (hbub : ∀ i ∈ p, bubbleOpcode i) (hhaz : HazardFree p) :
    ∃ s c, runLoop p (p.length + 4) initState 0 = Run.done s c ∧
      s.cpu.regs = (seqRun codeWordIndex p).regs ∧
      s.cpu.mem = (seqRun codeWordIndex p).mem := by
  obtain ⟨s, c, h⟩ := runLoop_drain_done p hreg hnb (p.length + 4) initState 0
    drainInv_initState latchRegs_initState (drainBound_initState p)
  exact ⟨s, c, h, runLoop_seqInv p hreg hnb hbub hhaz _ 0 _ _ _ _ (seqInv_initState p) h⟩

/-- Outside `-3..-1` the Memory stage designates the word the specification
designates. -/
theorem codeWordIndex_eq_specWordIndex (a : Int) (h : ¬ (-4 < a ∧ a < 0)) :
    codeWordIndex a = specWordIndex a := by
  unfold codeWordIndex specWordIndex MEM_SIZE
  by_cases ha : 0 ≤ a
  · rw [Int.tdiv_eq_ediv ha (by decide)]
    have e : (0 ≤ a / 4 ∧ a / 4 < ((1024 : Nat) : Int)) ↔
        (0 ≤ a ∧ a < 4 * ((1024 : Nat) : Int)) := by
      constructor <;> intro hh <;> constructor <;> omega
    by_cases hh : 0 ≤ a ∧ a < 4 * ((1024 : Nat) : Int)
    · rw [if_pos hh, if_pos (e.mpr hh)]
    · rw [if_neg hh, if_neg (fun hc => hh (e.mp hc))]
  · have hneg : Int.tdiv a 4 < 0 := by
      have h4 : a ≤ -4 := by omega
      rw [(tdiv_four a).2 (by omega)]
      omega
    rw [if_neg (fun hc => absurd hc.1 (by omega)), if_neg (fun hc => ha hc.1)]

theorem seqStep_congr (w1 w2 : Int → Option Nat) (a : Arch) (i : Instruction)
    (h : i.valid = true → (i.opcode = "LW" ∨ i.opcode = "SW") →
      w1 (specValue a i) = w2 (specValue a i)) : seqStep w1 a i = seqStep w2 a i := by
  unfold seqStep
  by_cases hv : i.valid = true
  · rw [if_pos hv, if_pos hv]
    by_cases h1 : i.opcode = "ADD" ∨ i.opcode = "SUB" ∨ i.opcode = "MUL" ∨
        i.opcode = "AND" ∨ i.opcode = "OR" ∨ i.opcode = "SLL" ∨ i.opcode = "SRL"
    · rw [if_pos h1, if_pos h1]
    · rw [if_neg h1, if_neg h1]
      by_cases h2 : i.opcode = "ADDI"
      · rw [if_pos h2, if_pos h2]
      · rw [if_neg h2, if_neg h2]
        by_cases h3 : i.opcode = "LW"
        · rw [if_pos h3, if_pos h3]
          unfold loadWord
          rw [h hv (Or.inl h3)]
        · rw [if_neg h3, if_neg h3]
          by_cases h4 : i.opcode = "SW"
          · rw [if_pos h4, if_pos h4]
            unfold storeWord
            rw [h hv (Or.inr h4)]
          · rw [if_neg h4, if_neg h4]
  · rw [if_neg hv, if_neg hv]

/-- The two readings of the word index give the same sequential run when no
load or store has an effective address in `-3..-1`. -/
theorem seqRun_code_eq_spec (p : List Instruction) (h : NoSmallNegativeAddress p) :
    seqRun codeWordIndex p = seqRun specWordIndex p := by
  have key : ∀ m, seqRun codeWordIndex (p.take m) = seqRun specWordIndex (p.take m) := by
    intro m
    induction m with
    | zero => rfl
    | succ m ih =>
      cases hg : p[m]? with
      | none =>
        have hl : p.length ≤ m := List.getElem?_eq_none_iff.mp hg
        rw [seqRun_take_ge _ p _ (Nat.le_succ_of_le hl),
          seqRun_take_ge _ p _ (Nat.le_succ_of_le hl), ← seqRun_take_ge _ p m hl,
          ← seqRun_take_ge specWordIndex p m hl]
        exact ih
      | some i =>
        rw [seqRun_take_succ _ p m i hg, seqRun_take_succ _ p m i hg, ih]
        have hm : m ∈ List.range p.length :=
          List.mem_range.mpr (List.getElem?_eq_some.mp hg).1
        have hh := h m hm
        rw [hg] at hh
        exact seqStep_congr _ _ _ _ (fun hv hop =>
          codeWordIndex_eq_specWordIndex _ (hh hv hop))
  have := key p.length
  rw [List.take_length] at this
  exact this

/-- An assembled program without branches, register indices in range, without
hazards and without a load or store at an effective address in `-3..-1`
drains, and leaves the registers and the memory of the sequential execution
the specification describes. -/
theorem pipeline_matches_spec (lines : List String) (p : List Instruction)
    (hasm : assemble lines = some p) (hreg : ∀ i ∈ p, RegsInRange i)
    (hnb : ∀ i ∈ p, ¬ isBranch i) (hhaz : HazardFree p) (haddr : NoSmallNegativeAddress p) :
    ∃ s c, runLoop p (p.length + 4) initState 0 = Run.done s c ∧
      s.cpu.regs = (seqRun specWordIndex p).regs ∧
      s.cpu.mem = (seqRun specWordIndex p).mem := by
  have hbub : ∀ i ∈ p, bubbleOpcode i := by
    intro i hi
    obtain ⟨l, lm, hl⟩ := assemble_parsed lines p hasm i hi
    exact parseLine_invalid_opcode l lm i hl
  obtain ⟨s, c, h, hr, hm⟩ := pipeline_matches_sequential p hreg hnb hbub hhaz
  rw [seqRun_code_eq_spec p haddr] at hr hm
  exact ⟨s, c, h, hr, hm⟩

/-- The program `hazardFreeLines`, which stores a word and loads it back,
ends as its sequential execution does: `$t2 = 13`, `$t3 = 5`, `mem[2] = 5`. -/
theorem pipeline_matches_spec_hazardFree :
    (∃ s c, runLoop hazardFreeProgram 12 initState 0 = Run.done s c ∧
      s.cpu.regs = (seqRun specWordIndex hazardFreeProgram).regs ∧
      s.cpu.mem = (seqRun specWordIndex hazardFreeProgram).mem) ∧
    (seqRun specWordIndex hazardFreeProgram).regs 10 = 13 ∧
    (seqRun specWordIndex hazardFreeProgram).regs 11 = 5 ∧
    (seqRun specWordIndex hazardFreeProgram).mem 2 = 5 :=
  ⟨pipeline_matches_spec hazardFreeLines hazardFreeProgram (by decide) (by decide) (by decide)
    (by decide) (by decide), by decide, by decide, by decide⟩

/-- C18, the code at the failing input: the program `negativeStoreLines` has
no `BEQ` and no `J`, register indices in `0..31` and no hazard, and stores to
byte address `-1`. The pipeline drains with `mem[0] = 7`; executing the
instructions one at a time with the semantics of the specification, where the
store at a negative address is dropped, leaves `mem[0] = 0`. With the word
index of the Memory stage the sequential execution also leaves 7. -/
theorem C18_negative_store_breaks_refinement :
    assemble negativeStoreLines = some negativeStoreProgram ∧
    (∀ i ∈ negativeStoreProgram, RegsInRange i) ∧
    (∀ i ∈ negativeStoreProgram, ¬ isBranch i) ∧
    HazardFree negativeStoreProgram ∧
    (runLoop negativeStoreProgram 8 initState 0).memWord 0 = some 7 ∧
    (seqRun specWordIndex negativeStoreProgram).mem 0 = 0 ∧
    (seqRun codeWordIndex negativeStoreProgram).mem 0 = 7 := by
  refine ⟨negativeStore_assembles, by decide, by decide, by decide, by decide, by decide,
    by decide⟩

/-! ## Invalid instructions in the latches -/

end MipsSim
